import Mathlib

/-!
Verification of tf2_bot_detector: `RCONActionManager` and `PlayerListJSON`

A shallow embedding of `tf2_bot_detector/Actions/RCONActionManager.cpp` and
theorems about its action queue, its tick processor (`Update`) and its dispatch
worker (`RCONThreadFunc`); and of the JSON conversion of `PlayerAttributesList` in
`tf2_bot_detector/PlayerListJSON.cpp`, with the round trip of `to_json` and `from_json`.

Conventions of the embedding
* `time_point_t` and `duration_t` are integers (clock ticks since the epoch); a
  value-initialised `time_point_t` is `0`. The 64-bit tick counts of the clock are
  far from overflowing, so the arithmetic on them is that of the integers.
* `size_t` quantities are natural numbers; the only arithmetic on them is the
  increment of `count` in `QueueAction`, which is bounded by the length of the queue.
* `ActionType` is the numeric value of the enumerator.
* An `IAction` is the record of what its virtual methods return; `WriteCommands`
  is the list of `Write(cmd, args)` calls it makes on the writer it is handed.
* A generator is an object with private state; `Execute` submits a sequence of
  actions through `QueueAction`.
* Calls to collaborators (generators, the RCON client, the world state, promises)
  are recorded in an event trace returned next to the new state.
* The two threads meet only at `m_RCONCommands`, under `m_RCONCommandsMutex`:
  `RunCommandAsync` appends at the tail, the worker reads and pops the front. One
  iteration of the worker's drain loop is a step; what the RCON client does during
  the step is an input of the step.
* Logging (`Log`, `DebugLog`, `LogError`) has no effect on the state and is left out;
  `m_WorldState` is set from a reference by the constructor and is never null.
* Constants and default arguments declared in headers are parameters: the update
  interval of `Update`, the default of the second parameter of `SetAttribute`.
* A function that can throw returns `Option` or `Except`.
-/

namespace tf2_bot_detector

/-! ## Data model -/

/-- The enumeration `ActionType`, by the numeric value of the enumerator. -/
abbrev ActionType := Nat

/-- The type `time_point_t`: clock ticks since the epoch. -/
abbrev time_point_t := Int

/-- The type `duration_t`: a number of clock ticks. -/
abbrev duration_t := Int

/-- The interface `IAction`: the values of `GetType()`, `GetMaxQueuedCount()`,
`GetMinInterval()` and the `Write(cmd, args)` calls made by `WriteCommands(writer)`. -/
structure IAction where
  GetType : ActionType
  GetMaxQueuedCount : Nat
  GetMinInterval : duration_t
  WriteCommands : List (String × String)
  deriving DecidableEq, Repr

/-- The interface `IActionGenerator` (and `IPeriodicActionGenerator`): an object with
private state whose `Execute(manager)` calls `manager.QueueAction` on a sequence of
actions. It observes the manager through the action queue. -/
structure IActionGenerator where
  σ : Type
  state : σ
  Execute : σ → List IAction → σ × List IAction

/-- The state of a `std::promise<std::string>` shared with its future. -/
inductive PromiseState where
  | pending
  | value (r : String)
  | exception
  deriving DecidableEq, Repr

/-- The class `RCONActionManager::RCONCommand`; `m_Promise` is the identity of the
shared promise (an index into the table of promises). -/
structure RCONCommand where
  m_Command : String
  m_Reliable : Bool
  m_Promise : Nat
  deriving DecidableEq, Repr

/-- The member `Settings::m_Unsaved`, as far as `RCONActionManager` reads it. -/
structure Settings where
  m_RCONPassword : String
  m_RCONPort : Nat
  m_DebugShowCommands : Bool
  deriving DecidableEq, Repr

/-- The members of `RCONActionManager`, with the state of the collaborators it owns or
points to: the table of promises created by `RCONCommand`'s constructor (`nextPromise`
is the identity the next promise gets), whether `m_RCONClient` is connected, and the
chunks `m_WorldState` has received through `AddConsoleOutputChunk`, oldest first. -/
structure RCONActionManager where
  m_Actions : List IAction
  m_PeriodicActionGenerators : List IActionGenerator
  m_PiggybackActionGenerators : List IActionGenerator
  m_LastTriggerTime : ActionType → time_point_t
  m_LastUpdateTime : time_point_t
  m_RCONCommands : List RCONCommand
  promises : Nat → PromiseState
  nextPromise : Nat
  m_RCONClient_connected : Bool
  m_Settings : Settings
  m_WorldState : List String

/-- The manager right after construction: empty containers, value-initialised times. -/
def RCONActionManager.init (settings : Settings) : RCONActionManager where
  m_Actions := []
  m_PeriodicActionGenerators := []
  m_PiggybackActionGenerators := []
  m_LastTriggerTime := fun _ => 0
  m_LastUpdateTime := 0
  m_RCONCommands := []
  promises := fun _ => PromiseState.pending
  nextPromise := 0
  m_RCONClient_connected := false
  m_Settings := settings
  m_WorldState := []

/-! ## QueueAction -/

/-- The range-for loop of `QueueAction` (lines 47-54) from a running `count`:
`true` when it executes `return false`, that is when the action is rejected. -/
def QueueAction.loop (curActionType : ActionType) (maxQueuedCount : Nat) :
    List IAction → Nat → Bool
  | [], _ => false
  | queuedAction :: rest, count =>
    if queuedAction.GetType = curActionType then
      if count + 1 ≥ maxQueuedCount then true
      else QueueAction.loop curActionType maxQueuedCount rest (count + 1)
    else QueueAction.loop curActionType maxQueuedCount rest count

/-- The method `RCONActionManager::QueueAction` on the action queue: the returned flag
and the queue afterwards. -/
def QueueAction (m_Actions : List IAction) (action : IAction) : Bool × List IAction :=
  if action.GetMaxQueuedCount ≤ m_Actions.length ∧
      QueueAction.loop action.GetType action.GetMaxQueuedCount m_Actions 0 = true then
    (false, m_Actions)
  else
    (true, m_Actions ++ [action])

/-- The function `QueueAction` as a member function: the flag and the manager afterwards. -/
def RCONActionManager.QueueAction (self : RCONActionManager) (action : IAction) :
    Bool × RCONActionManager :=
  ((tf2_bot_detector.QueueAction self.m_Actions action).1,
   { self with m_Actions := (tf2_bot_detector.QueueAction self.m_Actions action).2 })

/-- A sequence of `QueueAction` calls with no tick in between: each submitted action
paired with the flag its call returned, and the queue afterwards. -/
def submitAll : List IAction → List IAction → List (IAction × Bool) × List IAction
  | m_Actions, [] => ([], m_Actions)
  | m_Actions, action :: rest =>
    let r := QueueAction m_Actions action
    let rs := submitAll r.2 rest
    ((action, r.1) :: rs.1, rs.2)

/-- Number of submissions of type `T` in a log of `submitAll` that returned `flag`. -/
def countReturned (T : ActionType) (flag : Bool) (log : List (IAction × Bool)) : Nat :=
  log.countP (fun e => decide (e.1.GetType = T) && (e.2 == flag))

/-- Number of queued or submitted actions of type `T`. -/
def countType (T : ActionType) (actions : List IAction) : Nat :=
  actions.countP (fun a => decide (a.GetType = T))

/-- Example action: type 3 ("Kick"), cap 1, no cooldown, one command. -/
def exKickA : IAction := ⟨3, 1, 0, [("callvote", "kick 7 cheating")]⟩

/-- Example action: type 3 ("Kick"), cap 1, no cooldown, another command. -/
def exKickB : IAction := ⟨3, 1, 0, [("callvote", "kick 9 cheating")]⟩

/-- Example action of type 3 that declares a cap of zero. -/
def exCapZero : IAction := ⟨3, 0, 0, []⟩

/-- Example action of another type (type 1) with cap 2. -/
def exOther : IAction := ⟨1, 2, 0, [("say", "hi")]⟩

/-! ## RunCommandAsync and the command writer -/

/-- Modelled from the spec: the default value of the parameter `reliable` of
`RunCommandAsync` is declared in `RCONActionManager.h`, which is not among the sources;
the spec has the command sink forward to `enqueue(text, reliable=false)`. -/
def RunCommandAsync.defaultReliable : Bool := false

/-- The method `RCONActionManager::RunCommandAsync`: `m_RCONCommands.emplace(cmd, reliable)`; the
constructor of `RCONCommand` creates a fresh pending promise. Returns the manager and
the identity of the promise behind the returned future. -/
def RCONActionManager.RunCommandAsync (self : RCONActionManager) (cmd : String)
    (reliable : Bool) : RCONActionManager × Nat :=
  ({ self with
      m_RCONCommands := self.m_RCONCommands ++ [⟨cmd, reliable, self.nextPromise⟩]
      promises := Function.update self.promises self.nextPromise PromiseState.pending
      nextPromise := self.nextPromise + 1 },
   self.nextPromise)

/-- Calls that `Update` makes on its collaborators, in the order they happen. -/
inductive UpdateEvent where
  /-- Call of `m_PeriodicActionGenerators[index]->Execute(*this)` -/
  | periodicExecute (index : Nat)
  /-- Call of `m_PiggybackActionGenerators[index]->Execute(*this)` -/
  | piggybackExecute (index : Nat)
  /-- Call of `action->WriteCommands(writer)` -/
  | WriteCommands (action : IAction)
  /-- Call of `writer.Write(cmd, args)` -/
  | Write (cmd args : String)
  deriving DecidableEq, Repr

/-- The locals of `Update` that the lambdas `ProcessAction` and `ProcessActions` capture
by reference, next to `this`: the array `actionTypes` and `writer.m_AnyCmdsRun`. -/
structure UpdateFrame where
  self : RCONActionManager
  actionTypes : ActionType → Bool
  m_AnyCmdsRun : Bool

/-- The method `Writer::Write` (lines 173-177). -/
def Writer.Write (cmd args : String) (f : UpdateFrame) : UpdateFrame :=
  { f with
    m_AnyCmdsRun := true
    self := (f.self.RunCommandAsync (cmd ++ " " ++ args) RunCommandAsync.defaultReliable).1 }

/-- The calls of `Write` made by an action's `WriteCommands(writer)`, in order. -/
def Writer.WriteAll : List (String × String) → UpdateFrame → UpdateFrame
  | [], f => f
  | c :: rest, f => Writer.WriteAll rest (Writer.Write c.1 c.2 f)

/-! ## Update -/

/-- The gate of `ProcessAction` (line 193): `true` when the lambda returns `false`
without firing the action. -/
def ProcessAction.gated (curTime : time_point_t) (action : IAction) (f : UpdateFrame) : Bool :=
  decide (action.GetMinInterval > 0) &&
    (f.actionTypes action.GetType ||
      decide (curTime - f.self.m_LastTriggerTime action.GetType < action.GetMinInterval))

/-- The lambda `ProcessAction` (lines 186-202): its return value, the captured state
afterwards and the calls it made. -/
def ProcessAction (curTime : time_point_t) (action : IAction) (f : UpdateFrame) :
    Bool × UpdateFrame × List UpdateEvent :=
  if ProcessAction.gated curTime action f = true then
    (false, f, [])
  else
    let f1 : UpdateFrame :=
      { f with actionTypes := Function.update f.actionTypes action.GetType true }
    let f2 := Writer.WriteAll action.WriteCommands f1
    let f3 : UpdateFrame :=
      { f2 with self := { f2.self with
          m_LastTriggerTime := Function.update f2.self.m_LastTriggerTime action.GetType curTime } }
    (true, f3,
      UpdateEvent.WriteCommands action ::
        action.WriteCommands.map (fun c => UpdateEvent.Write c.1 c.2))

/-- The loop of the lambda `ProcessActions` (lines 206-213) over the part of `m_Actions`
from the iterator on: the elements it keeps, the captured state and the calls made. -/
def ProcessActions.loop (curTime : time_point_t) :
    List IAction → UpdateFrame → List IAction × UpdateFrame × List UpdateEvent
  | [], f => ([], f, [])
  | action :: rest, f =>
    let r := ProcessAction curTime action f
    let rs := ProcessActions.loop curTime rest r.2.1
    (if r.1 = true then rs.1 else action :: rs.1, rs.2.1, r.2.2 ++ rs.2.2)

/-- The lambda `ProcessActions` (lines 204-214). -/
def ProcessActions (curTime : time_point_t) (f : UpdateFrame) :
    UpdateFrame × List UpdateEvent :=
  let r := ProcessActions.loop curTime f.self.m_Actions f
  ({ r.2.1 with self := { r.2.1.self with m_Actions := r.1 } }, r.2.2)

/-- A loop `for (const auto& generator : generators) generator->Execute(*this);` from
the generator at position `index` on: every generator is executed once, on the action
queue as it then is, and submits its actions through `QueueAction`. Returns the
generators (with their new private state), the action queue and the calls made. -/
def executeGenerators (mk : Nat → UpdateEvent) :
    List IActionGenerator → Nat → List IAction →
      List IActionGenerator × List IAction × List UpdateEvent
  | [], _, m_Actions => ([], m_Actions, [])
  | generator :: rest, index, m_Actions =>
    let r := generator.Execute generator.state m_Actions
    let rs := executeGenerators mk rest (index + 1) (submitAll m_Actions r.2).2
    ({ generator with state := r.1 } :: rs.1, rs.2.1, mk index :: rs.2.2)

/-- Lines 163-165 of `Update`: the periodic generators. -/
def Update.periodic (self : RCONActionManager) : RCONActionManager × List UpdateEvent :=
  let r := executeGenerators UpdateEvent.periodicExecute self.m_PeriodicActionGenerators 0
    self.m_Actions
  ({ self with m_PeriodicActionGenerators := r.1, m_Actions := r.2.1 }, r.2.2)

/-- Lines 167-217 of `Update`, after the periodic generators: the frame with which the
primary pass starts (fresh `actionTypes`, fresh `writer`) and, when `m_Actions` is not
empty, the primary pass `ProcessActions()`. -/
def Update.primaryPass (curTime : time_point_t) (self : RCONActionManager) :
    UpdateFrame × List UpdateEvent :=
  let f0 : UpdateFrame := ⟨(Update.periodic self).1, fun _ => false, false⟩
  if f0.self.m_Actions.isEmpty = true then (f0, []) else ProcessActions curTime f0

/-- Lines 219-227 of `Update`: the piggyback generators and the second pass, from the
frame the primary pass left. -/
def Update.piggybackPass (curTime : time_point_t) (f : UpdateFrame) :
    UpdateFrame × List UpdateEvent :=
  if f.m_AnyCmdsRun = true then
    let g := executeGenerators UpdateEvent.piggybackExecute
      f.self.m_PiggybackActionGenerators 0 f.self.m_Actions
    let f2 : UpdateFrame :=
      { f with self := { f.self with m_PiggybackActionGenerators := g.1, m_Actions := g.2.1 } }
    let r := ProcessActions curTime f2
    (r.1, g.2.2 ++ r.2)
  else (f, [])

/-- The method `RCONActionManager::Update` with `clock_t::now()` returning `curTime`; the constant
`UPDATE_INTERVAL` is declared in `RCONActionManager.h` and is a parameter here. Returns
the manager afterwards and the calls made on collaborators. -/
def RCONActionManager.Update (UPDATE_INTERVAL : duration_t) (curTime : time_point_t)
    (self : RCONActionManager) : RCONActionManager × List UpdateEvent :=
  if curTime < self.m_LastUpdateTime + UPDATE_INTERVAL then
    (self, [])
  else
    let p := Update.periodic self
    let r1 := Update.primaryPass curTime self
    let r2 := Update.piggybackPass curTime r1.1
    ({ r2.1.self with m_LastUpdateTime := curTime }, p.2 ++ r1.2 ++ r2.2)

/-- Operations on the scheduler side of the manager, as its owner calls them. -/
inductive Op where
  | QueueAction (action : IAction)
  | AddPeriodicActionGenerator (generator : IActionGenerator)
  | AddPiggybackActionGenerator (generator : IActionGenerator)
  | Update (curTime : time_point_t)

/-- The method `AddPeriodicActionGenerator` (lines 61-64). -/
def RCONActionManager.AddPeriodicActionGenerator (self : RCONActionManager)
    (generator : IActionGenerator) : RCONActionManager :=
  { self with m_PeriodicActionGenerators := self.m_PeriodicActionGenerators ++ [generator] }

/-- The method `AddPiggybackActionGenerator` (lines 66-69). -/
def RCONActionManager.AddPiggybackActionGenerator (self : RCONActionManager)
    (generator : IActionGenerator) : RCONActionManager :=
  { self with m_PiggybackActionGenerators := self.m_PiggybackActionGenerators ++ [generator] }

/-- One operation on the manager: the manager afterwards and the calls made on
collaborators (only `Update` makes any). -/
def Op.apply (UPDATE_INTERVAL : duration_t) (self : RCONActionManager) :
    Op → RCONActionManager × List UpdateEvent
  | Op.QueueAction action => ((self.QueueAction action).2, [])
  | Op.AddPeriodicActionGenerator generator => (self.AddPeriodicActionGenerator generator, [])
  | Op.AddPiggybackActionGenerator generator => (self.AddPiggybackActionGenerator generator, [])
  | Op.Update curTime => self.Update UPDATE_INTERVAL curTime

/-- A sequence of operations, first to last: the manager afterwards and all the calls
made on collaborators, in order. -/
def runOps (UPDATE_INTERVAL : duration_t) :
    List Op → RCONActionManager → RCONActionManager × List UpdateEvent
  | [], self => (self, [])
  | op :: rest, self =>
    let r := Op.apply UPDATE_INTERVAL self op
    let rs := runOps UPDATE_INTERVAL rest r.1
    (rs.1, r.2 ++ rs.2)

/-! ## The dispatch worker -/

/-- What the RCON client and its mutex do during one call of `RunCommand`: whether the
lock on `m_RCONClientMutex` is acquired within the timeout, whether
`m_RCONClient.connect` returns (`true`) or throws (consulted only when the client is not
connected), and the response of `m_RCONClient.send_command`, `none` when it throws. -/
structure Attempt where
  lockAcquired : Bool
  connect : Bool
  send_command : Option String
  deriving DecidableEq, Repr

/-- Calls that the dispatch worker makes, in the order they happen. -/
inductive DispatchEvent where
  /-- Call of `m_RCONCommands.pop()` -/
  | pop
  /-- Call of `RunCommand(cmd->m_Command)` (line 106), with the command the worker holds -/
  | RunCommand (cmd : RCONCommand)
  /-- Call of `m_RCONClient.connect(host, password, port)` -/
  | connect (host password : String) (port : Nat)
  /-- Call of `m_RCONClient.send_command(cmd)` -/
  | send_command (cmd : String)
  /-- Call of `cmd->m_Promise->set_value(resultStr)` -/
  | set_value (promise : Nat) (resultStr : String)
  /-- Call of `cmd->m_Promise->set_exception(..)` -/
  | set_exception (promise : Nat)
  /-- Call of `m_WorldState->AddConsoleOutputChunk(resultStr)` -/
  | AddConsoleOutputChunk (resultStr : String)
  /-- Call of `m_RCONClient.disconnect()` -/
  | disconnect
  /-- Call of `std::this_thread::sleep_for(1s)` -/
  | sleep_for_1s
  deriving DecidableEq, Repr

/-- The value `RunCommand` returns when the client is in connection state `connected`,
`none` when it throws. -/
def Attempt.outcome (connected : Bool) (attempt : Attempt) : Option String :=
  if attempt.lockAcquired = false then none
  else if connected = false ∧ attempt.connect = false then none
  else attempt.send_command

/-- The method `RCONActionManager::RunCommand`: the returned string (`none` when an exception is
thrown), the manager afterwards and the calls made on the client. -/
def RCONActionManager.RunCommand (self : RCONActionManager) (cmd : String) (attempt : Attempt) :
    Option String × RCONActionManager × List DispatchEvent :=
  if attempt.lockAcquired = false then
    (none, self, [])
  else if self.m_RCONClient_connected = false then
    if attempt.connect = false then
      (none, self,
        [DispatchEvent.connect "127.0.0.1" self.m_Settings.m_RCONPassword
          self.m_Settings.m_RCONPort])
    else
      (attempt.send_command, { self with m_RCONClient_connected := true },
        [DispatchEvent.connect "127.0.0.1" self.m_Settings.m_RCONPassword
          self.m_Settings.m_RCONPort,
         DispatchEvent.send_command cmd])
  else
    (attempt.send_command, self, [DispatchEvent.send_command cmd])

/-- The calls `set_value` and `set_exception` on the promise `promise`: a pending promise takes the
result; on a promise that already holds one the call throws `std::future_error`
(`none`). -/
def RCONActionManager.setPromise (self : RCONActionManager) (promise : Nat)
    (result : PromiseState) : Option RCONActionManager :=
  match self.promises promise with
  | PromiseState.pending =>
    some { self with promises := Function.update self.promises promise result }
  | _ => none

/-- The handler `catch (const std::exception&)` of the worker (lines 144-152), entered
after the calls `events`. `none` when `set_exception` throws inside the handler, which
ends the thread function by an exception. -/
def RCONThreadFunc.handler (cmd : RCONCommand) (self : RCONActionManager)
    (events : List DispatchEvent) : Option (RCONActionManager × List DispatchEvent) :=
  if cmd.m_Reliable = false then
    match self.setPromise cmd.m_Promise PromiseState.exception with
    | none => none
    | some s =>
      some ({ s with m_RCONClient_connected := false },
        events ++ [DispatchEvent.set_exception cmd.m_Promise, DispatchEvent.disconnect,
          DispatchEvent.sleep_for_1s])
  else
    some ({ self with m_RCONClient_connected := false },
      events ++ [DispatchEvent.disconnect, DispatchEvent.sleep_for_1s])

/-- One iteration of the drain loop of `RCONThreadFunc` (lines 82-153) while no
cancellation is requested, with the client behaving as `attempt` says. With an empty
queue the loop is left and nothing happens. -/
def RCONThreadFunc.step (attempt : Attempt) (self : RCONActionManager) :
    Option (RCONActionManager × List DispatchEvent) :=
  match self.m_RCONCommands with
  | [] => some (self, [])
  | front :: rest =>
    let s1 : RCONActionManager :=
      if front.m_Reliable = false then { self with m_RCONCommands := rest } else self
    let ev1 : List DispatchEvent :=
      (if front.m_Reliable = false then [DispatchEvent.pop] else [])
        ++ [DispatchEvent.RunCommand front]
    let r := s1.RunCommand front.m_Command attempt
    match r.1 with
    | none => RCONThreadFunc.handler front r.2.1 (ev1 ++ r.2.2)
    | some resultStr =>
      match r.2.1.setPromise front.m_Promise (PromiseState.value resultStr) with
      | none => RCONThreadFunc.handler front r.2.1 (ev1 ++ r.2.2)
      | some s3 =>
        let s4 : RCONActionManager :=
          if resultStr.isEmpty = false then
            { s3 with m_WorldState := s3.m_WorldState ++ [resultStr] }
          else s3
        let ev4 : List DispatchEvent :=
          ev1 ++ r.2.2 ++ [DispatchEvent.set_value front.m_Promise resultStr]
            ++ (if resultStr.isEmpty = false then [DispatchEvent.AddConsoleOutputChunk resultStr]
                else [])
        if front.m_Reliable = true then
          some ({ s4 with m_RCONCommands := s4.m_RCONCommands.tail }, ev4 ++ [DispatchEvent.pop])
        else
          some (s4, ev4)

/-- Consecutive iterations of the drain loop, one per attempt. -/
def RCONThreadFunc.steps : List Attempt → RCONActionManager →
    Option (RCONActionManager × List DispatchEvent)
  | [], self => some (self, [])
  | attempt :: rest, self =>
    match RCONThreadFunc.step attempt self with
    | none => none
    | some r1 =>
      match RCONThreadFunc.steps rest r1.1 with
      | none => none
      | some r2 => some (r2.1, r1.2 ++ r2.2)

/-- Every attempt of the list fails in the connection state it meets: the first one in
state `connected`, the later ones after the disconnect of the failure before them. -/
def allFail : Bool → List Attempt → Bool
  | _, [] => true
  | connected, attempt :: rest =>
    (attempt.outcome connected).isNone && allFail false rest

/-- The results given to the promise `promise` by `set_value` and `set_exception`
calls, in order. -/
def completions (promise : Nat) : List DispatchEvent → List PromiseState
  | [] => []
  | DispatchEvent.set_value p r :: rest =>
    if p = promise then PromiseState.value r :: completions promise rest
    else completions promise rest
  | DispatchEvent.set_exception p :: rest =>
    if p = promise then PromiseState.exception :: completions promise rest
    else completions promise rest
  | _ :: rest => completions promise rest

/-- The chunks handed to `AddConsoleOutputChunk`, in order. -/
def chunks : List DispatchEvent → List String
  | [] => []
  | DispatchEvent.AddConsoleOutputChunk r :: rest => r :: chunks rest
  | _ :: rest => chunks rest

/-- The commands for which `RunCommand` was called, in order. -/
def attempted : List DispatchEvent → List RCONCommand
  | [] => []
  | DispatchEvent.RunCommand cmd :: rest => cmd :: attempted rest
  | _ :: rest => attempted rest

/-- Operations on the command queue: a caller enqueues with `RunCommandAsync`, the
worker runs one iteration of its drain loop. -/
inductive WorkerOp where
  | RunCommandAsync (cmd : String) (reliable : Bool)
  | dispatch (attempt : Attempt)
  deriving DecidableEq, Repr

/-- An interleaving of `RunCommandAsync` calls and dispatch steps, first to last: the
manager afterwards and the calls made by the worker; `none` when the thread function
was ended by an exception. -/
def runWorker : List WorkerOp → RCONActionManager →
    Option (RCONActionManager × List DispatchEvent)
  | [], self => some (self, [])
  | WorkerOp.RunCommandAsync cmd reliable :: rest, self =>
    runWorker rest (self.RunCommandAsync cmd reliable).1
  | WorkerOp.dispatch attempt :: rest, self =>
    match RCONThreadFunc.step attempt self with
    | none => none
    | some r1 =>
      match runWorker rest r1.1 with
      | none => none
      | some r2 => some (r2.1, r1.2 ++ r2.2)

/-- The commands that the `RunCommandAsync` calls of an interleaving put in the queue,
in order, when the first of them gets the promise `nextPromise`. -/
def enqueuedBy : List WorkerOp → Nat → List RCONCommand
  | [], _ => []
  | WorkerOp.RunCommandAsync cmd reliable :: rest, nextPromise =>
    ⟨cmd, reliable, nextPromise⟩ :: enqueuedBy rest (nextPromise + 1)
  | WorkerOp.dispatch _ :: rest, nextPromise => enqueuedBy rest nextPromise

/-- In the sequence `all` of enqueued commands, `c₁` stands at a position not after a
position of `c₂`. -/
def enqueuedBefore (all : List RCONCommand) (c₁ c₂ : RCONCommand) : Prop :=
  ∃ i j : Nat, i ≤ j ∧ all[i]? = some c₁ ∧ all[j]? = some c₂

/-- Every queued command has a pending promise created earlier, and no two queued
commands share a promise. It holds after construction and is kept by `RunCommandAsync`
and by the dispatch steps. -/
def RCONActionManager.WellFormed (self : RCONActionManager) : Prop :=
  (∀ c ∈ self.m_RCONCommands,
    self.promises c.m_Promise = PromiseState.pending ∧ c.m_Promise < self.nextPromise) ∧
  (self.m_RCONCommands.map (fun c => c.m_Promise)).Nodup

/-- The result a best-effort command's promise takes for an outcome of `RunCommand`:
the response, or the exception when it threw. -/
def completionOf : Option String → PromiseState
  | some r => PromiseState.value r
  | none => PromiseState.exception

/-- What the world state is to receive for an outcome of `RunCommand`: the response when
there is one and it is not empty, nothing otherwise. -/
def forwarded : Option String → List String
  | some r => if r.isEmpty = false then [r] else []
  | none => []

/-- The actions on which `WriteCommands` was invoked, in order. -/
def firedActions : List UpdateEvent → List IAction
  | [] => []
  | UpdateEvent.WriteCommands action :: rest => action :: firedActions rest
  | _ :: rest => firedActions rest

/-- The indices of the piggyback generators that were executed, in order. -/
def piggybackExecuted : List UpdateEvent → List Nat
  | [] => []
  | UpdateEvent.piggybackExecute index :: rest => index :: piggybackExecuted rest
  | _ :: rest => piggybackExecuted rest

/-- The commands written through the writer, in order. -/
def writtenCommands : List UpdateEvent → List (String × String)
  | [] => []
  | UpdateEvent.Write cmd args :: rest => (cmd, args) :: writtenCommands rest
  | _ :: rest => writtenCommands rest

/-- The order relation of one tick: an action with a positive `minInterval` fires only
when no action of its type has fired before it. -/
def firesAfter (b a : IAction) : Prop := 0 < a.GetMinInterval → b.GetType ≠ a.GetType

/-- Number of actions of type `T` with a positive `minInterval` in a list. -/
def countPositive (T : ActionType) (actions : List IAction) : Nat :=
  actions.countP (fun a => decide (a.GetType = T) && decide (0 < a.GetMinInterval))

/-- The indices of the periodic generators that were executed, in order. -/
def periodicExecuted : List UpdateEvent → List Nat
  | [] => []
  | UpdateEvent.periodicExecute index :: rest => index :: periodicExecuted rest
  | _ :: rest => periodicExecuted rest

/-- The decisions of the gate of `ProcessAction` during one pass of `ProcessActions`
over the actions `l`, in order: `true` where the action met by the loop is gated, each
decision taken in the captured state the loop has reached there. -/
def ProcessActions.gates (curTime : time_point_t) : List IAction → UpdateFrame → List Bool
  | [], _ => []
  | action :: rest, f =>
    ProcessAction.gated curTime action f ::
      ProcessActions.gates curTime rest (ProcessAction curTime action f).2.1

/-- The elements of `l` whose decision in `flags` is `keep`, in their order in `l`. -/
def selectBy (keep : Bool) : List IAction → List Bool → List IAction
  | a :: l, b :: flags => if b = keep then a :: selectBy keep l flags else selectBy keep l flags
  | _, _ => []

/-- Every action that the generator submits satisfies `P`, whatever its private state
and the action queue it sees. -/
def IActionGenerator.submitsOnly (P : IAction → Prop) (generator : IActionGenerator) : Prop :=
  ∀ (st : generator.σ) (q : List IAction), ∀ a ∈ (generator.Execute st q).2, P a

/-- An action of type `T` declares `maxQueuedCount = k`. -/
def declaresCap (T : ActionType) (k : Nat) (a : IAction) : Prop :=
  a.GetType = T → a.GetMaxQueuedCount = k

/-- Every action that enters through the operation satisfies `P`: the submitted action,
or the actions the registered generator will submit. -/
def Op.submitsOnly (P : IAction → Prop) : Op → Prop
  | Op.QueueAction action => P action
  | Op.AddPeriodicActionGenerator generator => generator.submitsOnly P
  | Op.AddPiggybackActionGenerator generator => generator.submitsOnly P
  | Op.Update _ => True

/-- Every registered generator submits only actions that satisfy `P`. -/
def RCONActionManager.generatorsSubmitOnly (P : IAction → Prop) (self : RCONActionManager) :
    Prop :=
  (∀ g ∈ self.m_PeriodicActionGenerators, g.submitsOnly P) ∧
  (∀ g ∈ self.m_PiggybackActionGenerators, g.submitsOnly P)

/-- The captured state with which the second `ProcessActions()` of `Update` (line 226)
starts: the state the primary pass left, after the loop over the piggyback generators
(lines 222-223). -/
def Update.secondFrame (f : UpdateFrame) : UpdateFrame :=
  { f with self := { f.self with
      m_PiggybackActionGenerators :=
        (executeGenerators UpdateEvent.piggybackExecute
          f.self.m_PiggybackActionGenerators 0 f.self.m_Actions).1
      m_Actions :=
        (executeGenerators UpdateEvent.piggybackExecute
          f.self.m_PiggybackActionGenerators 0 f.self.m_Actions).2.1 } }

/-- The actions that the piggyback generators appended to the action queue: the queue
with which the second pass starts, without the actions that were queued before. -/
def Update.appended (f : UpdateFrame) : List IAction :=
  (Update.secondFrame f).self.m_Actions.drop f.self.m_Actions.length

/-! ## PlayerListJSON: player attributes -/

/-- A value of `nlohmann::json`, by kind. A floating point number is represented by the
bits of its `double`. -/
inductive Json where
  | null
  | boolean (b : Bool)
  | number_integer (n : Int)
  | number_unsigned (n : Nat)
  | number_float (bits : Nat)
  | string (s : String)
  | array (elements : List Json)
  | object (members : List (String × Json))
  | binary (bytes : List Nat)

/-- The method `json::is_array()`. -/
def Json.is_array : Json → Bool
  | Json.array _ => true
  | _ => false

/-- The exceptions thrown by `from_json`: `std::invalid_argument` with its message,
`nlohmann::json::type_error` (thrown by `get<std::string_view>()` on a value that is not
a string), and `std::runtime_error` for an unknown attribute, with the unknown string. -/
inductive JsonError where
  | invalid_argument (what : String)
  | type_error
  | runtime_error (str : String)
  deriving DecidableEq, Repr

/-- The enumeration `PlayerAttributes`. -/
inductive PlayerAttributes where
  | Cheater
  | Suspicious
  | Exploiter
  | Racist
  deriving DecidableEq, Repr

/-- The class `PlayerAttributesList`: its four flags. -/
structure PlayerAttributesList where
  m_Cheater : Bool
  m_Suspicious : Bool
  m_Exploiter : Bool
  m_Racist : Bool
  deriving DecidableEq, Repr

/-- The value-initialised list that `d = {}` assigns: no attribute set. -/
def PlayerAttributesList.empty : PlayerAttributesList := ⟨false, false, false, false⟩

/-- The method `PlayerAttributesList::HasAttribute` (lines 220-231). -/
def PlayerAttributesList.HasAttribute (self : PlayerAttributesList) :
    PlayerAttributes → Bool
  | PlayerAttributes.Cheater => self.m_Cheater
  | PlayerAttributes.Suspicious => self.m_Suspicious
  | PlayerAttributes.Exploiter => self.m_Exploiter
  | PlayerAttributes.Racist => self.m_Racist

/-- The method `PlayerAttributesList::SetAttribute` (lines 233-253): the returned flag
(whether the member changed) and the list afterwards. -/
def PlayerAttributesList.SetAttribute (self : PlayerAttributesList)
    (attr : PlayerAttributes) (set : Bool) : Bool × PlayerAttributesList :=
  match attr with
  | PlayerAttributes.Cheater => (self.m_Cheater != set, { self with m_Cheater := set })
  | PlayerAttributes.Suspicious => (self.m_Suspicious != set, { self with m_Suspicious := set })
  | PlayerAttributes.Exploiter => (self.m_Exploiter != set, { self with m_Exploiter := set })
  | PlayerAttributes.Racist => (self.m_Racist != set, { self with m_Racist := set })

/-- The function `to_json(nlohmann::json&, const PlayerAttributesList&)` (lines 22-37):
the value of `j` afterwards. -/
def to_json (j : Json) (d : PlayerAttributesList) : Json :=
  let j0 : List Json := if j.is_array = false then [] else []
  let j1 := if d.HasAttribute PlayerAttributes.Cheater = true
    then j0 ++ [Json.string "cheater"] else j0
  let j2 := if d.HasAttribute PlayerAttributes.Suspicious = true
    then j1 ++ [Json.string "suspicious"] else j1
  let j3 := if d.HasAttribute PlayerAttributes.Exploiter = true
    then j2 ++ [Json.string "exploiter"] else j2
  let j4 := if d.HasAttribute PlayerAttributes.Racist = true
    then j3 ++ [Json.string "racist"] else j3
  Json.array j4

/-- The range-for loop of `from_json` (lines 56-69) over the elements of the array, from
the list `d`. The calls `d.SetAttribute(attribute)` pass one argument; `set` is the
value of the default argument of the second parameter, which is declared in
`PlayerListJSON.h`. -/
def from_json.loop (set : Bool) :
    List Json → PlayerAttributesList → Except JsonError PlayerAttributesList
  | [], d => Except.ok d
  | Json.string str :: rest, d =>
    if str = "suspicious" then
      from_json.loop set rest (d.SetAttribute PlayerAttributes.Suspicious set).2
    else if str = "cheater" then
      from_json.loop set rest (d.SetAttribute PlayerAttributes.Cheater set).2
    else if str = "exploiter" then
      from_json.loop set rest (d.SetAttribute PlayerAttributes.Exploiter set).2
    else if str = "racist" then
      from_json.loop set rest (d.SetAttribute PlayerAttributes.Racist set).2
    else Except.error (JsonError.runtime_error str)
  | _ :: _, _ => Except.error JsonError.type_error

/-- The function `from_json(const nlohmann::json&, PlayerAttributesList&)` (lines 49-70):
the list `d` when it returns, or the exception it throws. -/
def from_json (set : Bool) (j : Json) : Except JsonError PlayerAttributesList :=
  match j with
  | Json.array elements => from_json.loop set elements PlayerAttributesList.empty
  | _ => Except.error (JsonError.invalid_argument "json must be an array")

/-! ## Example values -/

/-- Example action: type 2 ("ChatMessage"), unbounded cap, no cooldown. -/
def exChatA : IAction := ⟨2, 1000, 0, [("say", "hello")]⟩

/-- Example action: a second chat message of type 2, no cooldown. -/
def exChatB : IAction := ⟨2, 1000, 0, [("say", "bye")]⟩

/-- Example action: type 5 ("Status"), cap 1, cooldown 5 (seconds), one command. -/
def exStatus : IAction := ⟨5, 1, 5, [("status", "")]⟩

/-- Example action of type 6 that writes no command when it fires. -/
def exSilent : IAction := ⟨6, 1, 0, []⟩

/-- Example piggyback generator: submits one `exStatus` on every execution. -/
def exGenerator : IActionGenerator := ⟨Unit, (), fun _ _ => ((), [exStatus])⟩

/-- Example settings. -/
def exSettings : Settings := ⟨"hunter2", 27015, false⟩

/-- Example manager: freshly constructed, with one piggyback generator registered and
one chat message queued. -/
def exManager : RCONActionManager :=
  { RCONActionManager.init exSettings with
    m_Actions := [exChatA]
    m_PiggybackActionGenerators := [exGenerator] }

/-- Example manager: freshly constructed, after `QueueAction(exStatus)`. -/
def exStatusQueued : RCONActionManager :=
  ((RCONActionManager.init exSettings).QueueAction exStatus).2

/-- Example manager: freshly constructed, after `RunCommandAsync("status", true)`. -/
def exReliableQueued : RCONActionManager :=
  ((RCONActionManager.init exSettings).RunCommandAsync "status" true).1

/-- Example manager: freshly constructed, after `RunCommandAsync("say hi", false)`. -/
def exBestEffortQueued : RCONActionManager :=
  ((RCONActionManager.init exSettings).RunCommandAsync "say hi" false).1

/-- Example attempt: the lock is acquired, `connect` returns, `send_command` throws. -/
def exSendThrows : Attempt := ⟨true, true, none⟩

/-- Example attempt: `send_command` returns the response `"name: Alice\n"`. -/
def exSendAlice : Attempt := ⟨true, true, some "name: Alice\n"⟩

/-- Example attempt: `send_command` returns the empty response. -/
def exSendEmpty : Attempt := ⟨true, true, some ""⟩

/-- Example interleaving: a reliable and a best-effort command are enqueued, then three
dispatch steps follow: the send throws, returns a response, returns the empty response. -/
def exInterleaving : List WorkerOp :=
  [WorkerOp.RunCommandAsync "status" true, WorkerOp.RunCommandAsync "say hi" false,
   WorkerOp.dispatch exSendThrows, WorkerOp.dispatch exSendAlice, WorkerOp.dispatch exSendEmpty]

/-- Example operations: a periodic generator of Status actions is registered, a Status
action is submitted twice, with a tick after each submission. -/
def exOps : List Op :=
  [Op.AddPeriodicActionGenerator exGenerator, Op.QueueAction exStatus, Op.Update 100,
   Op.QueueAction exStatus, Op.Update 103]

/-- Example manager: a chat message and, behind it, a Status action whose cooldown has
not elapsed at clock time 103 are queued; one piggyback generator is registered. -/
def exPiggyback : RCONActionManager :=
  { RCONActionManager.init exSettings with
    m_Actions := [exChatA, exStatus]
    m_PiggybackActionGenerators := [⟨Unit, (), fun _ _ => ((), [exChatB])⟩]
    m_LastTriggerTime := fun _ => 100
    m_LastUpdateTime := 100 }

/-- Example attempt: the lock on `m_RCONClientMutex` is not acquired within the timeout. -/
def exLockTimeout : Attempt := ⟨false, true, some "ok"⟩

/-- Example settings that differ from `exSettings` in every member. -/
def exOtherSettings : Settings := ⟨"other", 1, true⟩

/-- Example attribute list: cheater and racist. -/
def exAttributes : PlayerAttributesList := ⟨true, false, false, true⟩

/-- Example manager: freshly constructed, with the client connected. -/
def exConnected : RCONActionManager :=
  { RCONActionManager.init exSettings with m_RCONClient_connected := true }

/-- Example action: type 7 ("Poll"), cap 2, cooldown 5. -/
def exPollA : IAction := ⟨7, 2, 5, [("poll", "a")]⟩

/-- Example action: a second Poll action of type 7, cap 2, cooldown 5. -/
def exPollB : IAction := ⟨7, 2, 5, [("poll", "b")]⟩

/-- Example action: type 7 as well, but without cooldown. -/
def exPollZero : IAction := ⟨7, 2, 0, [("poll", "now")]⟩

/-- Example manager: freshly constructed, after the submission of a chat message, two
Poll actions and another chat message. -/
def exPollQueued : RCONActionManager :=
  (runOps 1 [Op.QueueAction exChatA, Op.QueueAction exPollA, Op.QueueAction exPollB,
    Op.QueueAction exChatB] (RCONActionManager.init exSettings)).1

/-- Example manager: freshly constructed, after the submission of the Poll action
without cooldown and of a Poll action with cooldown. -/
def exPollZeroQueued : RCONActionManager :=
  (runOps 1 [Op.QueueAction exPollZero, Op.QueueAction exPollA]
    (RCONActionManager.init exSettings)).1

/-! ## Theorems about QueueAction -/

theorem QueueAction.loop_eq_true_iff (T : ActionType) (k : Nat) (q : List IAction) (c : Nat) :
    QueueAction.loop T k q c = true ↔ 1 ≤ countType T q ∧ k ≤ c + countType T q := by
  induction q generalizing c with
  | nil => simp [QueueAction.loop, countType]
  | cons a rest ih =>
    unfold QueueAction.loop
    by_cases hT : a.GetType = T
    · by_cases hk : c + 1 ≥ k
      · simp [hT, hk, countType, List.countP_cons]
        omega
      · simp only [hT, hk, if_true, if_false, ih]
        simp only [countType, List.countP_cons, hT, decide_True, if_true]
        omega
    · simp only [hT, if_false, ih]
      simp [countType, List.countP_cons, hT]

theorem countType_le_length (T : ActionType) (q : List IAction) : countType T q ≤ q.length := by
  unfold countType
  exact List.countP_le_length _

/-- The function `QueueAction` accepts exactly when fewer than `max k 1` actions of the
type are queued. -/
theorem QueueAction_fst_iff (q : List IAction) (a : IAction) :
    (QueueAction q a).1 = true ↔ countType a.GetType q < max a.GetMaxQueuedCount 1 := by
  have hlen := countType_le_length a.GetType q
  unfold QueueAction
  by_cases h : a.GetMaxQueuedCount ≤ q.length ∧
      QueueAction.loop a.GetType a.GetMaxQueuedCount q 0 = true
  · rw [if_pos h]
    have h2 := (QueueAction.loop_eq_true_iff _ _ _ _).1 h.2
    simp
    omega
  · rw [if_neg h]
    simp only [true_iff]
    by_contra hc
    apply h
    refine ⟨by omega, (QueueAction.loop_eq_true_iff _ _ _ _).2 ⟨by omega, by omega⟩⟩

theorem QueueAction_snd (q : List IAction) (a : IAction) :
    (QueueAction q a).2 = if (QueueAction q a).1 = true then q ++ [a] else q := by
  unfold QueueAction
  split <;> simp

theorem countType_append_singleton (T : ActionType) (q : List IAction) (a : IAction) :
    countType T (q ++ [a]) = countType T q + if a.GetType = T then 1 else 0 := by
  unfold countType
  rw [List.countP_append]
  by_cases h : a.GetType = T <;> simp [List.countP_cons, h]

theorem countType_QueueAction (T : ActionType) (q : List IAction) (a : IAction) :
    countType T (QueueAction q a).2 =
      countType T q + if a.GetType = T ∧ (QueueAction q a).1 = true then 1 else 0 := by
  rw [QueueAction_snd]
  by_cases h : (QueueAction q a).1 = true
  · simp only [h, if_true, and_true, countType_append_singleton]
  · simp [h]

/-- From any queue: with `c` actions of type `T` queued and every type-`T` submission
declaring the cap `k`, the accepted type-`T` submissions fill what is left below
`max k 1`, and every type-`T` submission is either accepted or rejected. -/
theorem submitAll_count (T : ActionType) (k : Nat) (subs : List IAction) :
    ∀ q : List IAction, (∀ a ∈ subs, a.GetType = T → a.GetMaxQueuedCount = k) →
      countReturned T true (submitAll q subs).1
          = min (countType T subs) (max k 1 - countType T q) ∧
      countReturned T true (submitAll q subs).1 + countReturned T false (submitAll q subs).1
          = countType T subs := by
  induction subs with
  | nil => intro q _; simp [submitAll, countReturned, countType]
  | cons a rest ih =>
    intro q hcap
    have hrest : ∀ b ∈ rest, b.GetType = T → b.GetMaxQueuedCount = k :=
      fun b hb => hcap b (List.mem_cons_of_mem _ hb)
    obtain ⟨ih1, ih2⟩ := ih (QueueAction q a).2 hrest
    have hq := countType_QueueAction T q a
    have hacc := QueueAction_fst_iff q a
    simp only [submitAll, countReturned, List.countP_cons] at ih1 ih2 ⊢
    simp only [countType, List.countP_cons] at hq hacc ih1 ih2 ⊢
    by_cases hT : a.GetType = T
    · have hk := hcap a (List.mem_cons_self _ _) hT
      rw [hT, hk] at hacc
      by_cases hr : (QueueAction q a).1 = true
      · have hlt := hacc.1 hr
        simp only [hT, hr, and_self, if_true] at hq
        simp [hT, hr] at ih1 ih2 ⊢
        omega
      · have hge : ¬ _ := fun h => hr (hacc.2 h)
        simp only [hT, hr, and_false, if_false] at hq
        simp [hT, hr] at ih1 ih2 ⊢
        omega
    · simp only [hT, false_and, if_false] at hq
      simp [hT] at ih1 ih2 ⊢
      omega

/-- Claim C1 (as amended). Admission count: from an empty action queue and with no tick
in between, for every cap `k ≥ 1` and every sequence of submissions in which all
submissions of type `T` declare `maxQueuedCount = k` (interleaved with submissions of
other types with any caps), exactly `min N k` of the `N` type-`T` submissions return
`true` and the remaining `N - min N k` return `false`. -/
theorem C1_admission_count (T : ActionType) (k : Nat) (subs : List IAction)
    (hk : 1 ≤ k) (hcap : ∀ a ∈ subs, a.GetType = T → a.GetMaxQueuedCount = k) :
    countReturned T true (submitAll [] subs).1 = min (countType T subs) k ∧
    countReturned T false (submitAll [] subs).1 = countType T subs - min (countType T subs) k := by
  obtain ⟨h1, h2⟩ := submitAll_count T k subs [] hcap
  have h0 : countType T ([] : List IAction) = 0 := rfl
  rw [h0] at h1
  have hm : max k 1 - 0 = k := by omega
  rw [hm] at h1
  exact ⟨h1, by omega⟩

/-- A run of C1: `A`, an action of another type, then `B` (both of type 3 with cap 1). -/
theorem C1_admission_count_witness :
    (1 ≤ 1 ∧ ∀ a ∈ [exKickA, exOther, exKickB], a.GetType = 3 → a.GetMaxQueuedCount = 1) ∧
    countReturned 3 true (submitAll [] [exKickA, exOther, exKickB]).1
      = min (countType 3 [exKickA, exOther, exKickB]) 1 ∧
    countReturned 3 false (submitAll [] [exKickA, exOther, exKickB]).1
      = countType 3 [exKickA, exOther, exKickB] - min (countType 3 [exKickA, exOther, exKickB]) 1 :=
  ⟨⟨by decide, by decide⟩,
   C1_admission_count 3 1 [exKickA, exOther, exKickB] (by decide) (by decide)⟩

/-- Counterexample to claim C1: the claim as stated fails for the cap `k = 0`: a single
submission of type 3 declaring `maxQueuedCount = 0` into the empty queue returns `true`,
while `min 1 0 = 0`. -/
theorem C1_counterexample_cap_zero :
    (∀ a ∈ [exCapZero], a.GetType = 3 → a.GetMaxQueuedCount = 0) ∧
    (submitAll [] [exCapZero]).1 = [(exCapZero, true)] ∧
    countReturned 3 true (submitAll [] [exCapZero]).1 = 1 ∧
    min (countType 3 [exCapZero]) 0 = 0 ∧
    countReturned 3 true (submitAll [] [exCapZero]).1 ≠ min (countType 3 [exCapZero]) 0 := by
  decide

/-- Claim C8. Submit is atomic: `QueueAction` either returns `false` and leaves the queue
exactly as it was, or returns `true` and the queue is the old queue with the action
appended at the tail. In the scenario (`A` then `B`, both of type Kick with cap 1, from
the empty queue) the first call returns `true`, the second returns `false`, and the
queue still holds exactly `A` (length 1). -/
theorem C8_submit_atomic (q : List IAction) (a : IAction) :
    (QueueAction q a = (false, q) ∨ QueueAction q a = (true, q ++ [a])) ∧
    QueueAction [] exKickA = (true, [exKickA]) ∧
    QueueAction (QueueAction [] exKickA).2 exKickB = (false, [exKickA]) ∧
    (QueueAction (QueueAction [] exKickA).2 exKickB).2.length = 1 := by
  refine ⟨?_, by decide, by decide, by decide⟩
  unfold QueueAction
  split
  · exact Or.inl rfl
  · exact Or.inr rfl

/-! ## Lemmas about the event trace -/

theorem firedActions_append (l₁ l₂ : List UpdateEvent) :
    firedActions (l₁ ++ l₂) = firedActions l₁ ++ firedActions l₂ := by
  induction l₁ with
  | nil => rfl
  | cons e rest ih => cases e <;> simp [firedActions, ih]

theorem piggybackExecuted_append (l₁ l₂ : List UpdateEvent) :
    piggybackExecuted (l₁ ++ l₂) = piggybackExecuted l₁ ++ piggybackExecuted l₂ := by
  induction l₁ with
  | nil => rfl
  | cons e rest ih => cases e <;> simp [piggybackExecuted, ih]

theorem writtenCommands_append (l₁ l₂ : List UpdateEvent) :
    writtenCommands (l₁ ++ l₂) = writtenCommands l₁ ++ writtenCommands l₂ := by
  induction l₁ with
  | nil => rfl
  | cons e rest ih => cases e <;> simp [writtenCommands, ih]

theorem firedActions_map_Write (cmds : List (String × String)) :
    firedActions (cmds.map (fun c => UpdateEvent.Write c.1 c.2)) = [] := by
  induction cmds with
  | nil => rfl
  | cons c rest ih => simp [firedActions, ih]

theorem piggybackExecuted_map_Write (cmds : List (String × String)) :
    piggybackExecuted (cmds.map (fun c => UpdateEvent.Write c.1 c.2)) = [] := by
  induction cmds with
  | nil => rfl
  | cons c rest ih => simp [piggybackExecuted, ih]

theorem writtenCommands_map_Write (cmds : List (String × String)) :
    writtenCommands (cmds.map (fun c => UpdateEvent.Write c.1 c.2)) = cmds := by
  induction cmds with
  | nil => rfl
  | cons c rest ih => simp [writtenCommands, ih]

/-! ## Lemmas about the writer -/

theorem Writer.WriteAll_actionTypes (cmds : List (String × String)) (f : UpdateFrame) :
    (Writer.WriteAll cmds f).actionTypes = f.actionTypes := by
  induction cmds generalizing f with
  | nil => rfl
  | cons c rest ih => simp [Writer.WriteAll, ih, Writer.Write]

theorem Writer.WriteAll_m_LastTriggerTime (cmds : List (String × String)) (f : UpdateFrame) :
    (Writer.WriteAll cmds f).self.m_LastTriggerTime = f.self.m_LastTriggerTime := by
  induction cmds generalizing f with
  | nil => rfl
  | cons c rest ih => simp [Writer.WriteAll, ih, Writer.Write, RCONActionManager.RunCommandAsync]

theorem Writer.WriteAll_m_Actions (cmds : List (String × String)) (f : UpdateFrame) :
    (Writer.WriteAll cmds f).self.m_Actions = f.self.m_Actions := by
  induction cmds generalizing f with
  | nil => rfl
  | cons c rest ih => simp [Writer.WriteAll, ih, Writer.Write, RCONActionManager.RunCommandAsync]

theorem Writer.WriteAll_m_PiggybackActionGenerators (cmds : List (String × String))
    (f : UpdateFrame) :
    (Writer.WriteAll cmds f).self.m_PiggybackActionGenerators
      = f.self.m_PiggybackActionGenerators := by
  induction cmds generalizing f with
  | nil => rfl
  | cons c rest ih => simp [Writer.WriteAll, ih, Writer.Write, RCONActionManager.RunCommandAsync]

theorem Writer.WriteAll_m_AnyCmdsRun (cmds : List (String × String)) (f : UpdateFrame) :
    (Writer.WriteAll cmds f).m_AnyCmdsRun = (f.m_AnyCmdsRun || !cmds.isEmpty) := by
  induction cmds generalizing f with
  | nil => simp [Writer.WriteAll]
  | cons c rest ih => simp [Writer.WriteAll, ih, Writer.Write]

/-! ## Lemmas about ProcessAction and ProcessActions -/

theorem ProcessAction_gated (curTime : time_point_t) (a : IAction) (f : UpdateFrame)
    (h : ProcessAction.gated curTime a f = true) :
    ProcessAction curTime a f = (false, f, []) := by
  unfold ProcessAction
  rw [if_pos h]

theorem ProcessAction_fired (curTime : time_point_t) (a : IAction) (f : UpdateFrame)
    (h : ProcessAction.gated curTime a f = false) :
    (ProcessAction curTime a f).1 = true ∧
    (ProcessAction curTime a f).2.2 =
      UpdateEvent.WriteCommands a :: a.WriteCommands.map (fun c => UpdateEvent.Write c.1 c.2) ∧
    (ProcessAction curTime a f).2.1.actionTypes = Function.update f.actionTypes a.GetType true ∧
    (ProcessAction curTime a f).2.1.self.m_LastTriggerTime
      = Function.update f.self.m_LastTriggerTime a.GetType curTime ∧
    (ProcessAction curTime a f).2.1.m_AnyCmdsRun = (f.m_AnyCmdsRun || !a.WriteCommands.isEmpty) := by
  unfold ProcessAction
  simp [h, Writer.WriteAll_actionTypes, Writer.WriteAll_m_LastTriggerTime,
    Writer.WriteAll_m_AnyCmdsRun]

theorem ProcessAction_fst (curTime : time_point_t) (a : IAction) (f : UpdateFrame) :
    (ProcessAction curTime a f).1 = !ProcessAction.gated curTime a f := by
  cases h : ProcessAction.gated curTime a f
  · simp [(ProcessAction_fired curTime a f h).1]
  · simp [ProcessAction_gated curTime a f h]

theorem ProcessAction_firedActions (curTime : time_point_t) (a : IAction) (f : UpdateFrame) :
    firedActions (ProcessAction curTime a f).2.2
      = if ProcessAction.gated curTime a f = true then [] else [a] := by
  cases h : ProcessAction.gated curTime a f
  · simp [(ProcessAction_fired curTime a f h).2.1, firedActions, firedActions_map_Write]
  · simp [ProcessAction_gated curTime a f h, firedActions]

theorem ProcessActions.loop_append (curTime : time_point_t) (l₁ l₂ : List IAction)
    (f : UpdateFrame) :
    ProcessActions.loop curTime (l₁ ++ l₂) f =
      ((ProcessActions.loop curTime l₁ f).1
          ++ (ProcessActions.loop curTime l₂ (ProcessActions.loop curTime l₁ f).2.1).1,
       (ProcessActions.loop curTime l₂ (ProcessActions.loop curTime l₁ f).2.1).2.1,
       (ProcessActions.loop curTime l₁ f).2.2
          ++ (ProcessActions.loop curTime l₂ (ProcessActions.loop curTime l₁ f).2.1).2.2) := by
  induction l₁ generalizing f with
  | nil => simp [ProcessActions.loop]
  | cons a rest ih =>
    have ih1 := ih (ProcessAction curTime a f).2.1
    simp only [List.cons_append, ProcessActions.loop]
    rw [show rest.append l₂ = rest ++ l₂ from rfl, ih1]
    split <;> simp

/-- What the loop of `ProcessActions` does to the captured state, in terms of the
actions it fired: `actionTypes` is set for exactly their types, `m_LastTriggerTime` is
`curTime` for exactly their types, and `m_AnyCmdsRun` is set when a command was written. -/
theorem ProcessActions.loop_state (curTime : time_point_t) (l : List IAction) :
    ∀ (f : UpdateFrame) (T : ActionType),
      (ProcessActions.loop curTime l f).2.1.actionTypes T
        = (f.actionTypes T ||
            (firedActions (ProcessActions.loop curTime l f).2.2).any
              (fun b => decide (b.GetType = T))) ∧
      (ProcessActions.loop curTime l f).2.1.self.m_LastTriggerTime T
        = (if (firedActions (ProcessActions.loop curTime l f).2.2).any
              (fun b => decide (b.GetType = T)) = true
            then curTime else f.self.m_LastTriggerTime T) ∧
      (ProcessActions.loop curTime l f).2.1.m_AnyCmdsRun
        = (f.m_AnyCmdsRun || !(writtenCommands (ProcessActions.loop curTime l f).2.2).isEmpty) := by
  induction l with
  | nil => intro f T; simp [ProcessActions.loop, firedActions, writtenCommands]
  | cons a rest ih =>
    intro f T
    obtain ⟨ih1, ih2, ih3⟩ := ih (ProcessAction curTime a f).2.1 T
    simp only [ProcessActions.loop, firedActions_append, writtenCommands_append,
      ProcessAction_firedActions]
    rw [ih1, ih2, ih3]
    cases h : ProcessAction.gated curTime a f
    · obtain ⟨_, hev, hfl, hlast, hany⟩ := ProcessAction_fired curTime a f h
      rw [hfl, hlast, hany, hev]
      have hemp : ∀ x y : List (String × String), (x ++ y).isEmpty = (x.isEmpty && y.isEmpty) := by
        intro x y; cases x <;> simp
      by_cases hT : a.GetType = T
      · subst hT
        simp [writtenCommands, writtenCommands_map_Write, hemp, Bool.or_assoc]
      · have hT2 : T ≠ a.GetType := fun h => hT h.symm
        simp [writtenCommands, writtenCommands_map_Write, Function.update_noteq hT2, hT, hemp,
          Bool.or_assoc]
    · rw [ProcessAction_gated curTime a f h]
      simp [writtenCommands]

theorem ProcessActions.loop_pairwise (curTime : time_point_t) (l : List IAction) :
    ∀ f : UpdateFrame,
      (firedActions (ProcessActions.loop curTime l f).2.2).Pairwise firesAfter ∧
      ∀ a ∈ firedActions (ProcessActions.loop curTime l f).2.2,
        0 < a.GetMinInterval →
          f.actionTypes a.GetType = false ∧
          a.GetMinInterval ≤ curTime - f.self.m_LastTriggerTime a.GetType := by
  induction l with
  | nil => intro f; simp [ProcessActions.loop, firedActions]
  | cons a rest ih =>
    intro f
    obtain ⟨ih1, ih2⟩ := ih (ProcessAction curTime a f).2.1
    simp only [ProcessActions.loop, firedActions_append, ProcessAction_firedActions]
    cases h : ProcessAction.gated curTime a f
    · obtain ⟨_, _, hfl, hlast, _⟩ := ProcessAction_fired curTime a f h
      rw [hfl, hlast] at ih2
      simp only [Bool.false_eq_true, if_false, List.singleton_append, List.pairwise_cons,
        List.mem_cons]
      refine ⟨⟨?_, ih1⟩, ?_⟩
      · intro b hb hpos heq
        have := (ih2 b hb hpos).1
        rw [← heq] at this
        simp at this
      · rintro b (rfl | hb) hpos
        · unfold ProcessAction.gated at h
          simp only [hpos, gt_iff_lt, decide_True, Bool.true_and, Bool.or_eq_false_iff,
            decide_eq_false_iff_not, not_lt] at h
          exact h
        · obtain ⟨h1, h2⟩ := ih2 b hb hpos
          by_cases heq : b.GetType = a.GetType
          · rw [heq] at h1
            simp at h1
          · rw [Function.update_noteq heq] at h1 h2
            exact ⟨h1, h2⟩
    · rw [ProcessAction_gated curTime a f h] at ih1 ih2 ⊢
      simpa using ⟨ih1, ih2⟩

theorem ProcessAction_m_PiggybackActionGenerators (curTime : time_point_t) (a : IAction)
    (f : UpdateFrame) :
    (ProcessAction curTime a f).2.1.self.m_PiggybackActionGenerators
      = f.self.m_PiggybackActionGenerators := by
  unfold ProcessAction
  split <;> simp [Writer.WriteAll_m_PiggybackActionGenerators]

theorem ProcessActions.loop_m_PiggybackActionGenerators (curTime : time_point_t)
    (l : List IAction) (f : UpdateFrame) :
    (ProcessActions.loop curTime l f).2.1.self.m_PiggybackActionGenerators
      = f.self.m_PiggybackActionGenerators := by
  induction l generalizing f with
  | nil => rfl
  | cons a rest ih =>
    simp only [ProcessActions.loop, ih, ProcessAction_m_PiggybackActionGenerators]

theorem ProcessActions.loop_piggybackExecuted (curTime : time_point_t) (l : List IAction)
    (f : UpdateFrame) :
    piggybackExecuted (ProcessActions.loop curTime l f).2.2 = [] := by
  induction l generalizing f with
  | nil => rfl
  | cons a rest ih =>
    simp only [ProcessActions.loop, piggybackExecuted_append, ih, List.append_nil]
    unfold ProcessAction
    split <;> simp [piggybackExecuted, piggybackExecuted_map_Write]

/-- The commands written in a pass are those of the actions it fired. -/
theorem ProcessActions.loop_writtenCommands_eq_nil (curTime : time_point_t) (l : List IAction)
    (f : UpdateFrame) :
    writtenCommands (ProcessActions.loop curTime l f).2.2 = [] ↔
      ∀ a ∈ firedActions (ProcessActions.loop curTime l f).2.2, a.WriteCommands = [] := by
  induction l generalizing f with
  | nil => simp [ProcessActions.loop, writtenCommands, firedActions]
  | cons a rest ih =>
    simp only [ProcessActions.loop, writtenCommands_append, firedActions_append,
      List.append_eq_nil, ih, List.mem_append]
    unfold ProcessAction
    split
    · simp [writtenCommands, firedActions]
    · simp [writtenCommands, firedActions, writtenCommands_map_Write, firedActions_map_Write]

/-! ## Lemmas about the generators -/

theorem executeGenerators_events (mk : Nat → UpdateEvent) (gens : List IActionGenerator) :
    ∀ (index : Nat) (q : List IAction),
      (executeGenerators mk gens index q).2.2 = (List.range' index gens.length).map mk := by
  induction gens with
  | nil => intro index q; rfl
  | cons g rest ih =>
    intro index q
    simp [executeGenerators, ih, List.range'_succ]

theorem firedActions_map_periodicExecute (l : List Nat) :
    firedActions (l.map UpdateEvent.periodicExecute) = [] := by
  induction l with
  | nil => rfl
  | cons c rest ih => simp [firedActions, ih]

theorem firedActions_map_piggybackExecute (l : List Nat) :
    firedActions (l.map UpdateEvent.piggybackExecute) = [] := by
  induction l with
  | nil => rfl
  | cons c rest ih => simp [firedActions, ih]

theorem piggybackExecuted_map_periodicExecute (l : List Nat) :
    piggybackExecuted (l.map UpdateEvent.periodicExecute) = [] := by
  induction l with
  | nil => rfl
  | cons c rest ih => simp [piggybackExecuted, ih]

theorem piggybackExecuted_map_piggybackExecute (l : List Nat) :
    piggybackExecuted (l.map UpdateEvent.piggybackExecute) = l := by
  induction l with
  | nil => rfl
  | cons c rest ih => simp [piggybackExecuted, ih]

theorem Update.periodic_events (self : RCONActionManager) :
    (Update.periodic self).2
      = (List.range' 0 self.m_PeriodicActionGenerators.length).map UpdateEvent.periodicExecute := by
  simp [Update.periodic, executeGenerators_events]

theorem Update.primaryPass_events (curTime : time_point_t) (self : RCONActionManager) :
    (Update.primaryPass curTime self).2 =
      (ProcessActions.loop curTime (Update.periodic self).1.m_Actions
        ⟨(Update.periodic self).1, fun _ => false, false⟩).2.2 := by
  unfold Update.primaryPass
  simp only
  split
  · rename_i h
    rw [List.isEmpty_iff] at h
    simp [h, ProcessActions.loop]
  · rfl

theorem Update.primaryPass_frame (curTime : time_point_t) (self : RCONActionManager) :
    (Update.primaryPass curTime self).1.actionTypes =
      (ProcessActions.loop curTime (Update.periodic self).1.m_Actions
        ⟨(Update.periodic self).1, fun _ => false, false⟩).2.1.actionTypes ∧
    (Update.primaryPass curTime self).1.m_AnyCmdsRun =
      (ProcessActions.loop curTime (Update.periodic self).1.m_Actions
        ⟨(Update.periodic self).1, fun _ => false, false⟩).2.1.m_AnyCmdsRun ∧
    (Update.primaryPass curTime self).1.self.m_LastTriggerTime =
      (ProcessActions.loop curTime (Update.periodic self).1.m_Actions
        ⟨(Update.periodic self).1, fun _ => false, false⟩).2.1.self.m_LastTriggerTime ∧
    (Update.primaryPass curTime self).1.self.m_PiggybackActionGenerators =
      self.m_PiggybackActionGenerators := by
  unfold Update.primaryPass
  simp only
  split
  · rename_i h
    rw [List.isEmpty_iff] at h
    rw [h]
    simp only [ProcessActions.loop, true_and]
    simp [Update.periodic]
  · simp [ProcessActions, ProcessActions.loop_m_PiggybackActionGenerators, Update.periodic]

theorem Update.piggybackPass_fired (curTime : time_point_t) (f : UpdateFrame) :
    (firedActions (Update.piggybackPass curTime f).2).Pairwise firesAfter ∧
    ∀ a ∈ firedActions (Update.piggybackPass curTime f).2,
      0 < a.GetMinInterval →
        f.actionTypes a.GetType = false ∧
        a.GetMinInterval ≤ curTime - f.self.m_LastTriggerTime a.GetType := by
  unfold Update.piggybackPass
  split
  · simp only [ProcessActions, firedActions_append, executeGenerators_events,
      firedActions_map_piggybackExecute, List.nil_append]
    exact ProcessActions.loop_pairwise curTime _ _
  · simp [firedActions]

/-- The actions fired by a processed tick: those of the primary pass followed by those
of the second pass. -/
theorem Update_firedActions (UPDATE_INTERVAL : duration_t) (curTime : time_point_t)
    (self : RCONActionManager) (hproc : ¬ curTime < self.m_LastUpdateTime + UPDATE_INTERVAL) :
    firedActions (self.Update UPDATE_INTERVAL curTime).2 =
      firedActions (Update.primaryPass curTime self).2 ++
        firedActions (Update.piggybackPass curTime (Update.primaryPass curTime self).1).2 := by
  unfold RCONActionManager.Update
  rw [if_neg hproc]
  simp [firedActions_append, Update.periodic_events, firedActions_map_periodicExecute]

theorem Update_not_processed (UPDATE_INTERVAL : duration_t) (curTime : time_point_t)
    (self : RCONActionManager) (h : curTime < self.m_LastUpdateTime + UPDATE_INTERVAL) :
    self.Update UPDATE_INTERVAL curTime = (self, []) := by
  unfold RCONActionManager.Update
  rw [if_pos h]

/-- Within one tick (both passes together) an action with a positive `minInterval`
fires only when no action of its type has fired before it in the tick and the cooldown
measured from the trigger time stored when the tick began has elapsed. -/
theorem Update_fired (UPDATE_INTERVAL : duration_t) (curTime : time_point_t)
    (self : RCONActionManager) :
    (firedActions (self.Update UPDATE_INTERVAL curTime).2).Pairwise firesAfter ∧
    ∀ a ∈ firedActions (self.Update UPDATE_INTERVAL curTime).2,
      0 < a.GetMinInterval →
        a.GetMinInterval ≤ curTime - self.m_LastTriggerTime a.GetType := by
  by_cases hproc : curTime < self.m_LastUpdateTime + UPDATE_INTERVAL
  · rw [Update_not_processed _ _ _ hproc]
    simp [firedActions]
  · rw [Update_firedActions _ _ _ hproc]
    obtain ⟨hfl, _, hlast, _⟩ := Update.primaryPass_frame curTime self
    have hst := ProcessActions.loop_state curTime (Update.periodic self).1.m_Actions
      ⟨(Update.periodic self).1, fun _ => false, false⟩
    obtain ⟨hp1, hp2⟩ := ProcessActions.loop_pairwise curTime (Update.periodic self).1.m_Actions
      ⟨(Update.periodic self).1, fun _ => false, false⟩
    obtain ⟨hq1, hq2⟩ := Update.piggybackPass_fired curTime (Update.primaryPass curTime self).1
    rw [hfl, hlast] at hq2
    rw [← Update.primaryPass_events] at hst hp1 hp2
    have hper : (Update.periodic self).1.m_LastTriggerTime = self.m_LastTriggerTime := rfl
    simp only [hper] at hst hp2
    refine ⟨List.pairwise_append.2 ⟨hp1, hq1, ?_⟩, ?_⟩
    · intro b hb a ha hpos heq
      have h1 := (hq2 a ha hpos).1
      rw [(hst a.GetType).1] at h1
      simp only [Bool.false_or, List.any_eq_false, decide_eq_true_eq] at h1
      exact h1 b hb heq
    · intro a ha hpos
      rcases List.mem_append.1 ha with ha | ha
      · exact (hp2 a ha hpos).2
      · obtain ⟨h1, h2⟩ := hq2 a ha hpos
        rw [(hst a.GetType).1] at h1
        rw [(hst a.GetType).2.1] at h2
        simp only [Bool.false_or] at h1
        rw [h1] at h2
        simpa using h2

theorem countP_le_one_of_pairwise {α : Type} (p : α → Bool) (R : α → α → Prop) (l : List α)
    (hR : ∀ x y, R x y → p x = true → p y = true → False) (h : l.Pairwise R) :
    l.countP p ≤ 1 := by
  induction l with
  | nil => simp
  | cons x rest ih =>
    rw [List.pairwise_cons] at h
    have ih1 := ih h.2
    rw [List.countP_cons]
    by_cases hx : p x = true
    · have h0 : rest.countP p = 0 := by
        rw [List.countP_eq_zero]
        intro y hy hpy
        exact hR x y (h.1 y hy) hx hpy
      simp [hx, h0]
    · simp [hx, ih1]

/-- Claim C2 (as amended). One fire per type per tick for actions with a cooldown: in
every `Update`, counting the primary pass and the piggyback pass together, for every
action type `T` at most one action of type `T` with `minInterval > 0` has
`WriteCommands` invoked. (Actions with `minInterval = 0` are exempt from the gate.) -/
theorem C2_one_positive_fire_per_type_per_tick (UPDATE_INTERVAL : duration_t)
    (curTime : time_point_t) (self : RCONActionManager) (T : ActionType) :
    countPositive T (firedActions (self.Update UPDATE_INTERVAL curTime).2) ≤ 1 := by
  unfold countPositive
  apply countP_le_one_of_pairwise _ firesAfter _ _ (Update_fired UPDATE_INTERVAL curTime self).1
  intro x y hxy hx hy
  simp only [Bool.and_eq_true, decide_eq_true_eq] at hx hy
  exact hxy hy.2 (hx.1.trans hy.1.symm)

/-- Counterexample to claim C2: the claim as stated fails for `minInterval = 0`: after
submitting two chat messages (type 2, no cooldown) to a fresh manager, one processed
tick invokes `WriteCommands` on both of them, and both write a command. -/
theorem C2_counterexample_zero_interval :
    (((RCONActionManager.init exSettings).QueueAction exChatA).2.QueueAction exChatB).1 = true ∧
    firedActions
      ((((RCONActionManager.init exSettings).QueueAction exChatA).2.QueueAction exChatB).2.Update
        1 100).2 = [exChatA, exChatB] ∧
    writtenCommands
      ((((RCONActionManager.init exSettings).QueueAction exChatA).2.QueueAction exChatB).2.Update
        1 100).2 = [("say", "hello"), ("say", "bye")] ∧
    countType 2 (firedActions
      ((((RCONActionManager.init exSettings).QueueAction exChatA).2.QueueAction exChatB).2.Update
        1 100).2) = 2 := by
  decide

theorem Update.primaryPass_piggybackExecuted (curTime : time_point_t)
    (self : RCONActionManager) :
    piggybackExecuted (Update.primaryPass curTime self).2 = [] := by
  rw [Update.primaryPass_events]
  exact ProcessActions.loop_piggybackExecuted _ _ _

theorem Update.primaryPass_m_AnyCmdsRun (curTime : time_point_t) (self : RCONActionManager) :
    (Update.primaryPass curTime self).1.m_AnyCmdsRun
      = !(writtenCommands (Update.primaryPass curTime self).2).isEmpty := by
  rw [(Update.primaryPass_frame curTime self).2.1, Update.primaryPass_events,
    (ProcessActions.loop_state curTime _ _ 0).2.2]
  simp

theorem Update.piggybackPass_piggybackExecuted (curTime : time_point_t) (f : UpdateFrame) :
    piggybackExecuted (Update.piggybackPass curTime f).2 =
      if f.m_AnyCmdsRun = true then List.range f.self.m_PiggybackActionGenerators.length
      else [] := by
  unfold Update.piggybackPass
  split
  · simp only [ProcessActions, piggybackExecuted_append, executeGenerators_events,
      piggybackExecuted_map_piggybackExecute, ProcessActions.loop_piggybackExecuted,
      List.append_nil, List.range_eq_range']
  · rfl

/-- The piggyback generators run in a processed tick exactly when the primary pass wrote
a command, and then each runs once, in registration order. -/
theorem Update_piggybackExecuted (UPDATE_INTERVAL : duration_t) (curTime : time_point_t)
    (self : RCONActionManager) (hproc : ¬ curTime < self.m_LastUpdateTime + UPDATE_INTERVAL) :
    piggybackExecuted (self.Update UPDATE_INTERVAL curTime).2 =
      if writtenCommands (Update.primaryPass curTime self).2 = [] then []
      else List.range self.m_PiggybackActionGenerators.length := by
  unfold RCONActionManager.Update
  rw [if_neg hproc]
  simp only [piggybackExecuted_append, Update.periodic_events,
    piggybackExecuted_map_periodicExecute, Update.primaryPass_piggybackExecuted,
    List.nil_append, Update.piggybackPass_piggybackExecuted, Update.primaryPass_m_AnyCmdsRun,
    (Update.primaryPass_frame curTime self).2.2.2]
  cases h : writtenCommands (Update.primaryPass curTime self).2 <;> simp

/-- Claim C4. Piggyback trigger: in every processed `Update`, the piggyback generators are
executed (each exactly once, in registration order `0, 1, ..`) if and only if at least
one command was written through the writer in the primary pass of that tick. In
particular they are not executed when the action queue is empty when the primary pass
would start, when no queued action fired in the primary pass, or when the actions fired
in the primary pass wrote no command. -/
theorem C4_piggyback_trigger (UPDATE_INTERVAL : duration_t) (curTime : time_point_t)
    (self : RCONActionManager) (hproc : ¬ curTime < self.m_LastUpdateTime + UPDATE_INTERVAL) :
    (piggybackExecuted (self.Update UPDATE_INTERVAL curTime).2 =
      if writtenCommands (Update.primaryPass curTime self).2 = [] then []
      else List.range self.m_PiggybackActionGenerators.length) ∧
    ((Update.periodic self).1.m_Actions = [] →
      piggybackExecuted (self.Update UPDATE_INTERVAL curTime).2 = []) ∧
    (firedActions (Update.primaryPass curTime self).2 = [] →
      piggybackExecuted (self.Update UPDATE_INTERVAL curTime).2 = []) ∧
    ((∀ a ∈ firedActions (Update.primaryPass curTime self).2, a.WriteCommands = []) →
      piggybackExecuted (self.Update UPDATE_INTERVAL curTime).2 = []) := by
  have hmain := Update_piggybackExecuted UPDATE_INTERVAL curTime self hproc
  have hw := ProcessActions.loop_writtenCommands_eq_nil curTime (Update.periodic self).1.m_Actions
    ⟨(Update.periodic self).1, fun _ => false, false⟩
  rw [← Update.primaryPass_events] at hw
  refine ⟨hmain, ?_, ?_, ?_⟩
  · intro hq
    have : writtenCommands (Update.primaryPass curTime self).2 = [] := by
      rw [Update.primaryPass_events, hq]
      rfl
    rw [hmain, if_pos this]
  · intro hf
    have : writtenCommands (Update.primaryPass curTime self).2 = [] := by
      rw [hw, hf]
      simp
    rw [hmain, if_pos this]
  · intro hz
    rw [hmain, if_pos (hw.2 hz)]

/-- A run of C4: the queued chat message fires and writes a command, so the one
registered piggyback generator (index 0) is executed once. -/
theorem C4_piggyback_trigger_witness :
    (¬ (100 : Int) < exManager.m_LastUpdateTime + 1) ∧
    piggybackExecuted (exManager.Update 1 100).2 = [0] ∧
    (piggybackExecuted (exManager.Update 1 100).2 =
      if writtenCommands (Update.primaryPass 100 exManager).2 = [] then []
      else List.range exManager.m_PiggybackActionGenerators.length) :=
  ⟨by decide, by decide, (C4_piggyback_trigger 1 100 exManager (by decide)).1⟩

/-! ## Trigger times and the cooldown -/

theorem ProcessActions.loop_fired_mem (curTime : time_point_t) (l : List IAction)
    (f : UpdateFrame) :
    ∀ b ∈ firedActions (ProcessActions.loop curTime l f).2.2, b ∈ l := by
  induction l generalizing f with
  | nil => simp [ProcessActions.loop, firedActions]
  | cons a rest ih =>
    intro b hb
    simp only [ProcessActions.loop, firedActions_append, ProcessAction_firedActions,
      List.mem_append] at hb
    rcases hb with hb | hb
    · split at hb
      · simp at hb
      · simp only [List.mem_singleton] at hb
        simp [hb]
    · exact List.mem_cons_of_mem _ (ih _ b hb)

theorem Update.primaryPass_m_Actions (curTime : time_point_t) (self : RCONActionManager) :
    (Update.primaryPass curTime self).1.self.m_Actions =
      (ProcessActions.loop curTime (Update.periodic self).1.m_Actions
        ⟨(Update.periodic self).1, fun _ => false, false⟩).1 := by
  unfold Update.primaryPass
  simp only
  split
  · rename_i h
    rw [List.isEmpty_iff] at h
    rw [h]
    simp only [ProcessActions.loop]
  · rfl

theorem Update.piggybackPass_m_LastTriggerTime (curTime : time_point_t) (f : UpdateFrame)
    (T : ActionType) :
    (Update.piggybackPass curTime f).1.self.m_LastTriggerTime T =
      if (firedActions (Update.piggybackPass curTime f).2).any
          (fun b => decide (b.GetType = T)) = true
        then curTime else f.self.m_LastTriggerTime T := by
  unfold Update.piggybackPass
  split
  · simp only [ProcessActions, firedActions_append, executeGenerators_events,
      firedActions_map_piggybackExecute, List.nil_append]
    rw [(ProcessActions.loop_state curTime _ _ T).2.1]
  · simp [firedActions]

/-- After `Update`, the trigger time of a type is the tick's time when an action of the
type fired in the tick, and is unchanged otherwise. -/
theorem Update_m_LastTriggerTime (UPDATE_INTERVAL : duration_t) (curTime : time_point_t)
    (self : RCONActionManager) (T : ActionType) :
    (self.Update UPDATE_INTERVAL curTime).1.m_LastTriggerTime T =
      if (firedActions (self.Update UPDATE_INTERVAL curTime).2).any
          (fun b => decide (b.GetType = T)) = true
        then curTime else self.m_LastTriggerTime T := by
  by_cases hproc : curTime < self.m_LastUpdateTime + UPDATE_INTERVAL
  · rw [Update_not_processed _ _ _ hproc]
    simp [firedActions]
  · rw [Update_firedActions _ _ _ hproc]
    have h1 : (self.Update UPDATE_INTERVAL curTime).1.m_LastTriggerTime
        = (Update.piggybackPass curTime (Update.primaryPass curTime self).1).1.self.m_LastTriggerTime := by
      unfold RCONActionManager.Update
      rw [if_neg hproc]
    rw [h1, Update.piggybackPass_m_LastTriggerTime, (Update.primaryPass_frame curTime self).2.2.1,
      (ProcessActions.loop_state curTime _ _ T).2.1, ← Update.primaryPass_events]
    have hper : (Update.periodic self).1.m_LastTriggerTime = self.m_LastTriggerTime := rfl
    simp only [hper, List.any_append, Bool.or_eq_true]
    by_cases ha : (firedActions (Update.primaryPass curTime self).2).any
        (fun b => decide (b.GetType = T)) = true <;>
    by_cases hb : (firedActions (Update.piggybackPass curTime
        (Update.primaryPass curTime self).1).2).any (fun b => decide (b.GetType = T)) = true <;>
    simp [ha, hb]

theorem Update_m_LastUpdateTime (UPDATE_INTERVAL : duration_t) (curTime : time_point_t)
    (self : RCONActionManager) :
    (self.Update UPDATE_INTERVAL curTime).1.m_LastUpdateTime =
      if curTime < self.m_LastUpdateTime + UPDATE_INTERVAL then self.m_LastUpdateTime
      else curTime := by
  unfold RCONActionManager.Update
  split <;> rfl

/-- An action fires only in a processed tick. -/
theorem Update_fired_processed (UPDATE_INTERVAL : duration_t) (curTime : time_point_t)
    (self : RCONActionManager) (a : IAction)
    (ha : a ∈ firedActions (self.Update UPDATE_INTERVAL curTime).2) :
    self.m_LastUpdateTime + UPDATE_INTERVAL ≤ curTime := by
  by_contra h
  rw [Update_not_processed _ _ _ (not_le.1 h)] at ha
  simp [firedActions] at ha

/-- Once a type has fired at `t₁`, its trigger time never falls below `t₁` as long as
the actions of the type that fire afterwards declare the positive `minInterval` `d`: each
of them fires at a time at least `d` after the stored trigger time. -/
theorem runOps_m_LastTriggerTime (UPDATE_INTERVAL : duration_t) (T : ActionType)
    (d : duration_t) (hd : 0 < d) (t₁ : time_point_t) (ops : List Op) :
    ∀ self : RCONActionManager,
      t₁ ≤ self.m_LastTriggerTime T →
      (∀ b ∈ firedActions (runOps UPDATE_INTERVAL ops self).2,
        b.GetType = T → b.GetMinInterval = d) →
      t₁ ≤ (runOps UPDATE_INTERVAL ops self).1.m_LastTriggerTime T := by
  induction ops with
  | nil => intro self h1 _; exact h1
  | cons op rest ih =>
    intro self h1 hdecl
    simp only [runOps, firedActions_append, List.mem_append] at hdecl ⊢
    apply ih
    · cases op with
      | QueueAction action => exact h1
      | AddPeriodicActionGenerator g => exact h1
      | AddPiggybackActionGenerator g => exact h1
      | Update curTime =>
        simp only [Op.apply, Update_m_LastTriggerTime] at hdecl ⊢
        split
        · rename_i hany
          obtain ⟨b, hb, hbT⟩ := List.any_eq_true.1 hany
          have hbT2 : b.GetType = T := by simpa using hbT
          have hmin := hdecl b (Or.inl hb) hbT2
          have hfire := (Update_fired UPDATE_INTERVAL curTime self).2 b hb (by rw [hmin]; exact hd)
          rw [hbT2, hmin] at hfire
          linarith
        · exact h1
    · exact fun b hb => hdecl b (Or.inr hb)

/-- Claim C3. Cooldown across ticks: let the actions of type `T` declare
`minInterval = d` (it is enough that those firing after the first tick do). Let an
action of type `T` fire in the tick at `t₁`, followed by any sequence of operations
(submissions, generator registrations, further ticks) and then a tick at `t₂` with
`t₁ ≤ t₂` and `t₂ - t₁ < d`. Then no action of type `T` fires in the tick at `t₂`: the
two ticks do not both fire type `T`. -/
theorem C3_cooldown_across_ticks (UPDATE_INTERVAL : duration_t)
    (T : ActionType) (d : duration_t) (self : RCONActionManager) (t₁ t₂ : time_point_t)
    (ops : List Op)
    (hdecl : ∀ b ∈
        firedActions (runOps UPDATE_INTERVAL ops (self.Update UPDATE_INTERVAL t₁).1).2 ++
        firedActions
          ((runOps UPDATE_INTERVAL ops (self.Update UPDATE_INTERVAL t₁).1).1.Update
            UPDATE_INTERVAL t₂).2,
      b.GetType = T → b.GetMinInterval = d)
    (h12 : t₁ ≤ t₂) (hlt : t₂ - t₁ < d) :
    ¬ ((∃ a ∈ firedActions (self.Update UPDATE_INTERVAL t₁).2, a.GetType = T) ∧
       (∃ b ∈ firedActions
          ((runOps UPDATE_INTERVAL ops (self.Update UPDATE_INTERVAL t₁).1).1.Update
            UPDATE_INTERVAL t₂).2,
          b.GetType = T)) := by
  rintro ⟨⟨a, ha, haT⟩, ⟨b, hb, hbT⟩⟩
  have hpos : 0 < d := by linarith
  have hlast1 : (self.Update UPDATE_INTERVAL t₁).1.m_LastTriggerTime T = t₁ := by
    rw [Update_m_LastTriggerTime, if_pos]
    exact List.any_eq_true.2 ⟨a, ha, by simpa using haT⟩
  have hinv := runOps_m_LastTriggerTime UPDATE_INTERVAL T d hpos t₁ ops
    (self.Update UPDATE_INTERVAL t₁).1 (le_of_eq hlast1.symm)
    (fun b hb => hdecl b (List.mem_append_left _ hb))
  have hd := hdecl b (List.mem_append_right _ hb) hbT
  have hfire := (Update_fired UPDATE_INTERVAL t₂ _).2 b hb (by rw [hd]; exact hpos)
  rw [hbT, hd] at hfire
  linarith

/-- A run of C3: a Status action (cooldown 5) fires in the tick at 100; another Status
action and a chat message are submitted; the tick at 103 fires the chat message and
does not fire the Status action. -/
theorem C3_cooldown_across_ticks_witness :
    ((∀ b ∈
        firedActions (runOps 1 [Op.QueueAction exStatus, Op.QueueAction exChatA]
          (exStatusQueued.Update 1 100).1).2 ++
        firedActions
          ((runOps 1 [Op.QueueAction exStatus, Op.QueueAction exChatA]
            (exStatusQueued.Update 1 100).1).1.Update 1 103).2,
        b.GetType = 5 → b.GetMinInterval = 5) ∧
      (100 : Int) ≤ 103 ∧ (103 : Int) - 100 < 5) ∧
    (∃ a ∈ firedActions (exStatusQueued.Update 1 100).2, a.GetType = 5) ∧
    firedActions
      ((runOps 1 [Op.QueueAction exStatus, Op.QueueAction exChatA]
        (exStatusQueued.Update 1 100).1).1.Update 1 103).2 = [exChatA] ∧
    ¬ ((∃ a ∈ firedActions (exStatusQueued.Update 1 100).2, a.GetType = 5) ∧
       (∃ b ∈ firedActions
          ((runOps 1 [Op.QueueAction exStatus, Op.QueueAction exChatA]
            (exStatusQueued.Update 1 100).1).1.Update 1 103).2,
          b.GetType = 5)) :=
  ⟨⟨by decide, by decide, by decide⟩, by decide, by decide,
   C3_cooldown_across_ticks 1 5 5 exStatusQueued 100 103
    [Op.QueueAction exStatus, Op.QueueAction exChatA] (by decide) (by decide) (by decide)⟩

/-- When the primary pass reaches the first queued action of a type, the type's flag in
`actionTypes` is still clear and its trigger time is the one stored before the tick, so
an action with a positive `minInterval` is gated there exactly when its cooldown has
not elapsed. -/
theorem ProcessAction_gated_first (curTime : time_point_t) (self : RCONActionManager)
    (pre : List IAction) (a : IAction)
    (hpre : ∀ b ∈ pre, b.GetType ≠ a.GetType) (hd : 0 < a.GetMinInterval) :
    ProcessAction.gated curTime a
        (ProcessActions.loop curTime pre ⟨(Update.periodic self).1, fun _ => false, false⟩).2.1 =
      decide (curTime - self.m_LastTriggerTime a.GetType < a.GetMinInterval) := by
  have hst := ProcessActions.loop_state curTime pre
    ⟨(Update.periodic self).1, fun _ => false, false⟩ a.GetType
  have hany : (firedActions (ProcessActions.loop curTime pre
      ⟨(Update.periodic self).1, fun _ => false, false⟩).2.2).any
      (fun b => decide (b.GetType = a.GetType)) = false := by
    rw [List.any_eq_false]
    intro b hb
    have := hpre b (ProcessActions.loop_fired_mem curTime pre _ b hb)
    simpa using this
  rw [hany] at hst
  have hper : (Update.periodic self).1.m_LastTriggerTime = self.m_LastTriggerTime := rfl
  simp only [Bool.or_false, Bool.false_eq_true, if_false, hper] at hst
  unfold ProcessAction.gated
  rw [hst.1, hst.2.1]
  simp [hd]

/-- Claim C9. An action fires once its cooldown has elapsed: in a processed `Update` at
time `curTime`, let `a` be the first queued action of its type (the queue at the start
of the primary pass is `pre ++ a :: post`, nothing in `pre` has the type of `a`) and let
its `minInterval` be positive. Then `a` is fired in the tick if and only if
`curTime - m_LastTriggerTime[type] ≥ minInterval`; the call of `ProcessAction` for it
returns `true` exactly in that case; and the primary pass removes it from its place in
the queue and invokes `WriteCommands` there exactly in that case, leaving it in place
with nothing invoked otherwise. Scenario (type Status, interval 5, times counted from
a first tick at clock time 100, interval between ticks 1): with a Status action queued,
the tick at `t = 0` fires it; a Status action queued again, the tick at `t = 3` leaves
it queued and invokes nothing; the tick at `t = 6` fires it. -/
theorem C9_fires_when_cooldown_elapsed (UPDATE_INTERVAL : duration_t) (curTime : time_point_t)
    (self : RCONActionManager) (pre post : List IAction) (a : IAction)
    (hproc : ¬ curTime < self.m_LastUpdateTime + UPDATE_INTERVAL)
    (hq : (Update.periodic self).1.m_Actions = pre ++ a :: post)
    (hpre : ∀ b ∈ pre, b.GetType ≠ a.GetType) (hd : 0 < a.GetMinInterval) :
    (a ∈ firedActions (self.Update UPDATE_INTERVAL curTime).2 ↔
      a.GetMinInterval ≤ curTime - self.m_LastTriggerTime a.GetType) ∧
    ((ProcessAction curTime a
        (ProcessActions.loop curTime pre
          ⟨(Update.periodic self).1, fun _ => false, false⟩).2.1).1 = true ↔
      a.GetMinInterval ≤ curTime - self.m_LastTriggerTime a.GetType) ∧
    (Update.primaryPass curTime self).1.self.m_Actions =
      (ProcessActions.loop curTime pre ⟨(Update.periodic self).1, fun _ => false, false⟩).1
      ++ (if a.GetMinInterval ≤ curTime - self.m_LastTriggerTime a.GetType then [] else [a])
      ++ (ProcessActions.loop curTime post
          (ProcessAction curTime a
            (ProcessActions.loop curTime pre
              ⟨(Update.periodic self).1, fun _ => false, false⟩).2.1).2.1).1 ∧
    (Update.primaryPass curTime self).2 =
      (ProcessActions.loop curTime pre ⟨(Update.periodic self).1, fun _ => false, false⟩).2.2
      ++ (if a.GetMinInterval ≤ curTime - self.m_LastTriggerTime a.GetType
          then UpdateEvent.WriteCommands a ::
            a.WriteCommands.map (fun c => UpdateEvent.Write c.1 c.2)
          else [])
      ++ (ProcessActions.loop curTime post
          (ProcessAction curTime a
            (ProcessActions.loop curTime pre
              ⟨(Update.periodic self).1, fun _ => false, false⟩).2.1).2.1).2.2 ∧
    (firedActions (exStatusQueued.Update 1 100).2 = [exStatus] ∧
      (exStatusQueued.Update 1 100).1.m_Actions = [] ∧
      ((exStatusQueued.Update 1 100).1.QueueAction exStatus).1 = true ∧
      (((exStatusQueued.Update 1 100).1.QueueAction exStatus).2.Update 1 103).2 = [] ∧
      (((exStatusQueued.Update 1 100).1.QueueAction exStatus).2.Update 1 103).1.m_Actions
        = [exStatus] ∧
      firedActions
        ((((exStatusQueued.Update 1 100).1.QueueAction exStatus).2.Update 1 103).1.Update
          1 106).2 = [exStatus] ∧
      ((((exStatusQueued.Update 1 100).1.QueueAction exStatus).2.Update 1 103).1.Update
          1 106).1.m_Actions = []) := by
  have hg := ProcessAction_gated_first curTime self pre a hpre hd
  have hfst := ProcessAction_fst curTime a
    (ProcessActions.loop curTime pre ⟨(Update.periodic self).1, fun _ => false, false⟩).2.1
  refine ⟨⟨fun h => (Update_fired UPDATE_INTERVAL curTime self).2 a h hd, fun h => ?_⟩,
    ?_, ?_, ?_, by decide⟩
  · rw [Update_firedActions _ _ _ hproc, Update.primaryPass_events, hq, ProcessActions.loop_append]
    simp only [ProcessActions.loop, firedActions_append, ProcessAction_firedActions, hg]
    simp [not_lt.2 h]
  · rw [hfst, hg]
    simp
  · rw [Update.primaryPass_m_Actions, hq, ProcessActions.loop_append]
    simp only [ProcessActions.loop, hfst, hg]
    by_cases h : a.GetMinInterval ≤ curTime - self.m_LastTriggerTime a.GetType
    · simp [h, not_lt.2 h]
    · simp [h, not_le.1 h]
  · rw [Update.primaryPass_events, hq, ProcessActions.loop_append]
    simp only [ProcessActions.loop]
    by_cases h : a.GetMinInterval ≤ curTime - self.m_LastTriggerTime a.GetType
    · have hgf : ProcessAction.gated curTime a (ProcessActions.loop curTime pre
          ⟨(Update.periodic self).1, fun _ => false, false⟩).2.1 = false := by
        rw [hg]; simp [not_lt.2 h]
      rw [(ProcessAction_fired curTime a _ hgf).2.1]
      simp [h]
    · have hgt : ProcessAction.gated curTime a (ProcessActions.loop curTime pre
          ⟨(Update.periodic self).1, fun _ => false, false⟩).2.1 = true := by
        rw [hg]; simp [not_le.1 h]
      rw [ProcessAction_gated curTime a _ hgt]
      simp [h]

/-- A run of C9: the freshly constructed manager with a Status action queued, tick at
clock time 100: the action is the first of its type and its cooldown has elapsed. -/
theorem C9_fires_when_cooldown_elapsed_witness :
    ((¬ (100 : Int) < exStatusQueued.m_LastUpdateTime + 1) ∧
      (Update.periodic exStatusQueued).1.m_Actions = [] ++ exStatus :: [] ∧
      (∀ b ∈ ([] : List IAction), b.GetType ≠ exStatus.GetType) ∧
      0 < exStatus.GetMinInterval) ∧
    (exStatus ∈ firedActions (exStatusQueued.Update 1 100).2 ↔
      exStatus.GetMinInterval ≤ 100 - exStatusQueued.m_LastTriggerTime exStatus.GetType) :=
  ⟨⟨by decide, by decide, by decide, by decide⟩,
   (C9_fires_when_cooldown_elapsed 1 100 exStatusQueued [] [] exStatus
      (by decide) (by decide) (by decide) (by decide)).1⟩

/-! ## The dispatch worker: one step -/

theorem RunCommand_fst (self : RCONActionManager) (cmd : String) (attempt : Attempt) :
    (self.RunCommand cmd attempt).1 = attempt.outcome self.m_RCONClient_connected := by
  unfold RCONActionManager.RunCommand Attempt.outcome
  cases attempt.lockAcquired <;> cases self.m_RCONClient_connected <;>
    cases attempt.connect <;> simp

theorem completions_append (p : Nat) (l₁ l₂ : List DispatchEvent) :
    completions p (l₁ ++ l₂) = completions p l₁ ++ completions p l₂ := by
  induction l₁ with
  | nil => rfl
  | cons e rest ih =>
    have ih1 : completions p (rest.append l₂) = completions p rest ++ completions p l₂ := ih
    cases e <;> simp only [List.cons_append, completions, ih, ih1]
    all_goals split <;> simp

theorem chunks_append (l₁ l₂ : List DispatchEvent) :
    chunks (l₁ ++ l₂) = chunks l₁ ++ chunks l₂ := by
  induction l₁ with
  | nil => rfl
  | cons e rest ih => cases e <;> simp [chunks, ih]

theorem attempted_append (l₁ l₂ : List DispatchEvent) :
    attempted (l₁ ++ l₂) = attempted l₁ ++ attempted l₂ := by
  induction l₁ with
  | nil => rfl
  | cons e rest ih => cases e <;> simp [attempted, ih]

/-- The calls of `RunCommand` are calls on the client only, and `send_command` is
reached whenever a response is returned. -/
theorem RunCommand_events (self : RCONActionManager) (cmd : String) (attempt : Attempt) :
    (∀ p, completions p (self.RunCommand cmd attempt).2.2 = []) ∧
    chunks (self.RunCommand cmd attempt).2.2 = [] ∧
    attempted (self.RunCommand cmd attempt).2.2 = [] ∧
    DispatchEvent.pop ∉ (self.RunCommand cmd attempt).2.2 ∧
    DispatchEvent.disconnect ∉ (self.RunCommand cmd attempt).2.2 ∧
    (∀ r, attempt.outcome self.m_RCONClient_connected = some r →
      DispatchEvent.send_command cmd ∈ (self.RunCommand cmd attempt).2.2) := by
  unfold RCONActionManager.RunCommand Attempt.outcome
  cases attempt.lockAcquired <;> cases self.m_RCONClient_connected <;>
    cases attempt.connect <;> simp [completions, chunks, attempted]

/-- A failed attempt on a reliable head: nothing changes but the client, which is
disconnected; no promise is completed, nothing is forwarded, nothing is popped. -/
theorem step_reliable_fail (attempt : Attempt) (self : RCONActionManager) (cmd : RCONCommand)
    (rest : List RCONCommand) (hq : self.m_RCONCommands = cmd :: rest)
    (hrel : cmd.m_Reliable = true)
    (hout : attempt.outcome self.m_RCONClient_connected = none) :
    RCONThreadFunc.step attempt self
      = some ({ self with m_RCONClient_connected := false },
          [DispatchEvent.RunCommand cmd] ++ (self.RunCommand cmd.m_Command attempt).2.2
            ++ [DispatchEvent.disconnect, DispatchEvent.sleep_for_1s]) := by
  unfold Attempt.outcome at hout
  unfold RCONThreadFunc.step
  rw [hq]
  simp only [hrel]
  unfold RCONActionManager.RunCommand RCONThreadFunc.handler
  cases hl : attempt.lockAcquired <;> cases hc : self.m_RCONClient_connected <;>
    cases hcon : attempt.connect <;> simp [hl, hc, hcon] at hout <;>
    simp [hout, hrel, hq, hc, hl, hcon]

/-- A successful attempt on a reliable head with a pending promise: the promise takes
the response, a response that is not empty is forwarded, and the head is popped. -/
theorem step_reliable_ok (attempt : Attempt) (self : RCONActionManager) (cmd : RCONCommand)
    (rest : List RCONCommand) (r : String) (hq : self.m_RCONCommands = cmd :: rest)
    (hrel : cmd.m_Reliable = true)
    (hpend : self.promises cmd.m_Promise = PromiseState.pending)
    (hout : attempt.outcome self.m_RCONClient_connected = some r) :
    RCONThreadFunc.step attempt self
      = some ({ self with
          m_RCONCommands := rest
          promises := Function.update self.promises cmd.m_Promise (PromiseState.value r)
          m_RCONClient_connected := true
          m_WorldState :=
            if r.isEmpty = false then self.m_WorldState ++ [r] else self.m_WorldState },
          [DispatchEvent.RunCommand cmd] ++ (self.RunCommand cmd.m_Command attempt).2.2
            ++ [DispatchEvent.set_value cmd.m_Promise r]
            ++ (if r.isEmpty = false then [DispatchEvent.AddConsoleOutputChunk r] else [])
            ++ [DispatchEvent.pop]) := by
  unfold Attempt.outcome at hout
  unfold RCONThreadFunc.step
  rw [hq]
  simp only [hrel]
  unfold RCONActionManager.RunCommand RCONActionManager.setPromise
  cases hl : attempt.lockAcquired <;> cases hc : self.m_RCONClient_connected <;>
    cases hcon : attempt.connect <;> simp [hl, hc, hcon] at hout <;>
    cases he : r.isEmpty <;>
    simp [hout, hrel, hpend, hq, he, hc, hl, hcon]

/-- A reliable head whose promise already holds a result: `set_value` throws, the
handler runs and the command stays queued. -/
theorem step_reliable_stale (attempt : Attempt) (self : RCONActionManager) (cmd : RCONCommand)
    (rest : List RCONCommand) (hq : self.m_RCONCommands = cmd :: rest)
    (hrel : cmd.m_Reliable = true)
    (hpend : self.promises cmd.m_Promise ≠ PromiseState.pending) :
    RCONThreadFunc.step attempt self
      = some ({ self with m_RCONClient_connected := false },
          [DispatchEvent.RunCommand cmd] ++ (self.RunCommand cmd.m_Command attempt).2.2
            ++ [DispatchEvent.disconnect, DispatchEvent.sleep_for_1s]) := by
  unfold RCONThreadFunc.step
  rw [hq]
  simp only [hrel]
  unfold RCONActionManager.RunCommand RCONThreadFunc.handler RCONActionManager.setPromise
  cases hpr : self.promises cmd.m_Promise with
  | pending => exact absurd hpr hpend
  | value v =>
    cases hl : attempt.lockAcquired <;> cases hc : self.m_RCONClient_connected <;>
      cases hcon : attempt.connect <;> cases hs : attempt.send_command <;>
      simp [hrel, hq, hc, hl, hcon, hs, hpr]
  | exception =>
    cases hl : attempt.lockAcquired <;> cases hc : self.m_RCONClient_connected <;>
      cases hcon : attempt.connect <;> cases hs : attempt.send_command <;>
      simp [hrel, hq, hc, hl, hcon, hs, hpr]

/-- A successful attempt on a best-effort head with a pending promise: the head is
popped first, the promise takes the response, a response that is not empty is
forwarded. -/
theorem step_besteffort_ok (attempt : Attempt) (self : RCONActionManager) (cmd : RCONCommand)
    (rest : List RCONCommand) (r : String) (hq : self.m_RCONCommands = cmd :: rest)
    (hrel : cmd.m_Reliable = false)
    (hpend : self.promises cmd.m_Promise = PromiseState.pending)
    (hout : attempt.outcome self.m_RCONClient_connected = some r) :
    RCONThreadFunc.step attempt self
      = some ({ self with
          m_RCONCommands := rest
          promises := Function.update self.promises cmd.m_Promise (PromiseState.value r)
          m_RCONClient_connected := true
          m_WorldState :=
            if r.isEmpty = false then self.m_WorldState ++ [r] else self.m_WorldState },
          [DispatchEvent.pop, DispatchEvent.RunCommand cmd]
            ++ (self.RunCommand cmd.m_Command attempt).2.2
            ++ [DispatchEvent.set_value cmd.m_Promise r]
            ++ (if r.isEmpty = false then [DispatchEvent.AddConsoleOutputChunk r] else [])) := by
  unfold Attempt.outcome at hout
  unfold RCONThreadFunc.step
  rw [hq]
  simp only [hrel]
  unfold RCONActionManager.RunCommand RCONActionManager.setPromise
  cases hl : attempt.lockAcquired <;> cases hc : self.m_RCONClient_connected <;>
    cases hcon : attempt.connect <;> simp [hl, hc, hcon] at hout <;>
    cases he : r.isEmpty <;>
    simp [hout, hrel, hpend, hq, he, hc, hl, hcon]

/-- A failed attempt on a best-effort head with a pending promise: the head is popped
first, the promise takes the exception, the client is disconnected. -/
theorem step_besteffort_fail (attempt : Attempt) (self : RCONActionManager) (cmd : RCONCommand)
    (rest : List RCONCommand) (hq : self.m_RCONCommands = cmd :: rest)
    (hrel : cmd.m_Reliable = false)
    (hpend : self.promises cmd.m_Promise = PromiseState.pending)
    (hout : attempt.outcome self.m_RCONClient_connected = none) :
    RCONThreadFunc.step attempt self
      = some ({ self with
          m_RCONCommands := rest
          promises := Function.update self.promises cmd.m_Promise PromiseState.exception
          m_RCONClient_connected := false },
          [DispatchEvent.pop, DispatchEvent.RunCommand cmd]
            ++ (self.RunCommand cmd.m_Command attempt).2.2
            ++ [DispatchEvent.set_exception cmd.m_Promise, DispatchEvent.disconnect,
                DispatchEvent.sleep_for_1s]) := by
  unfold Attempt.outcome at hout
  unfold RCONThreadFunc.step
  rw [hq]
  simp only [hrel]
  unfold RCONActionManager.RunCommand RCONThreadFunc.handler RCONActionManager.setPromise
  cases hl : attempt.lockAcquired <;> cases hc : self.m_RCONClient_connected <;>
    cases hcon : attempt.connect <;> simp [hl, hc, hcon] at hout <;>
    simp [hout, hrel, hpend, hq, hc, hl, hcon]

theorem step_nil (attempt : Attempt) (self : RCONActionManager)
    (hq : self.m_RCONCommands = []) :
    RCONThreadFunc.step attempt self = some (self, []) := by
  unfold RCONThreadFunc.step
  rw [hq]

/-! ## The dispatch worker: retries -/

theorem steps_append_some (l₁ l₂ : List Attempt) :
    ∀ (s s₁ s₂ : RCONActionManager) (ev₁ ev₂ : List DispatchEvent),
      RCONThreadFunc.steps l₁ s = some (s₁, ev₁) →
      RCONThreadFunc.steps l₂ s₁ = some (s₂, ev₂) →
      RCONThreadFunc.steps (l₁ ++ l₂) s = some (s₂, ev₁ ++ ev₂) := by
  induction l₁ with
  | nil =>
    intro s s₁ s₂ ev₁ ev₂ h1 h2
    simp only [RCONThreadFunc.steps, Option.some.injEq, Prod.mk.injEq] at h1
    obtain ⟨rfl, rfl⟩ := h1
    simpa using h2
  | cons a rest ih =>
    intro s s₁ s₂ ev₁ ev₂ h1 h2
    simp only [RCONThreadFunc.steps, List.cons_append] at h1 ⊢
    cases hstep : RCONThreadFunc.step a s with
    | none => simp [hstep] at h1
    | some r1 =>
      rw [hstep] at h1
      simp only at h1 ⊢
      cases hrest : RCONThreadFunc.steps rest r1.1 with
      | none => simp [hrest] at h1
      | some r2 =>
        rw [hrest] at h1
        simp only [Option.some.injEq, Prod.mk.injEq] at h1
        obtain ⟨rfl, rfl⟩ := h1
        have e := ih r1.1 r2.1 s₂ r2.2 ev₂ hrest h2
        rw [show rest.append l₂ = rest ++ l₂ from rfl, e]
        simp

theorem steps_singleton (a : Attempt) (s s₁ : RCONActionManager) (ev : List DispatchEvent)
    (h : RCONThreadFunc.step a s = some (s₁, ev)) :
    RCONThreadFunc.steps [a] s = some (s₁, ev) := by
  simp [RCONThreadFunc.steps, h]

theorem allFail_take (k : Nat) (fails : List Attempt) :
    ∀ c, allFail c fails = true → allFail c (fails.take k) = true := by
  induction fails generalizing k with
  | nil => intro c _; simp [allFail]
  | cons a rest ih =>
    intro c h
    cases k with
    | zero => simp [allFail]
    | succ k =>
      simp only [allFail, Bool.and_eq_true, List.take_succ_cons] at h ⊢
      exact ⟨h.1, ih k false h.2⟩

/-- While the attempts fail, a reliable head stays where it is: the queue, the promises
and the world state are unchanged, nothing is completed, forwarded or popped. -/
theorem steps_allFail (cmd : RCONCommand) (rest : List RCONCommand) (fails : List Attempt) :
    ∀ s : RCONActionManager, s.m_RCONCommands = cmd :: rest → cmd.m_Reliable = true →
      allFail s.m_RCONClient_connected fails = true →
      ∃ s₁ ev, RCONThreadFunc.steps fails s = some (s₁, ev) ∧
        s₁.m_RCONCommands = cmd :: rest ∧ s₁.promises = s.promises ∧
        s₁.m_WorldState = s.m_WorldState ∧
        s₁.m_RCONClient_connected = (if fails.isEmpty then s.m_RCONClient_connected else false) ∧
        (∀ p, completions p ev = []) ∧ chunks ev = [] ∧ DispatchEvent.pop ∉ ev ∧
        attempted ev = List.replicate fails.length cmd := by
  induction fails with
  | nil =>
    intro s hq _ _
    exact ⟨s, [], rfl, hq, rfl, rfl, by simp, by simp [completions], rfl, by simp, rfl⟩
  | cons a more ih =>
    intro s hq hrel hfail
    simp only [allFail, Bool.and_eq_true, Option.isNone_iff_eq_none] at hfail
    have hstep := step_reliable_fail a s cmd rest hq hrel hfail.1
    obtain ⟨hc, hch, hat, hpop, _, _⟩ := RunCommand_events s cmd.m_Command a
    obtain ⟨s₁, ev, h1, h2, h3, h4, _, h6, h7, h8, h9⟩ :=
      ih { s with m_RCONClient_connected := false } hq hrel hfail.2
    refine ⟨s₁, [DispatchEvent.RunCommand cmd] ++ (s.RunCommand cmd.m_Command a).2.2
      ++ [DispatchEvent.disconnect, DispatchEvent.sleep_for_1s] ++ ev, ?_, h2, h3, h4, ?_, ?_, ?_, ?_, ?_⟩
    · simp only [RCONThreadFunc.steps, hstep, h1]
    · cases more <;> simp_all [RCONThreadFunc.steps]
    · intro p
      simp [completions_append, hc p, h6 p, completions]
    · simp [chunks_append, hch, h7, chunks]
    · simp [hpop, h8]
    · simp [attempted_append, hat, h9, attempted, List.replicate_succ]

/-- A step leaves a reliable head in place unless its send succeeded, and then it
removes exactly the head. -/
theorem step_reliable_queue (a : Attempt) (s s₁ : RCONActionManager) (cmd : RCONCommand)
    (rest : List RCONCommand) (ev : List DispatchEvent)
    (hq : s.m_RCONCommands = cmd :: rest) (hrel : cmd.m_Reliable = true)
    (hstep : RCONThreadFunc.step a s = some (s₁, ev)) :
    s₁.m_RCONCommands = cmd :: rest ∨
      (s₁.m_RCONCommands = rest ∧
        ∃ r, a.outcome s.m_RCONClient_connected = some r ∧
          DispatchEvent.set_value cmd.m_Promise r ∈ ev) := by
  cases hout : a.outcome s.m_RCONClient_connected with
  | none =>
    rw [step_reliable_fail a s cmd rest hq hrel hout] at hstep
    simp only [Option.some.injEq, Prod.mk.injEq] at hstep
    left
    rw [← hstep.1]
    exact hq
  | some r =>
    by_cases hpend : s.promises cmd.m_Promise = PromiseState.pending
    · rw [step_reliable_ok a s cmd rest r hq hrel hpend hout] at hstep
      simp only [Option.some.injEq, Prod.mk.injEq] at hstep
      right
      refine ⟨by rw [← hstep.1], r, rfl, ?_⟩
      rw [← hstep.2]
      simp
    · rw [step_reliable_stale a s cmd rest hq hrel hpend] at hstep
      simp only [Option.some.injEq, Prod.mk.injEq] at hstep
      left
      rw [← hstep.1]
      exact hq

/-- Claim C5. Reliable retry: let a reliable command with a pending result handle be at
the head of the command queue, let the first `n` attempts fail (each in the connection
state it meets) and let the next attempt return the response `r`. Then after each of
the first `k ≤ n` steps the command is still at the head with its handle pending and
never completed; after the `n + 1` steps the handle has been completed exactly once,
with `r`, the command has been removed from the queue, and every one of the `n + 1`
attempts was made for this command. A dispatch step never removes a reliable command
unless its send succeeded. -/
theorem C5_reliable_retry (s : RCONActionManager) (cmd : RCONCommand)
    (rest : List RCONCommand) (fails : List Attempt) (ok : Attempt) (r : String)
    (hq : s.m_RCONCommands = cmd :: rest) (hrel : cmd.m_Reliable = true)
    (hpend : s.promises cmd.m_Promise = PromiseState.pending)
    (hfail : allFail s.m_RCONClient_connected fails = true)
    (hok : ok.outcome (if fails.isEmpty then s.m_RCONClient_connected else false) = some r) :
    (∀ k, ∃ sₖ evₖ, RCONThreadFunc.steps (fails.take k) s = some (sₖ, evₖ) ∧
        sₖ.m_RCONCommands = cmd :: rest ∧
        sₖ.promises cmd.m_Promise = PromiseState.pending ∧
        completions cmd.m_Promise evₖ = []) ∧
    (∃ s₁ ev, RCONThreadFunc.steps (fails ++ [ok]) s = some (s₁, ev) ∧
        s₁.m_RCONCommands = rest ∧
        s₁.promises cmd.m_Promise = PromiseState.value r ∧
        completions cmd.m_Promise ev = [PromiseState.value r] ∧
        attempted ev = List.replicate (fails.length + 1) cmd) ∧
    (∀ (a : Attempt) (s₀ s₁ : RCONActionManager) (c₀ : RCONCommand) (rest₀ : List RCONCommand)
        (ev : List DispatchEvent),
        s₀.m_RCONCommands = c₀ :: rest₀ → c₀.m_Reliable = true →
        RCONThreadFunc.step a s₀ = some (s₁, ev) →
        s₁.m_RCONCommands = c₀ :: rest₀ ∨
          (s₁.m_RCONCommands = rest₀ ∧
            ∃ r₀, a.outcome s₀.m_RCONClient_connected = some r₀ ∧
              DispatchEvent.set_value c₀.m_Promise r₀ ∈ ev)) := by
  refine ⟨fun k => ?_, ?_, fun a s₀ s₁ c₀ rest₀ ev h1 h2 h3 =>
    step_reliable_queue a s₀ s₁ c₀ rest₀ ev h1 h2 h3⟩
  · obtain ⟨sₖ, evₖ, h1, h2, h3, _, _, h6, _⟩ :=
      steps_allFail cmd rest (fails.take k) s hq hrel (allFail_take k fails _ hfail)
    exact ⟨sₖ, evₖ, h1, h2, by rw [h3, hpend], h6 _⟩
  · obtain ⟨s₁, ev₁, h1, h2, h3, _, h5, h6, _, _, h9⟩ :=
      steps_allFail cmd rest fails s hq hrel hfail
    rw [← h5] at hok
    have hpend1 : s₁.promises cmd.m_Promise = PromiseState.pending := by rw [h3, hpend]
    have hstep := step_reliable_ok ok s₁ cmd rest r h2 hrel hpend1 hok
    obtain ⟨hc, _, hat, _, _, _⟩ := RunCommand_events s₁ cmd.m_Command ok
    refine ⟨_, _, steps_append_some fails [ok] s s₁ _ ev₁ _ h1 (steps_singleton ok s₁ _ _ hstep),
      rfl, by simp, ?_, ?_⟩
    · simp only [completions_append, h6, hc, List.nil_append]
      cases r.isEmpty <;> simp [completions]
    · simp only [attempted_append, h9, hat]
      cases r.isEmpty <;> simp [attempted, List.replicate_succ']

/-- A run of C5 with `n = 2`: the reliable command `"status"` is at the head, two sends
throw, the third returns `"name: Alice\n"`. -/
theorem C5_reliable_retry_witness :
    (exReliableQueued.m_RCONCommands = ⟨"status", true, 0⟩ :: [] ∧
      exReliableQueued.promises 0 = PromiseState.pending ∧
      allFail exReliableQueued.m_RCONClient_connected [exSendThrows, exSendThrows] = true) ∧
    (∃ s₁ ev, RCONThreadFunc.steps ([exSendThrows, exSendThrows] ++ [exSendAlice])
          exReliableQueued = some (s₁, ev) ∧
        s₁.m_RCONCommands = [] ∧
        s₁.promises 0 = PromiseState.value "name: Alice\n" ∧
        completions 0 ev = [PromiseState.value "name: Alice\n"] ∧
        attempted ev = List.replicate 3 ⟨"status", true, 0⟩) :=
  ⟨⟨by decide, by decide, by decide⟩,
   (C5_reliable_retry exReliableQueued ⟨"status", true, 0⟩ [] [exSendThrows, exSendThrows]
      exSendAlice "name: Alice\n" (by decide) (by decide) (by decide) (by decide)
      (by decide)).2.1⟩

/-! ## The dispatch worker: what a step can do -/

theorem step_besteffort_stale (attempt : Attempt) (self : RCONActionManager) (cmd : RCONCommand)
    (rest : List RCONCommand) (hq : self.m_RCONCommands = cmd :: rest)
    (hrel : cmd.m_Reliable = false)
    (hpend : self.promises cmd.m_Promise ≠ PromiseState.pending) :
    RCONThreadFunc.step attempt self = none := by
  unfold RCONThreadFunc.step
  rw [hq]
  simp only [hrel]
  unfold RCONActionManager.RunCommand RCONThreadFunc.handler RCONActionManager.setPromise
  cases hpr : self.promises cmd.m_Promise with
  | pending => exact absurd hpr hpend
  | value v =>
    cases hl : attempt.lockAcquired <;> cases hc : self.m_RCONClient_connected <;>
      cases hcon : attempt.connect <;> cases hs : attempt.send_command <;>
      simp [hrel, hq, hc, hl, hcon, hs, hpr]
  | exception =>
    cases hl : attempt.lockAcquired <;> cases hc : self.m_RCONClient_connected <;>
      cases hcon : attempt.connect <;> cases hs : attempt.send_command <;>
      simp [hrel, hq, hc, hl, hcon, hs, hpr]

/-- What a step that returns leaves behind, for a queue with head `cmd`: the only
attempt is for `cmd`; the queue is unchanged or has lost exactly its head; only the
promise of `cmd` can change, and it changes exactly when the head is removed; a removed
reliable head was sent successfully; a head that stays is reliable. -/
theorem step_frame (a : Attempt) (s s₁ : RCONActionManager) (cmd : RCONCommand)
    (rest : List RCONCommand) (ev : List DispatchEvent)
    (hq : s.m_RCONCommands = cmd :: rest)
    (hstep : RCONThreadFunc.step a s = some (s₁, ev)) :
    attempted ev = [cmd] ∧
    (∀ p, p ≠ cmd.m_Promise → completions p ev = [] ∧ s₁.promises p = s.promises p) ∧
    s₁.nextPromise = s.nextPromise ∧
    ((s₁.m_RCONCommands = cmd :: rest ∧ s₁.promises = s.promises ∧ cmd.m_Reliable = true ∧
        completions cmd.m_Promise ev = []) ∨
     (s₁.m_RCONCommands = rest ∧ s.promises cmd.m_Promise = PromiseState.pending ∧
        (cmd.m_Reliable = true → ∃ r, DispatchEvent.set_value cmd.m_Promise r ∈ ev))) := by
  obtain ⟨hc, _, hat, _, _, _⟩ := RunCommand_events s cmd.m_Command a
  have hne : ∀ p, p ≠ cmd.m_Promise → ¬ cmd.m_Promise = p := fun p h h2 => h h2.symm
  cases hrel : cmd.m_Reliable with
  | true =>
    cases hout : a.outcome s.m_RCONClient_connected with
    | none =>
      rw [step_reliable_fail a s cmd rest hq hrel hout] at hstep
      simp only [Option.some.injEq, Prod.mk.injEq] at hstep
      obtain ⟨rfl, rfl⟩ := hstep
      simp [attempted_append, completions_append, hat, hc, attempted, completions, hq]
    | some r =>
      by_cases hpend : s.promises cmd.m_Promise = PromiseState.pending
      · rw [step_reliable_ok a s cmd rest r hq hrel hpend hout] at hstep
        simp only [Option.some.injEq, Prod.mk.injEq] at hstep
        obtain ⟨rfl, rfl⟩ := hstep
        refine ⟨?_, ?_, rfl, Or.inr ⟨rfl, hpend, fun _ => ⟨r, by simp⟩⟩⟩
        · cases r.isEmpty <;> simp [attempted_append, hat, attempted]
        · intro p hp
          refine ⟨?_, by simp [Function.update_noteq hp]⟩
          cases r.isEmpty <;> simp [completions_append, hc, completions, hne p hp]
      · rw [step_reliable_stale a s cmd rest hq hrel hpend] at hstep
        simp only [Option.some.injEq, Prod.mk.injEq] at hstep
        obtain ⟨rfl, rfl⟩ := hstep
        simp [attempted_append, completions_append, hat, hc, attempted, completions, hq]
  | false =>
    by_cases hpend : s.promises cmd.m_Promise = PromiseState.pending
    · cases hout : a.outcome s.m_RCONClient_connected with
      | none =>
        rw [step_besteffort_fail a s cmd rest hq hrel hpend hout] at hstep
        simp only [Option.some.injEq, Prod.mk.injEq] at hstep
        obtain ⟨rfl, rfl⟩ := hstep
        refine ⟨by simp [attempted_append, hat, attempted], ?_, rfl, Or.inr ⟨rfl, hpend, by simp⟩⟩
        intro p hp
        exact ⟨by simp [completions_append, hc, completions, hne p hp],
          by simp [Function.update_noteq hp]⟩
      | some r =>
        rw [step_besteffort_ok a s cmd rest r hq hrel hpend hout] at hstep
        simp only [Option.some.injEq, Prod.mk.injEq] at hstep
        obtain ⟨rfl, rfl⟩ := hstep
        refine ⟨?_, ?_, rfl, Or.inr ⟨rfl, hpend, by simp⟩⟩
        · cases r.isEmpty <;> simp [attempted_append, hat, attempted]
        · intro p hp
          refine ⟨?_, by simp [Function.update_noteq hp]⟩
          cases r.isEmpty <;> simp [completions_append, hc, completions, hne p hp]
    · rw [step_besteffort_stale a s cmd rest hq hrel hpend] at hstep
      simp at hstep

/-! ## The dispatch worker: interleavings with RunCommandAsync -/

theorem enqueuedBefore_cons (all : List RCONCommand) (c c₁ c₂ : RCONCommand)
    (h : enqueuedBefore all c₁ c₂) : enqueuedBefore (c :: all) c₁ c₂ := by
  obtain ⟨i, j, hij, h1, h2⟩ := h
  exact ⟨i + 1, j + 1, by omega, by simpa using h1, by simpa using h2⟩

theorem enqueuedBefore_head (all : List RCONCommand) (c c₂ : RCONCommand)
    (h : c₂ ∈ c :: all) : enqueuedBefore (c :: all) c c₂ := by
  obtain ⟨j, hj⟩ := List.mem_iff_getElem?.1 h
  exact ⟨0, j, by omega, by simp, hj⟩

/-- For every interleaving: the queue is a suffix of the sequence of all commands
enqueued so far; every reliable command that has left the queue was sent successfully;
the attempts are made in the order of enqueueing; and only enqueued commands are
attempted. -/
theorem runWorker_order (ops : List WorkerOp) :
    ∀ (s s₁ : RCONActionManager) (ev : List DispatchEvent),
      runWorker ops s = some (s₁, ev) →
      ∃ done, s.m_RCONCommands ++ enqueuedBy ops s.nextPromise = done ++ s₁.m_RCONCommands ∧
        (∀ c ∈ done, c.m_Reliable = true → ∃ r, DispatchEvent.set_value c.m_Promise r ∈ ev) ∧
        (attempted ev).Pairwise
          (enqueuedBefore (s.m_RCONCommands ++ enqueuedBy ops s.nextPromise)) ∧
        (∀ c ∈ attempted ev, c ∈ s.m_RCONCommands ++ enqueuedBy ops s.nextPromise) := by
  induction ops with
  | nil =>
    intro s s₁ ev h
    simp only [runWorker, Option.some.injEq, Prod.mk.injEq] at h
    obtain ⟨rfl, rfl⟩ := h
    exact ⟨[], by simp [enqueuedBy], by simp, by simp [attempted], by simp [attempted]⟩
  | cons op rest ih =>
    intro s s₁ ev h
    cases op with
    | RunCommandAsync cmd reliable =>
      simp only [runWorker] at h
      have := ih _ s₁ ev h
      simpa [RCONActionManager.RunCommandAsync, enqueuedBy] using this
    | dispatch a =>
      simp only [runWorker] at h
      cases hstep : RCONThreadFunc.step a s with
      | none => simp [hstep] at h
      | some r1 =>
        rw [hstep] at h
        simp only at h
        cases hrest : runWorker rest r1.1 with
        | none => simp [hrest] at h
        | some r2 =>
          rw [hrest] at h
          simp only [Option.some.injEq, Prod.mk.injEq] at h
          obtain ⟨rfl, rfl⟩ := h
          obtain ⟨done, hd1, hd2, hd3, hd4⟩ := ih r1.1 r2.1 r2.2 hrest
          simp only [enqueuedBy]
          cases hq : s.m_RCONCommands with
          | nil =>
            rw [step_nil a s hq] at hstep
            simp only [Option.some.injEq] at hstep
            subst hstep
            rw [hq] at hd1 hd3 hd4
            exact ⟨done, hd1, by simpa using hd2, by simpa using hd3, by simpa using hd4⟩
          | cons cmd q =>
            obtain ⟨hat, _, hnp, hcase⟩ := step_frame a s r1.1 cmd q r1.2 hq hstep
            rw [hnp] at hd1 hd3 hd4
            rcases hcase with ⟨hq1, _, _, _⟩ | ⟨hq1, _, hset⟩
            · rw [hq1] at hd1 hd3 hd4
              refine ⟨done, hd1, ?_, ?_, ?_⟩
              · intro c hc hr
                obtain ⟨r, hr⟩ := hd2 c hc hr
                exact ⟨r, List.mem_append_right _ hr⟩
              · rw [attempted_append, hat]
                simp only [List.singleton_append, List.pairwise_cons]
                exact ⟨fun c hc => enqueuedBefore_head _ cmd c (hd4 c hc), hd3⟩
              · rw [attempted_append, hat]
                intro c hc
                simp only [List.singleton_append, List.mem_cons] at hc
                rcases hc with rfl | hc
                · simp
                · exact hd4 c hc
            · rw [hq1] at hd1 hd3 hd4
              refine ⟨cmd :: done, by simp [hd1], ?_, ?_, ?_⟩
              · intro c hc hr
                simp only [List.mem_cons] at hc
                rcases hc with rfl | hc
                · obtain ⟨r, hr⟩ := hset hr
                  exact ⟨r, List.mem_append_left _ hr⟩
                · obtain ⟨r, hr⟩ := hd2 c hc hr
                  exact ⟨r, List.mem_append_right _ hr⟩
              · rw [attempted_append, hat]
                simp only [List.singleton_append, List.pairwise_cons, List.cons_append]
                refine ⟨fun c hc => enqueuedBefore_head _ cmd c (List.mem_cons_of_mem _ (hd4 c hc)),
                  hd3.imp (fun h => enqueuedBefore_cons _ cmd _ _ h)⟩
              · rw [attempted_append, hat]
                intro c hc
                simp only [List.singleton_append, List.mem_cons] at hc
                rcases hc with rfl | hc
                · simp
                · exact List.mem_cons_of_mem _ (hd4 c hc)

theorem WellFormed_init (settings : Settings) :
    (RCONActionManager.init settings).WellFormed := by
  simp [RCONActionManager.WellFormed, RCONActionManager.init]

theorem WellFormed_RunCommandAsync (s : RCONActionManager) (cmd : String) (reliable : Bool)
    (h : s.WellFormed) : (s.RunCommandAsync cmd reliable).1.WellFormed := by
  obtain ⟨h1, h2⟩ := h
  constructor
  · intro c hc
    simp only [RCONActionManager.RunCommandAsync, List.mem_append, List.mem_singleton] at hc ⊢
    rcases hc with hc | rfl
    · obtain ⟨hp, hlt⟩ := h1 c hc
      have hne : c.m_Promise ≠ s.nextPromise := by omega
      exact ⟨by rw [Function.update_noteq hne]; exact hp, by omega⟩
    · simp
  · simp only [RCONActionManager.RunCommandAsync, List.map_append, List.map_cons, List.map_nil]
    rw [List.nodup_append]
    refine ⟨h2, by simp, ?_⟩
    intro p hp hp2
    simp only [List.mem_singleton] at hp2
    obtain ⟨c, hc, rfl⟩ := List.mem_map.1 hp
    have := (h1 c hc).2
    omega

theorem WellFormed_step (a : Attempt) (s s₁ : RCONActionManager) (ev : List DispatchEvent)
    (h : s.WellFormed) (hstep : RCONThreadFunc.step a s = some (s₁, ev)) : s₁.WellFormed := by
  cases hq : s.m_RCONCommands with
  | nil =>
    rw [step_nil a s hq] at hstep
    simp only [Option.some.injEq, Prod.mk.injEq] at hstep
    rw [← hstep.1]
    exact h
  | cons cmd rest =>
    obtain ⟨_, hpr, hnp, hcase⟩ := step_frame a s s₁ cmd rest ev hq hstep
    obtain ⟨h1, h2⟩ := h
    rw [hq] at h1 h2
    rcases hcase with ⟨hq1, hp1, _, _⟩ | ⟨hq1, _, _⟩
    · exact ⟨by rw [hq1, hp1, hnp]; exact h1, by rw [hq1]; exact h2⟩
    · simp only [List.map_cons, List.nodup_cons, List.mem_map, not_exists, not_and] at h2
      refine ⟨?_, by rw [hq1]; exact h2.2⟩
      intro c hc
      rw [hq1] at hc
      have hne : c.m_Promise ≠ cmd.m_Promise := fun h => h2.1 c hc h
      rw [(hpr _ hne).2, hnp]
      exact h1 c (List.mem_cons_of_mem _ hc)

/-- From a well-formed state a step always returns. -/
theorem step_total (a : Attempt) (s : RCONActionManager) (h : s.WellFormed) :
    ∃ r, RCONThreadFunc.step a s = some r := by
  cases hq : s.m_RCONCommands with
  | nil => exact ⟨_, step_nil a s hq⟩
  | cons cmd rest =>
    have hpend := (h.1 cmd (by rw [hq]; simp)).1
    cases hrel : cmd.m_Reliable <;> cases hout : a.outcome s.m_RCONClient_connected
    · exact ⟨_, step_besteffort_fail a s cmd rest hq hrel hpend hout⟩
    · exact ⟨_, step_besteffort_ok a s cmd rest _ hq hrel hpend hout⟩
    · exact ⟨_, step_reliable_fail a s cmd rest hq hrel hout⟩
    · exact ⟨_, step_reliable_ok a s cmd rest _ hq hrel hpend hout⟩

/-- From a well-formed state every interleaving runs to its end, in a well-formed
state. -/
theorem runWorker_total (ops : List WorkerOp) :
    ∀ s : RCONActionManager, s.WellFormed →
      ∃ s₁ ev, runWorker ops s = some (s₁, ev) ∧ s₁.WellFormed := by
  induction ops with
  | nil => intro s h; exact ⟨s, [], rfl, h⟩
  | cons op rest ih =>
    intro s h
    cases op with
    | RunCommandAsync cmd reliable =>
      simp only [runWorker]
      exact ih _ (WellFormed_RunCommandAsync s cmd reliable h)
    | dispatch a =>
      obtain ⟨r1, hr1⟩ := step_total a s h
      obtain ⟨s₁, ev, h1, h2⟩ := ih r1.1 (WellFormed_step a s r1.1 r1.2 h hr1)
      exact ⟨s₁, r1.2 ++ ev, by simp [runWorker, hr1, h1], h2⟩

/-- A promise that no queued command holds, and that was created before, is never
touched again: no later attempt is for a command with this promise, and it is never
completed. -/
theorem runWorker_untouched (p : Nat) (ops : List WorkerOp) :
    ∀ (s s₁ : RCONActionManager) (ev : List DispatchEvent),
      (∀ c ∈ s.m_RCONCommands, c.m_Promise ≠ p) → p < s.nextPromise →
      runWorker ops s = some (s₁, ev) →
      (∀ c ∈ attempted ev, c.m_Promise ≠ p) ∧ completions p ev = [] ∧
      s₁.promises p = s.promises p ∧ (∀ c ∈ s₁.m_RCONCommands, c.m_Promise ≠ p) := by
  induction ops with
  | nil =>
    intro s s₁ ev hq _ h
    simp only [runWorker, Option.some.injEq, Prod.mk.injEq] at h
    obtain ⟨rfl, rfl⟩ := h
    exact ⟨by simp [attempted], rfl, rfl, hq⟩
  | cons op rest ih =>
    intro s s₁ ev hq hlt h
    cases op with
    | RunCommandAsync cmd reliable =>
      simp only [runWorker] at h
      have hne : p ≠ s.nextPromise := by omega
      obtain ⟨h1, h2, h3, h4⟩ := ih (s.RunCommandAsync cmd reliable).1 s₁ ev
        (by
          intro c hc
          simp only [RCONActionManager.RunCommandAsync, List.mem_append,
            List.mem_singleton] at hc
          rcases hc with hc | rfl
          · exact hq c hc
          · exact fun h => hne h.symm)
        (by simp only [RCONActionManager.RunCommandAsync]; omega) h
      refine ⟨h1, h2, ?_, h4⟩
      rw [h3]
      simp [RCONActionManager.RunCommandAsync, Function.update_noteq hne]
    | dispatch a =>
      simp only [runWorker] at h
      cases hstep : RCONThreadFunc.step a s with
      | none => simp [hstep] at h
      | some r1 =>
        rw [hstep] at h
        simp only at h
        cases hrest : runWorker rest r1.1 with
        | none => simp [hrest] at h
        | some r2 =>
          rw [hrest] at h
          simp only [Option.some.injEq, Prod.mk.injEq] at h
          obtain ⟨rfl, rfl⟩ := h
          cases hq0 : s.m_RCONCommands with
          | nil =>
            rw [step_nil a s hq0] at hstep
            simp only [Option.some.injEq] at hstep
            subst hstep
            simpa using ih s r2.1 r2.2 hq hlt hrest
          | cons cmd q =>
            obtain ⟨hat, hpr, hnp, hcase⟩ := step_frame a s r1.1 cmd q r1.2 hq0 hstep
            have hne : p ≠ cmd.m_Promise := fun h => hq cmd (by rw [hq0]; simp) h.symm
            have hq1 : ∀ c ∈ r1.1.m_RCONCommands, c.m_Promise ≠ p := by
              intro c hc
              apply hq c
              rw [hq0]
              rcases hcase with ⟨e, _⟩ | ⟨e, _⟩
              · rw [e] at hc; exact hc
              · rw [e] at hc; exact List.mem_cons_of_mem _ hc
            obtain ⟨h1, h2, h3, h4⟩ := ih r1.1 r2.1 r2.2 hq1 (by rw [hnp]; exact hlt) hrest
            refine ⟨?_, ?_, by rw [h3, (hpr p hne).2], h4⟩
            · rw [attempted_append, hat]
              intro c hc
              simp only [List.singleton_append, List.mem_cons] at hc
              rcases hc with rfl | hc
              · exact fun h => hne h.symm
              · exact h1 c hc
            · rw [completions_append, (hpr p hne).1, h2]
              rfl

/-- Claim C6. Best-effort one-shot: with a best-effort command at the head of the command
queue (in a well-formed state), one dispatch step returns, pops the command before
`RunCommand` is called (the pop is the first call of the step, the single attempt the
second), and completes its result handle exactly once: with the response when
`RunCommand` returned one, with the exception when locking, connecting or sending
failed. Afterwards the command is not in the queue, and in whatever follows (further
`RunCommandAsync` calls and dispatch steps) no attempt is made for it and its handle is
not completed again. -/
theorem C6_best_effort_one_shot (a : Attempt) (s : RCONActionManager) (cmd : RCONCommand)
    (rest : List RCONCommand) (hwf : s.WellFormed)
    (hq : s.m_RCONCommands = cmd :: rest) (hrel : cmd.m_Reliable = false) :
    ∃ s₁ ev, RCONThreadFunc.step a s = some (s₁, ev) ∧
      s₁.m_RCONCommands = rest ∧
      (∃ tail, ev = DispatchEvent.pop :: DispatchEvent.RunCommand cmd :: tail ∧
        attempted tail = [] ∧ DispatchEvent.pop ∉ tail) ∧
      completions cmd.m_Promise ev = [completionOf (a.outcome s.m_RCONClient_connected)] ∧
      s₁.promises cmd.m_Promise = completionOf (a.outcome s.m_RCONClient_connected) ∧
      (∀ (ops : List WorkerOp) (s₂ : RCONActionManager) (ev₂ : List DispatchEvent),
        runWorker ops s₁ = some (s₂, ev₂) →
        (∀ c ∈ attempted ev₂, c.m_Promise ≠ cmd.m_Promise) ∧
        completions cmd.m_Promise ev₂ = [] ∧
        s₂.promises cmd.m_Promise = s₁.promises cmd.m_Promise ∧
        cmd ∉ s₂.m_RCONCommands) := by
  have hcmd := hwf.1 cmd (by rw [hq]; simp)
  have hnd := hwf.2
  rw [hq] at hnd
  simp only [List.map_cons, List.nodup_cons, List.mem_map, not_exists, not_and] at hnd
  obtain ⟨hc, _, hat, hpop, _, _⟩ := RunCommand_events s cmd.m_Command a
  have hlater : ∀ (s₁ : RCONActionManager), s₁.m_RCONCommands = rest →
      s₁.nextPromise = s.nextPromise →
      ∀ (ops : List WorkerOp) (s₂ : RCONActionManager) (ev₂ : List DispatchEvent),
        runWorker ops s₁ = some (s₂, ev₂) →
        (∀ c ∈ attempted ev₂, c.m_Promise ≠ cmd.m_Promise) ∧
        completions cmd.m_Promise ev₂ = [] ∧
        s₂.promises cmd.m_Promise = s₁.promises cmd.m_Promise ∧
        cmd ∉ s₂.m_RCONCommands := by
    intro s₁ hq1 hnp ops s₂ ev₂ hrun
    obtain ⟨h1, h2, h3, h4⟩ := runWorker_untouched cmd.m_Promise ops s₁ s₂ ev₂
      (by rw [hq1]; exact fun c hc => hnd.1 c hc) (by rw [hnp]; exact hcmd.2) hrun
    exact ⟨h1, h2, h3, fun hmem => h4 cmd hmem rfl⟩
  cases hout : a.outcome s.m_RCONClient_connected with
  | none =>
    refine ⟨_, _, step_besteffort_fail a s cmd rest hq hrel hcmd.1 hout, rfl,
      ⟨_, rfl, ?_, ?_⟩, ?_, by simp [completionOf], hlater _ rfl rfl⟩
    · simp [attempted_append, hat, attempted]
    · simp [hpop]
    · simp [completions_append, hc, completions, completionOf]
  | some r =>
    refine ⟨_, _, step_besteffort_ok a s cmd rest r hq hrel hcmd.1 hout, rfl,
      ⟨_, rfl, ?_, ?_⟩, ?_, by simp [completionOf], hlater _ rfl rfl⟩
    · cases r.isEmpty <;> simp [attempted_append, hat, attempted]
    · cases r.isEmpty <;> simp [hpop]
    · cases r.isEmpty <;> simp [completions_append, hc, completions, completionOf]

/-- A run of C6: the best-effort command `"say hi"` is at the head and `send_command`
throws. -/
theorem C6_best_effort_one_shot_witness :
    (exBestEffortQueued.WellFormed ∧
      exBestEffortQueued.m_RCONCommands = ⟨"say hi", false, 0⟩ :: []) ∧
    ∃ s₁ ev, RCONThreadFunc.step exSendThrows exBestEffortQueued = some (s₁, ev) ∧
      s₁.m_RCONCommands = [] ∧
      (∃ tail, ev = DispatchEvent.pop :: DispatchEvent.RunCommand ⟨"say hi", false, 0⟩ :: tail ∧
        attempted tail = [] ∧ DispatchEvent.pop ∉ tail) ∧
      completions 0 ev
        = [completionOf (exSendThrows.outcome exBestEffortQueued.m_RCONClient_connected)] ∧
      s₁.promises 0
        = completionOf (exSendThrows.outcome exBestEffortQueued.m_RCONClient_connected) ∧
      (∀ (ops : List WorkerOp) (s₂ : RCONActionManager) (ev₂ : List DispatchEvent),
        runWorker ops s₁ = some (s₂, ev₂) →
        (∀ c ∈ attempted ev₂, c.m_Promise ≠ 0) ∧
        completions 0 ev₂ = [] ∧
        s₂.promises 0 = s₁.promises 0 ∧
        (⟨"say hi", false, 0⟩ : RCONCommand) ∉ s₂.m_RCONCommands) :=
  ⟨⟨WellFormed_RunCommandAsync _ _ _ (WellFormed_init exSettings), by decide⟩,
   C6_best_effort_one_shot exSendThrows exBestEffortQueued ⟨"say hi", false, 0⟩ []
    (WellFormed_RunCommandAsync _ _ _ (WellFormed_init exSettings)) (by decide) (by decide)⟩

theorem enqueuedBy_promises (ops : List WorkerOp) :
    ∀ n, (∀ c ∈ enqueuedBy ops n, n ≤ c.m_Promise) ∧
      ((enqueuedBy ops n).map (fun c => c.m_Promise)).Nodup := by
  induction ops with
  | nil => intro n; simp [enqueuedBy]
  | cons op rest ih =>
    intro n
    cases op with
    | RunCommandAsync cmd reliable =>
      obtain ⟨h1, h2⟩ := ih (n + 1)
      simp only [enqueuedBy, List.mem_cons, List.map_cons, List.nodup_cons, List.mem_map,
        not_exists, not_and]
      refine ⟨?_, ?_, h2⟩
      · rintro c (rfl | hc)
        · simp
        · have := h1 c hc
          omega
      · intro c hc heq
        have := h1 c hc
        omega
    | dispatch a => exact ih n

/-- Claim C7. FIFO dispatch with head-of-line blocking: for every interleaving `ops` of
`RunCommandAsync` calls and dispatch steps from a well-formed state, with `all` the
sequence of all commands enqueued so far (those queued at the start, then those
enqueued by `ops`, which all have different promises): the interleaving runs to its
end; the queue is a suffix of `all`; the attempts made so far were made in the order
of enqueueing; and whenever the next dispatch step attempts a command `c`, then `c` is
the head of the queue at that moment, the queue from `c` on is the part of `all` from
`c` on, and every reliable command enqueued before `c` has had its send succeed
(`set_value` on its promise) before. -/
theorem C7_fifo_head_of_line (ops : List WorkerOp) (s : RCONActionManager)
    (hwf : s.WellFormed) :
    ∃ s₁ ev, runWorker ops s = some (s₁, ev) ∧
      (∃ done, s.m_RCONCommands ++ enqueuedBy ops s.nextPromise = done ++ s₁.m_RCONCommands) ∧
      ((s.m_RCONCommands ++ enqueuedBy ops s.nextPromise).map (fun c => c.m_Promise)).Nodup ∧
      (attempted ev).Pairwise
        (enqueuedBefore (s.m_RCONCommands ++ enqueuedBy ops s.nextPromise)) ∧
      (∀ (a : Attempt) (s₂ : RCONActionManager) (ev₂ : List DispatchEvent),
        RCONThreadFunc.step a s₁ = some (s₂, ev₂) →
        ∀ c ∈ attempted ev₂,
          ∃ done tail, s.m_RCONCommands ++ enqueuedBy ops s.nextPromise = done ++ c :: tail ∧
            s₁.m_RCONCommands = c :: tail ∧
            ∀ c' ∈ done, c'.m_Reliable = true →
              ∃ r, DispatchEvent.set_value c'.m_Promise r ∈ ev) := by
  obtain ⟨s₁, ev, hrun, _⟩ := runWorker_total ops s hwf
  obtain ⟨done, hd1, hd2, hd3, _⟩ := runWorker_order ops s s₁ ev hrun
  refine ⟨s₁, ev, hrun, ⟨done, hd1⟩, ?_, hd3, ?_⟩
  · obtain ⟨he1, he2⟩ := enqueuedBy_promises ops s.nextPromise
    rw [List.map_append, List.nodup_append]
    refine ⟨hwf.2, he2, ?_⟩
    intro p hp hp2
    obtain ⟨c, hc, rfl⟩ := List.mem_map.1 hp
    obtain ⟨c', hc', heq⟩ := List.mem_map.1 hp2
    have h1 := (hwf.1 c hc).2
    have h2 := he1 c' hc'
    omega
  · intro a s₂ ev₂ hstep c hc
    cases hq : s₁.m_RCONCommands with
    | nil =>
      rw [step_nil a s₁ hq] at hstep
      simp only [Option.some.injEq, Prod.mk.injEq] at hstep
      rw [← hstep.2] at hc
      simp [attempted] at hc
    | cons c₀ tail =>
      obtain ⟨hat, _⟩ := step_frame a s₁ s₂ c₀ tail ev₂ hq hstep
      rw [hat, List.mem_singleton] at hc
      subst hc
      exact ⟨done, tail, by rw [hd1, hq], rfl, hd2⟩

/-- A run of C7: from the freshly constructed manager, a reliable and a best-effort
command are enqueued and three dispatch steps follow. -/
theorem C7_fifo_head_of_line_witness :
    (RCONActionManager.init exSettings).WellFormed ∧
    (Option.map (fun r => (r.1.m_RCONCommands, attempted r.2))
        (runWorker exInterleaving (RCONActionManager.init exSettings))
      = some ([], [⟨"status", true, 0⟩, ⟨"status", true, 0⟩, ⟨"say hi", false, 1⟩])) ∧
    ∃ s₁ ev, runWorker exInterleaving (RCONActionManager.init exSettings) = some (s₁, ev) ∧
      (∃ done, (RCONActionManager.init exSettings).m_RCONCommands
          ++ enqueuedBy exInterleaving (RCONActionManager.init exSettings).nextPromise
            = done ++ s₁.m_RCONCommands) ∧
      (((RCONActionManager.init exSettings).m_RCONCommands
          ++ enqueuedBy exInterleaving (RCONActionManager.init exSettings).nextPromise).map
            (fun c => c.m_Promise)).Nodup ∧
      (attempted ev).Pairwise
        (enqueuedBefore ((RCONActionManager.init exSettings).m_RCONCommands
          ++ enqueuedBy exInterleaving (RCONActionManager.init exSettings).nextPromise)) ∧
      (∀ (a : Attempt) (s₂ : RCONActionManager) (ev₂ : List DispatchEvent),
        RCONThreadFunc.step a s₁ = some (s₂, ev₂) →
        ∀ c ∈ attempted ev₂,
          ∃ done tail, (RCONActionManager.init exSettings).m_RCONCommands
              ++ enqueuedBy exInterleaving (RCONActionManager.init exSettings).nextPromise
                = done ++ c :: tail ∧
            s₁.m_RCONCommands = c :: tail ∧
            ∀ c' ∈ done, c'.m_Reliable = true →
              ∃ r, DispatchEvent.set_value c'.m_Promise r ∈ ev) :=
  ⟨WellFormed_init exSettings, by decide,
   C7_fifo_head_of_line exInterleaving (RCONActionManager.init exSettings)
    (WellFormed_init exSettings)⟩

/-- Claim C10. Response forwarding: a dispatch step for a command with a pending result
handle calls `AddConsoleOutputChunk(r)` exactly once when `RunCommand` returned a
response `r` that is not empty, and not at all when the attempt failed or the response
is empty; the world state grows by exactly these chunks. Over the whole life of a
reliable command (any number of failing attempts, then a response `r`) the world state
receives `r` once when it is not empty and nothing otherwise. Scenario: the reliable
command `"status"` is enqueued, the first send throws, the second returns
`"name: Alice\n"`; after the two dispatch steps the handle holds `"name: Alice\n"`, the
command queue is empty and the world state has received exactly the one chunk
`"name: Alice\n"`. -/
theorem C10_response_forwarding (a : Attempt) (s : RCONActionManager) (cmd : RCONCommand)
    (rest : List RCONCommand) (hq : s.m_RCONCommands = cmd :: rest)
    (hpend : s.promises cmd.m_Promise = PromiseState.pending) :
    (∃ s₁ ev, RCONThreadFunc.step a s = some (s₁, ev) ∧
      chunks ev = forwarded (a.outcome s.m_RCONClient_connected) ∧
      s₁.m_WorldState = s.m_WorldState ++ forwarded (a.outcome s.m_RCONClient_connected)) ∧
    (∀ (fails : List Attempt) (ok : Attempt) (r : String),
      cmd.m_Reliable = true →
      allFail s.m_RCONClient_connected fails = true →
      ok.outcome (if fails.isEmpty then s.m_RCONClient_connected else false) = some r →
      ∃ s₁ ev, RCONThreadFunc.steps (fails ++ [ok]) s = some (s₁, ev) ∧
        chunks ev = forwarded (some r) ∧
        s₁.m_WorldState = s.m_WorldState ++ forwarded (some r)) ∧
    (exReliableQueued.m_RCONCommands = [⟨"status", true, 0⟩] ∧
      Option.map (fun r => (r.1.promises 0, r.1.m_RCONCommands, r.1.m_WorldState, chunks r.2))
          (RCONThreadFunc.steps [exSendThrows, exSendAlice] exReliableQueued)
        = some (PromiseState.value "name: Alice\n", [], ["name: Alice\n"],
            ["name: Alice\n"])) := by
  refine ⟨?_, ?_, by decide⟩
  · obtain ⟨_, hch, _, _, _, _⟩ := RunCommand_events s cmd.m_Command a
    cases hrel : cmd.m_Reliable <;> cases hout : a.outcome s.m_RCONClient_connected
    · exact ⟨_, _, step_besteffort_fail a s cmd rest hq hrel hpend hout,
        by simp [chunks_append, hch, chunks, forwarded], by simp [forwarded]⟩
    · rename_i r
      refine ⟨_, _, step_besteffort_ok a s cmd rest r hq hrel hpend hout, ?_, ?_⟩
      · cases he : r.isEmpty <;> simp [chunks_append, hch, chunks, forwarded, he]
      · cases he : r.isEmpty <;> simp [forwarded, he]
    · exact ⟨_, _, step_reliable_fail a s cmd rest hq hrel hout,
        by simp [chunks_append, hch, chunks, forwarded], by simp [forwarded]⟩
    · rename_i r
      refine ⟨_, _, step_reliable_ok a s cmd rest r hq hrel hpend hout, ?_, ?_⟩
      · cases he : r.isEmpty <;> simp [chunks_append, hch, chunks, forwarded, he]
      · cases he : r.isEmpty <;> simp [forwarded, he]
  · intro fails ok r hrel hfail hok
    obtain ⟨s₁, ev₁, h1, h2, h3, h4, h5, _, h7, _, _⟩ :=
      steps_allFail cmd rest fails s hq hrel hfail
    rw [← h5] at hok
    have hpend1 : s₁.promises cmd.m_Promise = PromiseState.pending := by rw [h3, hpend]
    have hstep := step_reliable_ok ok s₁ cmd rest r h2 hrel hpend1 hok
    obtain ⟨_, hch, _, _, _, _⟩ := RunCommand_events s₁ cmd.m_Command ok
    refine ⟨_, _, steps_append_some fails [ok] s s₁ _ ev₁ _ h1 (steps_singleton ok s₁ _ _ hstep),
      ?_, ?_⟩
    · simp only [chunks_append, h7, hch, List.nil_append]
      cases he : r.isEmpty <;> simp [chunks, forwarded, he]
    · simp only [h4]
      cases he : r.isEmpty <;> simp [forwarded, he]

/-- A run of C10: the reliable command `"status"` is at the head and the send returns
`"name: Alice\n"`, which is forwarded once. -/
theorem C10_response_forwarding_witness :
    (exReliableQueued.m_RCONCommands = ⟨"status", true, 0⟩ :: [] ∧
      exReliableQueued.promises 0 = PromiseState.pending) ∧
    (∃ s₁ ev, RCONThreadFunc.step exSendAlice exReliableQueued = some (s₁, ev) ∧
      chunks ev = forwarded (exSendAlice.outcome exReliableQueued.m_RCONClient_connected) ∧
      s₁.m_WorldState = exReliableQueued.m_WorldState
        ++ forwarded (exSendAlice.outcome exReliableQueued.m_RCONClient_connected)) ∧
    forwarded (exSendAlice.outcome exReliableQueued.m_RCONClient_connected)
      = ["name: Alice\n"] :=
  ⟨⟨by decide, by decide⟩,
   (C10_response_forwarding exSendAlice exReliableQueued ⟨"status", true, 0⟩ []
      (by decide) (by decide)).1,
   by decide⟩

/-! ## The tick period, the writer, one pass -/

theorem periodicExecuted_append (l₁ l₂ : List UpdateEvent) :
    periodicExecuted (l₁ ++ l₂) = periodicExecuted l₁ ++ periodicExecuted l₂ := by
  induction l₁ with
  | nil => rfl
  | cons e rest ih => cases e <;> simp [periodicExecuted, ih]

theorem periodicExecuted_map_periodicExecute (l : List Nat) :
    periodicExecuted (l.map UpdateEvent.periodicExecute) = l := by
  induction l with
  | nil => rfl
  | cons c rest ih => simp [periodicExecuted, ih]

theorem periodicExecuted_map_piggybackExecute (l : List Nat) :
    periodicExecuted (l.map UpdateEvent.piggybackExecute) = [] := by
  induction l with
  | nil => rfl
  | cons c rest ih => simp [periodicExecuted, ih]

theorem periodicExecuted_map_Write (cmds : List (String × String)) :
    periodicExecuted (cmds.map (fun c => UpdateEvent.Write c.1 c.2)) = [] := by
  induction cmds with
  | nil => rfl
  | cons c rest ih => simp [periodicExecuted, ih]

theorem ProcessActions.loop_periodicExecuted (curTime : time_point_t) (l : List IAction)
    (f : UpdateFrame) :
    periodicExecuted (ProcessActions.loop curTime l f).2.2 = [] := by
  induction l generalizing f with
  | nil => rfl
  | cons a rest ih =>
    simp only [ProcessActions.loop, periodicExecuted_append, ih, List.append_nil]
    unfold ProcessAction
    split <;> simp [periodicExecuted, periodicExecuted_map_Write]

theorem Update_periodicExecuted (UPDATE_INTERVAL : duration_t) (curTime : time_point_t)
    (self : RCONActionManager) (hproc : ¬ curTime < self.m_LastUpdateTime + UPDATE_INTERVAL) :
    periodicExecuted (self.Update UPDATE_INTERVAL curTime).2
      = List.range self.m_PeriodicActionGenerators.length := by
  unfold RCONActionManager.Update
  rw [if_neg hproc]
  simp only [periodicExecuted_append, Update.periodic_events,
    periodicExecuted_map_periodicExecute, Update.primaryPass_events,
    ProcessActions.loop_periodicExecuted, List.append_nil, List.range_eq_range']
  unfold Update.piggybackPass
  split
  · simp [ProcessActions, periodicExecuted_append, executeGenerators_events,
      periodicExecuted_map_piggybackExecute, ProcessActions.loop_periodicExecuted]
  · simp [periodicExecuted]

/-- Claim C13. Tick period gating: when `Update` is called at a time `curTime` before
`m_LastUpdateTime + UPDATE_INTERVAL` it returns at once: nothing is called (no periodic
or piggyback generator is executed, no action is fired) and the manager is unchanged, in
particular the action queue, the trigger times, the command queue and
`m_LastUpdateTime`. Otherwise the tick is processed (every periodic generator is
executed, in registration order) and `m_LastUpdateTime` is `curTime` afterwards. -/
theorem C13_tick_period_gating (UPDATE_INTERVAL : duration_t) (curTime : time_point_t)
    (self : RCONActionManager) :
    if curTime < self.m_LastUpdateTime + UPDATE_INTERVAL then
      self.Update UPDATE_INTERVAL curTime = (self, []) ∧
      periodicExecuted (self.Update UPDATE_INTERVAL curTime).2 = [] ∧
      piggybackExecuted (self.Update UPDATE_INTERVAL curTime).2 = [] ∧
      firedActions (self.Update UPDATE_INTERVAL curTime).2 = [] ∧
      (self.Update UPDATE_INTERVAL curTime).1.m_Actions = self.m_Actions ∧
      (self.Update UPDATE_INTERVAL curTime).1.m_LastTriggerTime = self.m_LastTriggerTime ∧
      (self.Update UPDATE_INTERVAL curTime).1.m_RCONCommands = self.m_RCONCommands ∧
      (self.Update UPDATE_INTERVAL curTime).1.m_LastUpdateTime = self.m_LastUpdateTime
    else
      (self.Update UPDATE_INTERVAL curTime).1.m_LastUpdateTime = curTime ∧
      periodicExecuted (self.Update UPDATE_INTERVAL curTime).2
        = List.range self.m_PeriodicActionGenerators.length := by
  split
  · rename_i h
    rw [Update_not_processed _ _ _ h]
    simp [periodicExecuted, piggybackExecuted, firedActions]
  · rename_i h
    exact ⟨by rw [Update_m_LastUpdateTime, if_neg h], Update_periodicExecuted _ _ _ h⟩

theorem Writer.WriteAll_m_RCONCommands (cmds : List (String × String)) (f : UpdateFrame) :
    (Writer.WriteAll cmds f).self.m_RCONCommands.map (fun c => c.m_Command)
      = f.self.m_RCONCommands.map (fun c => c.m_Command)
        ++ cmds.map (fun c => c.1 ++ " " ++ c.2) := by
  induction cmds generalizing f with
  | nil => simp [Writer.WriteAll]
  | cons c rest ih =>
    simp [Writer.WriteAll, ih, Writer.Write, RCONActionManager.RunCommandAsync]

/-- Claim C16. Command sink: a call `Write(cmd, args)` on the writer handed to
`WriteCommands` appends exactly one command to the tail of the command queue, with a
fresh pending promise and the text `cmd`, one space, `args` (for empty `args` the text
ends in the space, as in `"status "`); the commands queued before are unchanged and in
order; and `m_AnyCmdsRun` is set. The `Write` calls of one `WriteCommands` append their
texts in the order of the calls. -/
theorem C16_command_sink (cmd args : String) (cmds : List (String × String))
    (f : UpdateFrame) :
    (Writer.Write cmd args f).self.m_RCONCommands
      = f.self.m_RCONCommands
        ++ [⟨cmd ++ " " ++ args, RunCommandAsync.defaultReliable, f.self.nextPromise⟩] ∧
    (Writer.Write cmd args f).self.promises f.self.nextPromise = PromiseState.pending ∧
    (Writer.Write cmd args f).self.nextPromise = f.self.nextPromise + 1 ∧
    (Writer.Write cmd args f).m_AnyCmdsRun = true ∧
    ((Writer.Write "status" "" f).self.m_RCONCommands.map (fun c => c.m_Command)
      = f.self.m_RCONCommands.map (fun c => c.m_Command) ++ ["status "]) ∧
    (Writer.WriteAll cmds f).self.m_RCONCommands.map (fun c => c.m_Command)
      = f.self.m_RCONCommands.map (fun c => c.m_Command)
        ++ cmds.map (fun c => c.1 ++ " " ++ c.2) := by
  refine ⟨rfl, ?_, rfl, rfl, ?_, Writer.WriteAll_m_RCONCommands cmds f⟩
  · simp [Writer.Write, RCONActionManager.RunCommandAsync]
  · simp only [Writer.Write, RCONActionManager.RunCommandAsync, List.map_append, List.map_cons,
      List.map_nil]
    rfl

theorem selectBy_partition_length (l : List IAction) :
    ∀ flags : List Bool, flags.length = l.length →
      (selectBy true l flags).length + (selectBy false l flags).length = l.length := by
  induction l with
  | nil => intro flags _; cases flags <;> simp [selectBy]
  | cons a rest ih =>
    intro flags hlen
    cases flags with
    | nil => simp at hlen
    | cons c flags =>
      have := ih flags (by simpa using hlen)
      cases c <;> simp [selectBy] <;> omega

theorem ProcessActions.gates_length (curTime : time_point_t) (l : List IAction)
    (f : UpdateFrame) : (ProcessActions.gates curTime l f).length = l.length := by
  induction l generalizing f with
  | nil => rfl
  | cons a rest ih => simp [ProcessActions.gates, ih]

/-- One pass splits the queue by the decisions of the gate: it keeps the gated actions
and fires the others, both in their original order. -/
theorem ProcessActions.loop_selectBy (curTime : time_point_t) (l : List IAction) :
    ∀ f : UpdateFrame,
      (ProcessActions.loop curTime l f).1
        = selectBy true l (ProcessActions.gates curTime l f) ∧
      firedActions (ProcessActions.loop curTime l f).2.2
        = selectBy false l (ProcessActions.gates curTime l f) := by
  induction l with
  | nil => intro f; simp [ProcessActions.loop, ProcessActions.gates, selectBy, firedActions]
  | cons a rest ih =>
    intro f
    obtain ⟨ih1, ih2⟩ := ih (ProcessAction curTime a f).2.1
    simp only [ProcessActions.loop, ProcessActions.gates, selectBy, firedActions_append,
      ProcessAction_firedActions, ProcessAction_fst, ih1, ih2]
    cases h : ProcessAction.gated curTime a f <;> simp

theorem ProcessActions.loop_sublist (curTime : time_point_t) (l : List IAction) :
    ∀ f : UpdateFrame, (ProcessActions.loop curTime l f).1.Sublist l := by
  induction l with
  | nil => intro f; simp [ProcessActions.loop]
  | cons a rest ih =>
    intro f
    simp only [ProcessActions.loop]
    split
    · exact (ih _).cons a
    · exact (ih _).cons₂ a

/-- Claim C14. One-shot removal, order preserved: in a pass of `ProcessActions` over
the action queue `l`, with `gates` the decisions of the gate met by the loop (one per
queued action), the actions on which `WriteCommands` is invoked are exactly the actions
that are not gated, once each and in their order; the queue after the pass is exactly
the gated actions in their original relative order (a sublist of `l`); every queued
action is either fired and removed or kept, whether or not it writes a command; and a
gated action leaves the captured state as it is, with nothing called. -/
theorem C14_one_shot_removal (curTime : time_point_t) (f : UpdateFrame) (a : IAction)
    (l : List IAction) :
    (ProcessActions.gates curTime l f).length = l.length ∧
    firedActions (ProcessActions.loop curTime l f).2.2
      = selectBy false l (ProcessActions.gates curTime l f) ∧
    (ProcessActions.loop curTime l f).1 = selectBy true l (ProcessActions.gates curTime l f) ∧
    (ProcessActions.loop curTime l f).1.Sublist l ∧
    (ProcessActions.loop curTime l f).1.length
      + (firedActions (ProcessActions.loop curTime l f).2.2).length = l.length ∧
    (ProcessActions curTime f).1.self.m_Actions
      = selectBy true f.self.m_Actions (ProcessActions.gates curTime f.self.m_Actions f) ∧
    (if ProcessAction.gated curTime a f = true then
      ProcessAction curTime a f = (false, f, [])
    else
      (ProcessAction curTime a f).1 = true ∧
      (ProcessAction curTime a f).2.2 = UpdateEvent.WriteCommands a ::
        a.WriteCommands.map (fun c => UpdateEvent.Write c.1 c.2)) := by
  obtain ⟨h1, h2⟩ := ProcessActions.loop_selectBy curTime l f
  refine ⟨ProcessActions.gates_length curTime l f, h2, h1, ProcessActions.loop_sublist curTime l f,
    ?_, (ProcessActions.loop_selectBy curTime f.self.m_Actions f).1, ?_⟩
  · rw [h1, h2]
    exact selectBy_partition_length l _ (ProcessActions.gates_length curTime l f)
  · split
    · rename_i h
      exact ProcessAction_gated curTime a f h
    · rename_i h
      have h' : ProcessAction.gated curTime a f = false := by simpa using h
      exact ⟨(ProcessAction_fired curTime a f h').1, (ProcessAction_fired curTime a f h').2.1⟩

/-- Claim C19. Positive-cooldown actions fire at most once per type per tick: in every
`Update`, counting both passes, when an action `a` with `minInterval > 0` fires (the
actions fired in the tick are `pre ++ a :: post`, in order), no action of its type, of
any `minInterval`, has fired earlier in the tick, and no action of its type with
`minInterval > 0` fires later in it. Hence for a type all of whose fired actions have
`minInterval > 0`, at most one action of that type fires in the tick. -/
theorem C19_positive_cooldown_once (UPDATE_INTERVAL : duration_t) (curTime : time_point_t)
    (self : RCONActionManager) (pre post : List IAction) (a : IAction)
    (hsplit : firedActions (self.Update UPDATE_INTERVAL curTime).2 = pre ++ a :: post)
    (hpos : 0 < a.GetMinInterval) :
    (∀ b ∈ pre, b.GetType ≠ a.GetType) ∧
    (∀ b ∈ post, 0 < b.GetMinInterval → b.GetType ≠ a.GetType) ∧
    ((∀ b ∈ firedActions (self.Update UPDATE_INTERVAL curTime).2,
        b.GetType = a.GetType → 0 < b.GetMinInterval) →
      countType a.GetType (firedActions (self.Update UPDATE_INTERVAL curTime).2) = 1) := by
  have hpw := (Update_fired UPDATE_INTERVAL curTime self).1
  rw [hsplit, List.pairwise_append, List.pairwise_cons] at hpw
  obtain ⟨_, ⟨hpost, _⟩, hpre⟩ := hpw
  have h1 : ∀ b ∈ pre, b.GetType ≠ a.GetType :=
    fun b hb => hpre b hb a (List.mem_cons_self _ _) hpos
  have h2 : ∀ b ∈ post, 0 < b.GetMinInterval → b.GetType ≠ a.GetType :=
    fun b hb hbpos h => hpost b hb hbpos h.symm
  refine ⟨h1, h2, ?_⟩
  intro hall
  rw [hsplit] at hall ⊢
  unfold countType
  rw [List.countP_append, List.countP_cons]
  have hz1 : pre.countP (fun b => decide (b.GetType = a.GetType)) = 0 := by
    rw [List.countP_eq_zero]
    intro b hb
    simpa using h1 b hb
  have hz2 : post.countP (fun b => decide (b.GetType = a.GetType)) = 0 := by
    rw [List.countP_eq_zero]
    intro b hb hdec
    have hT : b.GetType = a.GetType := by simpa using hdec
    exact h2 b hb (hall b (by simp [hb]) hT) hT
  simp [hz1, hz2]

/-- Runs of C19. First run: a chat message, two Poll actions of type 7 (cooldown 5)
and another chat message are queued; the tick at clock time 100 fires the first chat
message, then the first Poll action, then the second chat message, and holds the second
Poll action back, because its type has fired in the tick: the fired actions are
`[exChatA] ++ exPollA :: [exChatB]`. Second run: an action of type 7 without cooldown is
queued in front of a Poll action; it fires, and the Poll action, whose cooldown has
elapsed, is held back because an action of its type fired earlier in the tick. -/
theorem C19_positive_cooldown_once_witness :
    (firedActions (exPollQueued.Update 1 100).2 = [exChatA] ++ exPollA :: [exChatB] ∧
      0 < exPollA.GetMinInterval) ∧
    (exPollQueued.m_Actions = [exChatA, exPollA, exPollB, exChatB] ∧
      (exPollQueued.Update 1 100).1.m_Actions = [exPollB] ∧
      exPollB.GetType = exPollA.GetType ∧
      exPollB.GetMinInterval ≤ 100 - exPollQueued.m_LastTriggerTime exPollB.GetType) ∧
    (exPollZeroQueued.m_Actions = [exPollZero, exPollA] ∧
      exPollZero.GetType = exPollA.GetType ∧
      firedActions (exPollZeroQueued.Update 1 100).2 = [exPollZero] ∧
      (exPollZeroQueued.Update 1 100).1.m_Actions = [exPollA] ∧
      exPollA.GetMinInterval ≤ 100 - exPollZeroQueued.m_LastTriggerTime exPollA.GetType) ∧
    (∀ b ∈ [exChatA], b.GetType ≠ exPollA.GetType) ∧
    (∀ b ∈ [exChatB], 0 < b.GetMinInterval → b.GetType ≠ exPollA.GetType) ∧
    countType exPollA.GetType (firedActions (exPollQueued.Update 1 100).2) = 1 :=
  ⟨⟨by decide, by decide⟩, by decide, by decide,
   (C19_positive_cooldown_once 1 100 exPollQueued [exChatA] [exChatB] exPollA
      (by decide) (by decide)).1,
   (C19_positive_cooldown_once 1 100 exPollQueued [exChatA] [exChatB] exPollA
      (by decide) (by decide)).2.1,
   (C19_positive_cooldown_once 1 100 exPollQueued [exChatA] [exChatB] exPollA
      (by decide) (by decide)).2.2 (by decide)⟩

/-! ## Trigger times never go backwards -/

/-- One operation, from a state in which the trigger time of `T` is not after the time
of the last tick: the trigger time of `T` does not decrease, it stays not after the time
of the last tick, and it changes only in a processed `Update`, to the time of that
tick. The update interval is not negative. -/
theorem Op.apply_m_LastTriggerTime (UPDATE_INTERVAL : duration_t) (hUI : 0 ≤ UPDATE_INTERVAL)
    (T : ActionType) (s : RCONActionManager) (op : Op)
    (hinv : s.m_LastTriggerTime T ≤ s.m_LastUpdateTime) :
    s.m_LastTriggerTime T ≤ (Op.apply UPDATE_INTERVAL s op).1.m_LastTriggerTime T ∧
    (Op.apply UPDATE_INTERVAL s op).1.m_LastTriggerTime T
      ≤ (Op.apply UPDATE_INTERVAL s op).1.m_LastUpdateTime ∧
    ((Op.apply UPDATE_INTERVAL s op).1.m_LastTriggerTime T = s.m_LastTriggerTime T ∨
      ∃ curTime, op = Op.Update curTime ∧ s.m_LastUpdateTime + UPDATE_INTERVAL ≤ curTime ∧
        (Op.apply UPDATE_INTERVAL s op).1.m_LastTriggerTime T = curTime) := by
  cases op with
  | QueueAction action => exact ⟨le_refl _, hinv, Or.inl rfl⟩
  | AddPeriodicActionGenerator g => exact ⟨le_refl _, hinv, Or.inl rfl⟩
  | AddPiggybackActionGenerator g => exact ⟨le_refl _, hinv, Or.inl rfl⟩
  | Update curTime =>
    simp only [Op.apply, Update_m_LastTriggerTime, Update_m_LastUpdateTime]
    by_cases hproc : curTime < s.m_LastUpdateTime + UPDATE_INTERVAL
    · rw [Update_not_processed _ _ _ hproc]
      simp only [firedActions, List.any_nil, Bool.false_eq_true, if_false, if_pos hproc]
      exact ⟨le_refl _, hinv, Or.inl trivial⟩
    · rw [if_neg hproc]
      have hle : s.m_LastUpdateTime + UPDATE_INTERVAL ≤ curTime := not_lt.1 hproc
      split
      · exact ⟨by linarith, le_refl _, Or.inr ⟨curTime, rfl, hle, rfl⟩⟩
      · exact ⟨le_refl _, by linarith, Or.inl rfl⟩

theorem runOps_invariant (UPDATE_INTERVAL : duration_t) (hUI : 0 ≤ UPDATE_INTERVAL)
    (T : ActionType) (ops : List Op) :
    ∀ s : RCONActionManager, s.m_LastTriggerTime T ≤ s.m_LastUpdateTime →
      s.m_LastTriggerTime T ≤ (runOps UPDATE_INTERVAL ops s).1.m_LastTriggerTime T ∧
      (runOps UPDATE_INTERVAL ops s).1.m_LastTriggerTime T
        ≤ (runOps UPDATE_INTERVAL ops s).1.m_LastUpdateTime := by
  induction ops with
  | nil => intro s h; exact ⟨le_refl _, h⟩
  | cons op rest ih =>
    intro s h
    obtain ⟨h1, h2, _⟩ := Op.apply_m_LastTriggerTime UPDATE_INTERVAL hUI T s op h
    obtain ⟨h3, h4⟩ := ih (Op.apply UPDATE_INTERVAL s op).1 h2
    exact ⟨le_trans h1 h3, h4⟩

/-- Claim C12. Last-trigger times never go backwards: from a manager in which the
trigger time of `T` is not after the time of the last tick (as right after
construction), after any sequence `ops` of operations and for any next operation `op`,
whatever the tick times are, the value of `m_LastTriggerTime[T]` after `op` is greater
than or equal to its value before `op`: `op` leaves it unchanged, or `op` is a
processed `Update` and sets it to that tick's time, which is not earlier than
`m_LastUpdateTime + UPDATE_INTERVAL`. The update interval is not negative. -/
theorem C12_trigger_times_monotone (UPDATE_INTERVAL : duration_t)
    (hUI : 0 ≤ UPDATE_INTERVAL) (T : ActionType) (s₀ : RCONActionManager)
    (h₀ : s₀.m_LastTriggerTime T ≤ s₀.m_LastUpdateTime) (ops : List Op) (op : Op) :
    (runOps UPDATE_INTERVAL ops s₀).1.m_LastTriggerTime T
      ≤ (Op.apply UPDATE_INTERVAL (runOps UPDATE_INTERVAL ops s₀).1 op).1.m_LastTriggerTime T ∧
    s₀.m_LastTriggerTime T ≤ (runOps UPDATE_INTERVAL ops s₀).1.m_LastTriggerTime T ∧
    ((Op.apply UPDATE_INTERVAL (runOps UPDATE_INTERVAL ops s₀).1 op).1.m_LastTriggerTime T
        = (runOps UPDATE_INTERVAL ops s₀).1.m_LastTriggerTime T ∨
      ∃ curTime, op = Op.Update curTime ∧
        (runOps UPDATE_INTERVAL ops s₀).1.m_LastUpdateTime + UPDATE_INTERVAL ≤ curTime ∧
        (Op.apply UPDATE_INTERVAL (runOps UPDATE_INTERVAL ops s₀).1 op).1.m_LastTriggerTime T
          = curTime) := by
  obtain ⟨h1, h2⟩ := runOps_invariant UPDATE_INTERVAL hUI T ops s₀ h₀
  obtain ⟨h3, _, h5⟩ := Op.apply_m_LastTriggerTime UPDATE_INTERVAL hUI T
    (runOps UPDATE_INTERVAL ops s₀).1 op h2
  exact ⟨h3, h1, h5⟩

/-- A run of C12: from the freshly constructed manager, a chat message (no cooldown) is
submitted and fired by the tick at 100; the tick at 101 then fires the next one and
moves the trigger time of type 2 from 100 to 101. -/
theorem C12_trigger_times_monotone_witness :
    ((0 : Int) ≤ 1 ∧
      (RCONActionManager.init exSettings).m_LastTriggerTime 2
        ≤ (RCONActionManager.init exSettings).m_LastUpdateTime) ∧
    ((runOps 1 [Op.QueueAction exChatA, Op.Update 100, Op.QueueAction exChatB]
        (RCONActionManager.init exSettings)).1.m_LastTriggerTime 2 = 100 ∧
      (Op.apply 1 (runOps 1 [Op.QueueAction exChatA, Op.Update 100, Op.QueueAction exChatB]
        (RCONActionManager.init exSettings)).1 (Op.Update 101)).1.m_LastTriggerTime 2 = 101) ∧
    (runOps 1 [Op.QueueAction exChatA, Op.Update 100, Op.QueueAction exChatB]
        (RCONActionManager.init exSettings)).1.m_LastTriggerTime 2
      ≤ (Op.apply 1 (runOps 1 [Op.QueueAction exChatA, Op.Update 100, Op.QueueAction exChatB]
        (RCONActionManager.init exSettings)).1 (Op.Update 101)).1.m_LastTriggerTime 2 :=
  ⟨⟨by decide, by decide⟩, ⟨by decide, by decide⟩,
   (C12_trigger_times_monotone 1 (by decide) 2 (RCONActionManager.init exSettings) (by decide)
      [Op.QueueAction exChatA, Op.Update 100, Op.QueueAction exChatB] (Op.Update 101)).1⟩

/-! ## The cap of the action queue -/

theorem QueueAction_count_le (T : ActionType) (k : Nat) (hk : 1 ≤ k) (q : List IAction)
    (a : IAction) (ha : declaresCap T k a) (hq : countType T q ≤ k) :
    countType T (QueueAction q a).2 ≤ k := by
  rw [countType_QueueAction]
  split
  · rename_i h
    have hacc := (QueueAction_fst_iff q a).1 h.2
    rw [h.1, ha h.1] at hacc
    omega
  · exact hq

theorem submitAll_count_le (T : ActionType) (k : Nat) (hk : 1 ≤ k) (subs : List IAction) :
    ∀ q : List IAction, (∀ a ∈ subs, declaresCap T k a) → countType T q ≤ k →
      countType T (submitAll q subs).2 ≤ k := by
  induction subs with
  | nil => intro q _ hq; exact hq
  | cons a rest ih =>
    intro q hsubs hq
    simp only [submitAll]
    exact ih _ (fun b hb => hsubs b (List.mem_cons_of_mem _ hb))
      (QueueAction_count_le T k hk q a (hsubs a (List.mem_cons_self _ _)) hq)

theorem executeGenerators_inv (T : ActionType) (k : Nat) (hk : 1 ≤ k) (mk : Nat → UpdateEvent)
    (gens : List IActionGenerator) :
    ∀ (index : Nat) (q : List IAction),
      (∀ g ∈ gens, g.submitsOnly (declaresCap T k)) → countType T q ≤ k →
      countType T (executeGenerators mk gens index q).2.1 ≤ k ∧
      ∀ g ∈ (executeGenerators mk gens index q).1, g.submitsOnly (declaresCap T k) := by
  induction gens with
  | nil => intro index q _ hq; exact ⟨hq, by simp [executeGenerators]⟩
  | cons g rest ih =>
    intro index q hgens hq
    have hg := hgens g (List.mem_cons_self _ _)
    obtain ⟨h1, h2⟩ := ih (index + 1) (submitAll q (g.Execute g.state q).2).2
      (fun g' hg' => hgens g' (List.mem_cons_of_mem _ hg'))
      (submitAll_count_le T k hk _ q (hg g.state q) hq)
    refine ⟨h1, ?_⟩
    intro g' hg'
    simp only [executeGenerators, List.mem_cons] at hg'
    rcases hg' with rfl | hg'
    · exact hg
    · exact h2 g' hg'

theorem Writer.WriteAll_m_PeriodicActionGenerators (cmds : List (String × String))
    (f : UpdateFrame) :
    (Writer.WriteAll cmds f).self.m_PeriodicActionGenerators
      = f.self.m_PeriodicActionGenerators := by
  induction cmds generalizing f with
  | nil => rfl
  | cons c rest ih => simp [Writer.WriteAll, ih, Writer.Write, RCONActionManager.RunCommandAsync]

theorem ProcessActions.loop_m_PeriodicActionGenerators (curTime : time_point_t)
    (l : List IAction) (f : UpdateFrame) :
    (ProcessActions.loop curTime l f).2.1.self.m_PeriodicActionGenerators
      = f.self.m_PeriodicActionGenerators := by
  induction l generalizing f with
  | nil => rfl
  | cons a rest ih =>
    simp only [ProcessActions.loop, ih]
    unfold ProcessAction
    split <;> simp [Writer.WriteAll_m_PeriodicActionGenerators]

/-- A pass keeps the cap and the generators: the queue after it is a sublist of the
queue before it. -/
theorem ProcessActions_inv (T : ActionType) (k : Nat) (curTime : time_point_t)
    (f : UpdateFrame) (hq : countType T f.self.m_Actions ≤ k)
    (hg : f.self.generatorsSubmitOnly (declaresCap T k)) :
    countType T (ProcessActions curTime f).1.self.m_Actions ≤ k ∧
    (ProcessActions curTime f).1.self.generatorsSubmitOnly (declaresCap T k) := by
  constructor
  · have hsub := ProcessActions.loop_sublist curTime f.self.m_Actions f
    exact le_trans (hsub.countP_le _) hq
  · simp only [RCONActionManager.generatorsSubmitOnly, ProcessActions,
      ProcessActions.loop_m_PeriodicActionGenerators,
      ProcessActions.loop_m_PiggybackActionGenerators]
    exact hg

theorem Update.periodic_inv (T : ActionType) (k : Nat) (hk : 1 ≤ k) (s : RCONActionManager)
    (hq : countType T s.m_Actions ≤ k) (hg : s.generatorsSubmitOnly (declaresCap T k)) :
    countType T (Update.periodic s).1.m_Actions ≤ k ∧
    (Update.periodic s).1.generatorsSubmitOnly (declaresCap T k) := by
  obtain ⟨h1, h2⟩ := executeGenerators_inv T k hk UpdateEvent.periodicExecute
    s.m_PeriodicActionGenerators 0 s.m_Actions hg.1 hq
  exact ⟨h1, h2, hg.2⟩

theorem Update.primaryPass_inv (T : ActionType) (k : Nat) (hk : 1 ≤ k)
    (curTime : time_point_t) (s : RCONActionManager)
    (hq : countType T s.m_Actions ≤ k) (hg : s.generatorsSubmitOnly (declaresCap T k)) :
    countType T (Update.primaryPass curTime s).1.self.m_Actions ≤ k ∧
    (Update.primaryPass curTime s).1.self.generatorsSubmitOnly (declaresCap T k) := by
  obtain ⟨h1, h2⟩ := Update.periodic_inv T k hk s hq hg
  unfold Update.primaryPass
  simp only
  split
  · exact ⟨h1, h2⟩
  · exact ProcessActions_inv T k curTime _ h1 h2

theorem Update.piggybackPass_inv (T : ActionType) (k : Nat) (hk : 1 ≤ k)
    (curTime : time_point_t) (f : UpdateFrame)
    (hq : countType T f.self.m_Actions ≤ k)
    (hg : f.self.generatorsSubmitOnly (declaresCap T k)) :
    countType T (Update.piggybackPass curTime f).1.self.m_Actions ≤ k ∧
    (Update.piggybackPass curTime f).1.self.generatorsSubmitOnly (declaresCap T k) := by
  unfold Update.piggybackPass
  split
  · obtain ⟨h1, h2⟩ := executeGenerators_inv T k hk UpdateEvent.piggybackExecute
      f.self.m_PiggybackActionGenerators 0 f.self.m_Actions hg.2 hq
    exact ProcessActions_inv T k curTime _ h1 ⟨hg.1, h2⟩
  · exact ⟨hq, hg⟩

theorem Update_inv (T : ActionType) (k : Nat) (hk : 1 ≤ k) (UPDATE_INTERVAL : duration_t)
    (curTime : time_point_t) (s : RCONActionManager)
    (hq : countType T s.m_Actions ≤ k) (hg : s.generatorsSubmitOnly (declaresCap T k)) :
    countType T (s.Update UPDATE_INTERVAL curTime).1.m_Actions ≤ k ∧
    (s.Update UPDATE_INTERVAL curTime).1.generatorsSubmitOnly (declaresCap T k) := by
  unfold RCONActionManager.Update
  split
  · exact ⟨hq, hg⟩
  · obtain ⟨h1, h2⟩ := Update.primaryPass_inv T k hk curTime s hq hg
    exact Update.piggybackPass_inv T k hk curTime _ h1 h2

theorem runOps_inv (T : ActionType) (k : Nat) (hk : 1 ≤ k) (UPDATE_INTERVAL : duration_t)
    (ops : List Op) :
    ∀ s : RCONActionManager, countType T s.m_Actions ≤ k →
      s.generatorsSubmitOnly (declaresCap T k) →
      (∀ op ∈ ops, op.submitsOnly (declaresCap T k)) →
      countType T (runOps UPDATE_INTERVAL ops s).1.m_Actions ≤ k ∧
      (runOps UPDATE_INTERVAL ops s).1.generatorsSubmitOnly (declaresCap T k) := by
  induction ops with
  | nil => intro s hq hg _; exact ⟨hq, hg⟩
  | cons op rest ih =>
    intro s hq hg hops
    have hop := hops op (List.mem_cons_self _ _)
    have hrest : ∀ op' ∈ rest, op'.submitsOnly (declaresCap T k) :=
      fun op' h => hops op' (List.mem_cons_of_mem _ h)
    simp only [runOps]
    cases op with
    | QueueAction action =>
      exact ih _ (QueueAction_count_le T k hk s.m_Actions action hop hq) hg hrest
    | AddPeriodicActionGenerator g =>
      refine ih _ hq ⟨?_, hg.2⟩ hrest
      intro g' hg'
      simp only [Op.apply, RCONActionManager.AddPeriodicActionGenerator, List.mem_append,
        List.mem_singleton] at hg'
      rcases hg' with hg' | rfl
      · exact hg.1 g' hg'
      · exact hop
    | AddPiggybackActionGenerator g =>
      refine ih _ hq ⟨hg.1, ?_⟩ hrest
      intro g' hg'
      simp only [Op.apply, RCONActionManager.AddPiggybackActionGenerator, List.mem_append,
        List.mem_singleton] at hg'
      rcases hg' with hg' | rfl
      · exact hg.2 g' hg'
      · exact hop
    | Update curTime =>
      obtain ⟨h1, h2⟩ := Update_inv T k hk UPDATE_INTERVAL curTime s hq hg
      exact ih _ h1 h2 hrest

/-- Claim C11 (as amended). Queue cap invariant: let every action of type `T` that
enters the manager declare the same `maxQueuedCount = k` with `k ≥ 1` (the actions
submitted by `QueueAction` and those submitted by the registered periodic and piggyback
generators). Then in every state reached from an empty action queue by any sequence of
`QueueAction`, generator registration and `Update` operations, the number of queued
actions of type `T` is at most `k`; this also holds inside a tick, after the periodic
generators have run. -/
theorem C11_queue_cap_invariant (UPDATE_INTERVAL : duration_t) (T : ActionType) (k : Nat)
    (hk : 1 ≤ k) (s₀ : RCONActionManager) (hempty : s₀.m_Actions = [])
    (hgen : s₀.generatorsSubmitOnly (declaresCap T k)) (ops : List Op)
    (hops : ∀ op ∈ ops, op.submitsOnly (declaresCap T k)) :
    countType T (runOps UPDATE_INTERVAL ops s₀).1.m_Actions ≤ k ∧
    countType T (Update.periodic (runOps UPDATE_INTERVAL ops s₀).1).1.m_Actions ≤ k := by
  have h0 : countType T s₀.m_Actions ≤ k := by rw [hempty]; simp [countType]
  obtain ⟨h1, h2⟩ := runOps_inv T k hk UPDATE_INTERVAL ops s₀ h0 hgen hops
  exact ⟨h1, (Update.periodic_inv T k hk _ h1 h2).1⟩

/-- A run of C11: Status actions (type 5, cap 1) are submitted by hand and by a periodic
generator; at the end one Status action is queued. -/
theorem C11_queue_cap_invariant_witness :
    ((1 ≤ 1) ∧ (RCONActionManager.init exSettings).m_Actions = [] ∧
      (RCONActionManager.init exSettings).generatorsSubmitOnly (declaresCap 5 1) ∧
      ∀ op ∈ exOps, op.submitsOnly (declaresCap 5 1)) ∧
    countType 5 (runOps 1 exOps (RCONActionManager.init exSettings)).1.m_Actions = 1 ∧
    countType 5 (runOps 1 exOps (RCONActionManager.init exSettings)).1.m_Actions ≤ 1 ∧
    countType 5
      (Update.periodic (runOps 1 exOps (RCONActionManager.init exSettings)).1).1.m_Actions ≤ 1 :=
  ⟨⟨by decide, rfl,
      by simp [RCONActionManager.generatorsSubmitOnly, RCONActionManager.init],
      by simp [exOps, Op.submitsOnly, declaresCap, IActionGenerator.submitsOnly, exGenerator,
        exStatus]⟩,
   by decide,
   C11_queue_cap_invariant 1 5 1 (by decide) (RCONActionManager.init exSettings) rfl
     (by simp [RCONActionManager.generatorsSubmitOnly, RCONActionManager.init])
     exOps
     (by simp [exOps, Op.submitsOnly, declaresCap, IActionGenerator.submitsOnly, exGenerator,
        exStatus])⟩

/-- Counterexample to claim C11: the claim as stated fails for the cap `k = 0`: after the
single submission of an action of type 3 declaring `maxQueuedCount = 0` to the freshly
constructed manager, one action of type 3 is queued, which is more than 0. -/
theorem C11_counterexample_cap_zero :
    (RCONActionManager.init exSettings).m_Actions = [] ∧
    exCapZero.GetType = 3 ∧ exCapZero.GetMaxQueuedCount = 0 ∧
    (runOps 1 [Op.QueueAction exCapZero] (RCONActionManager.init exSettings)).1.m_Actions
      = [exCapZero] ∧
    countType 3
      (runOps 1 [Op.QueueAction exCapZero] (RCONActionManager.init exSettings)).1.m_Actions = 1 ∧
    ¬ countType 3
      (runOps 1 [Op.QueueAction exCapZero] (RCONActionManager.init exSettings)).1.m_Actions
        ≤ exCapZero.GetMaxQueuedCount := by
  decide

/-! ## The second pass -/

theorem ProcessAction.gated_congr (curTime : time_point_t) (a : IAction) (f f' : UpdateFrame)
    (h1 : f'.actionTypes = f.actionTypes)
    (h2 : f'.self.m_LastTriggerTime = f.self.m_LastTriggerTime) :
    ProcessAction.gated curTime a f' = ProcessAction.gated curTime a f := by
  unfold ProcessAction.gated
  rw [h1, h2]

/-- A gated action stays gated when another action is processed: flags are only set,
and a trigger time only moves to `curTime`. -/
theorem ProcessAction.gated_mono (curTime : time_point_t) (a b : IAction) (f : UpdateFrame)
    (h : ProcessAction.gated curTime a f = true) :
    ProcessAction.gated curTime a (ProcessAction curTime b f).2.1 = true := by
  cases hb : ProcessAction.gated curTime b f
  · obtain ⟨_, _, hfl, hlast, _⟩ := ProcessAction_fired curTime b f hb
    unfold ProcessAction.gated at h ⊢
    rw [hfl, hlast]
    simp only [Bool.and_eq_true, decide_eq_true_eq, Bool.or_eq_true] at h ⊢
    refine ⟨h.1, ?_⟩
    by_cases hT : a.GetType = b.GetType
    · left
      rw [hT]
      simp
    · rw [Function.update_noteq hT, Function.update_noteq hT]
      exact h.2
  · rw [ProcessAction_gated curTime b f hb]
    exact h

theorem ProcessActions.loop_gated_mono (curTime : time_point_t) (a : IAction)
    (l : List IAction) :
    ∀ f : UpdateFrame, ProcessAction.gated curTime a f = true →
      ProcessAction.gated curTime a (ProcessActions.loop curTime l f).2.1 = true := by
  induction l with
  | nil => intro f h; exact h
  | cons b rest ih =>
    intro f h
    simp only [ProcessActions.loop]
    exact ih _ (ProcessAction.gated_mono curTime a b f h)

/-- Every action that a pass keeps is gated in the captured state the pass leaves. -/
theorem ProcessActions.loop_kept_gated (curTime : time_point_t) (l : List IAction) :
    ∀ f : UpdateFrame, ∀ a ∈ (ProcessActions.loop curTime l f).1,
      ProcessAction.gated curTime a (ProcessActions.loop curTime l f).2.1 = true := by
  induction l with
  | nil => intro f a ha; simp [ProcessActions.loop] at ha
  | cons b rest ih =>
    intro f a ha
    simp only [ProcessActions.loop] at ha ⊢
    cases hb : ProcessAction.gated curTime b f
    · rw [ProcessAction_fst, hb] at ha
      simp only [Bool.not_false, if_true] at ha
      exact ih _ a ha
    · rw [ProcessAction_fst, hb] at ha
      simp only [Bool.not_true, Bool.false_eq_true, if_false, List.mem_cons] at ha
      rcases ha with rfl | ha
      · apply ProcessActions.loop_gated_mono
        rw [ProcessAction_gated curTime a f hb]
        exact hb
      · exact ih _ a ha

/-- A pass over actions that are all gated keeps them all and calls nothing. -/
theorem ProcessActions.loop_all_gated (curTime : time_point_t) (l : List IAction) :
    ∀ f : UpdateFrame, (∀ a ∈ l, ProcessAction.gated curTime a f = true) →
      ProcessActions.loop curTime l f = (l, f, []) := by
  induction l with
  | nil => intro f _; rfl
  | cons b rest ih =>
    intro f h
    have hb := h b (List.mem_cons_self _ _)
    simp only [ProcessActions.loop, ProcessAction_gated curTime b f hb]
    rw [ih f (fun a ha => h a (List.mem_cons_of_mem _ ha))]
    simp

theorem selectBy_sublist (keep : Bool) (l : List IAction) :
    ∀ flags : List Bool, (selectBy keep l flags).Sublist l := by
  induction l with
  | nil => intro flags; cases flags <;> simp [selectBy]
  | cons a rest ih =>
    intro flags
    cases flags with
    | nil => simp [selectBy]
    | cons c flags =>
      simp only [selectBy]
      split
      · exact (ih flags).cons₂ a
      · exact (ih flags).cons a

theorem submitAll_append (subs : List IAction) :
    ∀ q : List IAction, ∃ added, (submitAll q subs).2 = q ++ added := by
  induction subs with
  | nil => intro q; exact ⟨[], by simp [submitAll]⟩
  | cons a rest ih =>
    intro q
    obtain ⟨added, h⟩ := ih (QueueAction q a).2
    simp only [submitAll]
    rw [h, QueueAction_snd]
    split
    · exact ⟨a :: added, by simp⟩
    · exact ⟨added, rfl⟩

theorem executeGenerators_append (mk : Nat → UpdateEvent) (gens : List IActionGenerator) :
    ∀ (index : Nat) (q : List IAction),
      ∃ added, (executeGenerators mk gens index q).2.1 = q ++ added := by
  induction gens with
  | nil => intro index q; exact ⟨[], by simp [executeGenerators]⟩
  | cons g rest ih =>
    intro index q
    obtain ⟨a1, h1⟩ := submitAll_append (g.Execute g.state q).2 q
    obtain ⟨a2, h2⟩ := ih (index + 1) (submitAll q (g.Execute g.state q).2).2
    simp only [executeGenerators]
    rw [h2, h1]
    exact ⟨a1 ++ a2, by simp⟩

/-- The piggyback generators only append: the queue with which the second pass starts
is the queue the primary pass left, followed by the appended actions. -/
theorem Update.secondFrame_m_Actions (f : UpdateFrame) :
    (Update.secondFrame f).self.m_Actions = f.self.m_Actions ++ Update.appended f := by
  obtain ⟨added, h⟩ := executeGenerators_append UpdateEvent.piggybackExecute
    f.self.m_PiggybackActionGenerators 0 f.self.m_Actions
  have h' : (Update.secondFrame f).self.m_Actions = f.self.m_Actions ++ added := h
  unfold Update.appended
  rw [h']
  simp

theorem Update.piggybackPass_eq (curTime : time_point_t) (f : UpdateFrame)
    (h : f.m_AnyCmdsRun = true) :
    Update.piggybackPass curTime f =
      ((ProcessActions curTime (Update.secondFrame f)).1,
        (List.range f.self.m_PiggybackActionGenerators.length).map UpdateEvent.piggybackExecute
          ++ (ProcessActions curTime (Update.secondFrame f)).2) := by
  unfold Update.piggybackPass
  rw [if_pos h]
  simp only [executeGenerators_events, List.range_eq_range']
  rfl

theorem Update.primaryPass_kept_gated (curTime : time_point_t) (self : RCONActionManager) :
    ∀ a ∈ (Update.primaryPass curTime self).1.self.m_Actions,
      ProcessAction.gated curTime a (Update.secondFrame (Update.primaryPass curTime self).1)
        = true := by
  intro a ha
  rw [Update.primaryPass_m_Actions] at ha
  have hk := ProcessActions.loop_kept_gated curTime _ _ a ha
  obtain ⟨h1, _, h3, _⟩ := Update.primaryPass_frame curTime self
  rw [← hk]
  exact ProcessAction.gated_congr curTime a _ _ h1 h3

/-- Claim C15. The piggyback pass handles only new actions, once: in a processed
`Update` in which the piggyback generators run (the primary pass wrote a command), the
calls made by the tick are those of the periodic generators, of the primary pass, of the
piggyback generators and of exactly one further pass. The queue with which that pass
starts is the queue the primary pass left followed by the actions the piggyback
generators appended; every action the primary pass left is still gated, so the second
pass keeps all of them, in place, and invokes nothing on them; every action the second
pass fires is one of the appended actions; and the queue after the tick is the queue
the primary pass left followed by the appended actions the second pass kept. -/
theorem C15_piggyback_pass_new_actions (UPDATE_INTERVAL : duration_t)
    (curTime : time_point_t) (self : RCONActionManager)
    (hproc : ¬ curTime < self.m_LastUpdateTime + UPDATE_INTERVAL)
    (hrun : writtenCommands (Update.primaryPass curTime self).2 ≠ []) :
    (self.Update UPDATE_INTERVAL curTime).2
      = (Update.periodic self).2 ++ (Update.primaryPass curTime self).2
        ++ ((List.range self.m_PiggybackActionGenerators.length).map
              UpdateEvent.piggybackExecute
            ++ (ProcessActions curTime
                (Update.secondFrame (Update.primaryPass curTime self).1)).2) ∧
    (Update.secondFrame (Update.primaryPass curTime self).1).self.m_Actions
      = (Update.primaryPass curTime self).1.self.m_Actions
        ++ Update.appended (Update.primaryPass curTime self).1 ∧
    (∀ a ∈ (Update.primaryPass curTime self).1.self.m_Actions,
      ProcessAction.gated curTime a (Update.secondFrame (Update.primaryPass curTime self).1)
        = true) ∧
    ProcessActions.loop curTime (Update.primaryPass curTime self).1.self.m_Actions
        (Update.secondFrame (Update.primaryPass curTime self).1)
      = ((Update.primaryPass curTime self).1.self.m_Actions,
          Update.secondFrame (Update.primaryPass curTime self).1, []) ∧
    (firedActions
        (ProcessActions curTime (Update.secondFrame (Update.primaryPass curTime self).1)).2).Sublist
      (Update.appended (Update.primaryPass curTime self).1) ∧
    (self.Update UPDATE_INTERVAL curTime).1.m_Actions
      = (Update.primaryPass curTime self).1.self.m_Actions
        ++ (ProcessActions.loop curTime (Update.appended (Update.primaryPass curTime self).1)
            (Update.secondFrame (Update.primaryPass curTime self).1)).1 := by
  have hany : (Update.primaryPass curTime self).1.m_AnyCmdsRun = true := by
    rw [Update.primaryPass_m_AnyCmdsRun]
    cases h : writtenCommands (Update.primaryPass curTime self).2 with
    | nil => exact absurd h hrun
    | cons c rest => rfl
  have hkept := Update.primaryPass_kept_gated curTime self
  have hall := ProcessActions.loop_all_gated curTime _ _ hkept
  have hq := Update.secondFrame_m_Actions (Update.primaryPass curTime self).1
  have hloop : ProcessActions.loop curTime
      (Update.secondFrame (Update.primaryPass curTime self).1).self.m_Actions
      (Update.secondFrame (Update.primaryPass curTime self).1)
      = ((Update.primaryPass curTime self).1.self.m_Actions
          ++ (ProcessActions.loop curTime (Update.appended (Update.primaryPass curTime self).1)
              (Update.secondFrame (Update.primaryPass curTime self).1)).1,
         (ProcessActions.loop curTime (Update.appended (Update.primaryPass curTime self).1)
              (Update.secondFrame (Update.primaryPass curTime self).1)).2.1,
         (ProcessActions.loop curTime (Update.appended (Update.primaryPass curTime self).1)
              (Update.secondFrame (Update.primaryPass curTime self).1)).2.2) := by
    rw [hq, ProcessActions.loop_append, hall]
    simp
  refine ⟨?_, hq, hkept, hall, ?_, ?_⟩
  · unfold RCONActionManager.Update
    rw [if_neg hproc]
    simp only [Update.piggybackPass_eq curTime _ hany,
      (Update.primaryPass_frame curTime self).2.2.2]
  · simp only [ProcessActions]
    rw [hloop, (ProcessActions.loop_selectBy curTime _ _).2]
    exact selectBy_sublist false _ _
  · unfold RCONActionManager.Update
    rw [if_neg hproc]
    simp only [Update.piggybackPass_eq curTime _ hany, ProcessActions]
    rw [hloop]

/-- A run of C15: at clock time 103 the chat message fires and writes a command, the
Status action (last fired at 100, cooldown 5) is gated; the piggyback generator appends
another chat message, which the second pass fires (type 2 has no cooldown); the Status
action stays queued. -/
theorem C15_piggyback_pass_new_actions_witness :
    ((¬ (103 : Int) < exPiggyback.m_LastUpdateTime + 1) ∧
      writtenCommands (Update.primaryPass 103 exPiggyback).2 ≠ []) ∧
    ((Update.primaryPass 103 exPiggyback).1.self.m_Actions = [exStatus] ∧
      Update.appended (Update.primaryPass 103 exPiggyback).1 = [exChatB] ∧
      firedActions (exPiggyback.Update 1 103).2 = [exChatA, exChatB]) ∧
    (exPiggyback.Update 1 103).1.m_Actions
      = (Update.primaryPass 103 exPiggyback).1.self.m_Actions
        ++ (ProcessActions.loop 103 (Update.appended (Update.primaryPass 103 exPiggyback).1)
            (Update.secondFrame (Update.primaryPass 103 exPiggyback).1)).1 :=
  ⟨⟨by decide, by decide⟩, ⟨by decide, by decide, by decide⟩,
   (C15_piggyback_pass_new_actions 1 103 exPiggyback (by decide) (by decide)).2.2.2.2.2⟩

/-! ## Connecting and disconnecting -/

theorem Attempt.outcome_eq_none (connected : Bool) (a : Attempt) :
    a.outcome connected = none ↔
      a.lockAcquired = false ∨ (connected = false ∧ a.connect = false) ∨
        a.send_command = none := by
  unfold Attempt.outcome
  cases a.lockAcquired <;> cases connected <;> cases a.connect <;> simp

/-- After a disconnect, a call of `RunCommand` that acquires the lock connects first. -/
theorem RunCommand_reconnects (s : RCONActionManager) (cmd : String) (a : Attempt)
    (hc : s.m_RCONClient_connected = false) (hl : a.lockAcquired = true) :
    (s.RunCommand cmd a).2.2.head?
      = some (DispatchEvent.connect "127.0.0.1" s.m_Settings.m_RCONPassword
          s.m_Settings.m_RCONPort) := by
  unfold RCONActionManager.RunCommand
  cases hcon : a.connect <;> simp [hc, hl]

/-- Claim C17. Disconnect on every failure: an attempt fails exactly when the client
lock is not acquired within the timeout, `connect` fails, or `send_command` fails. For
a dispatch step on a command with a pending result handle, reliable or best-effort:
when the attempt fails, `m_RCONClient.disconnect()` is called and the client is not
connected when the step ends, so the next `RunCommand` that acquires the lock starts by
connecting; when the attempt succeeds, `disconnect` is not called and the client is
connected when the step ends. -/
theorem C17_disconnect_on_failure (a : Attempt) (s : RCONActionManager) (cmd : RCONCommand)
    (rest : List RCONCommand) (hq : s.m_RCONCommands = cmd :: rest)
    (hpend : s.promises cmd.m_Promise = PromiseState.pending) :
    (a.outcome s.m_RCONClient_connected = none ↔
      a.lockAcquired = false ∨ (s.m_RCONClient_connected = false ∧ a.connect = false) ∨
        a.send_command = none) ∧
    ∃ s₁ ev, RCONThreadFunc.step a s = some (s₁, ev) ∧
      (if a.outcome s.m_RCONClient_connected = none then
        DispatchEvent.disconnect ∈ ev ∧ s₁.m_RCONClient_connected = false ∧
        ∀ (a₁ : Attempt) (cmd₁ : String), a₁.lockAcquired = true →
          (s₁.RunCommand cmd₁ a₁).2.2.head?
            = some (DispatchEvent.connect "127.0.0.1" s₁.m_Settings.m_RCONPassword
                s₁.m_Settings.m_RCONPort)
      else
        DispatchEvent.disconnect ∉ ev ∧ s₁.m_RCONClient_connected = true) := by
  refine ⟨Attempt.outcome_eq_none _ a, ?_⟩
  obtain ⟨_, _, _, _, hdis, _⟩ := RunCommand_events s cmd.m_Command a
  cases hrel : cmd.m_Reliable <;> cases hout : a.outcome s.m_RCONClient_connected
  · refine ⟨_, _, step_besteffort_fail a s cmd rest hq hrel hpend hout, ?_⟩
    simp only [if_true]
    exact ⟨by simp, trivial, fun a₁ cmd₁ h => RunCommand_reconnects _ cmd₁ a₁ rfl h⟩
  · rename_i r
    refine ⟨_, _, step_besteffort_ok a s cmd rest r hq hrel hpend hout, ?_⟩
    simp only [reduceCtorEq, if_false]
    refine ⟨?_, trivial⟩
    cases r.isEmpty <;> simp [hdis]
  · refine ⟨_, _, step_reliable_fail a s cmd rest hq hrel hout, ?_⟩
    simp only [if_true]
    exact ⟨by simp, trivial, fun a₁ cmd₁ h => RunCommand_reconnects _ cmd₁ a₁ rfl h⟩
  · rename_i r
    refine ⟨_, _, step_reliable_ok a s cmd rest r hq hrel hpend hout, ?_⟩
    simp only [reduceCtorEq, if_false]
    refine ⟨?_, trivial⟩
    cases r.isEmpty <;> simp [hdis]

/-- A run of C17: the reliable command `"status"` is at the head and `send_command`
throws; the step disconnects the client. -/
theorem C17_disconnect_on_failure_witness :
    (exReliableQueued.m_RCONCommands = ⟨"status", true, 0⟩ :: [] ∧
      exReliableQueued.promises 0 = PromiseState.pending ∧
      exSendThrows.outcome exReliableQueued.m_RCONClient_connected = none) ∧
    ∃ s₁ ev, RCONThreadFunc.step exSendThrows exReliableQueued = some (s₁, ev) ∧
      (if exSendThrows.outcome exReliableQueued.m_RCONClient_connected = none then
        DispatchEvent.disconnect ∈ ev ∧ s₁.m_RCONClient_connected = false ∧
        ∀ (a₁ : Attempt) (cmd₁ : String), a₁.lockAcquired = true →
          (s₁.RunCommand cmd₁ a₁).2.2.head?
            = some (DispatchEvent.connect "127.0.0.1" s₁.m_Settings.m_RCONPassword
                s₁.m_Settings.m_RCONPort)
      else
        DispatchEvent.disconnect ∉ ev ∧ s₁.m_RCONClient_connected = true) :=
  ⟨⟨by decide, by decide, by decide⟩,
   (C17_disconnect_on_failure exSendThrows exReliableQueued ⟨"status", true, 0⟩ []
      (by decide) (by decide)).2⟩

/-- Claim C18 (as amended). Connect before send, for every state of the client and
every behaviour of the lock and of the client. When the lock on `m_RCONClientMutex` is
not acquired within the timeout, `RunCommand(cmd)` throws before touching the client:
it calls neither `connect` nor `send_command`, whether the client is connected or not,
and leaves the manager as it is. When the lock is acquired, it calls `connect` exactly
when the client is not connected, with the fixed host `"127.0.0.1"` and the password
and port of the settings, before sending `cmd`; when the client is connected it sends
`cmd` without connecting; and when `connect` does not throw, it returns what
`send_command(cmd)` returns, unchanged. When `connect` throws, `cmd` is not sent. -/
theorem C18_connect_before_send (s : RCONActionManager) (cmd : String) (a : Attempt) :
    if a.lockAcquired = false then
      s.RunCommand cmd a = (none, s, [])
    else if s.m_RCONClient_connected = true then
      s.RunCommand cmd a = (a.send_command, s, [DispatchEvent.send_command cmd])
    else if a.connect = true then
      s.RunCommand cmd a
        = (a.send_command, { s with m_RCONClient_connected := true },
            [DispatchEvent.connect "127.0.0.1" s.m_Settings.m_RCONPassword
              s.m_Settings.m_RCONPort,
             DispatchEvent.send_command cmd])
    else
      s.RunCommand cmd a
        = (none, s,
            [DispatchEvent.connect "127.0.0.1" s.m_Settings.m_RCONPassword
              s.m_Settings.m_RCONPort]) := by
  unfold RCONActionManager.RunCommand
  cases hl : a.lockAcquired <;> cases hc : s.m_RCONClient_connected <;>
    cases hcon : a.connect <;> simp

/-- Runs of C18. The client of the freshly constructed manager is not connected: with
the lock acquired the call connects to `"127.0.0.1"` with the password and port of the
settings and sends; with the lock timed out it calls nothing and throws. A manager
whose client is connected: with the lock acquired it sends without connecting; with the
lock timed out it calls nothing and throws, and does not send. -/
theorem C18_connect_before_send_witness :
    ((RCONActionManager.init exSettings).RunCommand "status" exSendAlice
      = (some "name: Alice\n",
          { RCONActionManager.init exSettings with m_RCONClient_connected := true },
          [DispatchEvent.connect "127.0.0.1" "hunter2" 27015,
           DispatchEvent.send_command "status"])) ∧
    ((RCONActionManager.init exSettings).RunCommand "status" exLockTimeout
      = (none, RCONActionManager.init exSettings, [])) ∧
    (exConnected.RunCommand "status" exSendAlice
      = (some "name: Alice\n", exConnected, [DispatchEvent.send_command "status"])) ∧
    (exConnected.RunCommand "status" exLockTimeout = (none, exConnected, [])) :=
  ⟨by
    have h := C18_connect_before_send (RCONActionManager.init exSettings) "status" exSendAlice
    simpa [RCONActionManager.init, exSendAlice, exSettings] using h,
   by
    have h := C18_connect_before_send (RCONActionManager.init exSettings) "status"
      exLockTimeout
    simpa [exLockTimeout] using h,
   by
    have h := C18_connect_before_send exConnected "status" exSendAlice
    simpa [exConnected, RCONActionManager.init, exSendAlice] using h,
   by
    have h := C18_connect_before_send exConnected "status" exLockTimeout
    simpa [exLockTimeout] using h⟩

/-- Counterexample to claim C18: with the client not connected and the lock not acquired
within the timeout, `RunCommand` calls nothing on the client (`connect` is not called
although the connection is not established) and returns nothing, although
`send_command` would return a response. And the host passed to `connect` is the literal
`"127.0.0.1"` for two managers whose settings differ in every member: it is not
supplied by the settings. -/
theorem C18_counterexample_lock_and_host :
    (RCONActionManager.init exSettings).m_RCONClient_connected = false ∧
    exLockTimeout.send_command = some "ok" ∧
    ((RCONActionManager.init exSettings).RunCommand "status" exLockTimeout).2.2 = [] ∧
    ((RCONActionManager.init exSettings).RunCommand "status" exLockTimeout).1 = none ∧
    ((RCONActionManager.init exSettings).RunCommand "status" exSendAlice).2.2
      = [DispatchEvent.connect "127.0.0.1" "hunter2" 27015,
         DispatchEvent.send_command "status"] ∧
    ((RCONActionManager.init exOtherSettings).RunCommand "status" exSendAlice).2.2
      = [DispatchEvent.connect "127.0.0.1" "other" 1, DispatchEvent.send_command "status"] := by
  decide

/-! ## PlayerListJSON: the round trip of player attributes -/

/-- The loop of `from_json` throws on an array that contains a string other than the
four attribute names, wherever the string stands. -/
theorem from_json.loop_unknown (set : Bool) (str : String) (post : List Json)
    (hstr : str ∉ ["cheater", "suspicious", "exploiter", "racist"]) (pre : List Json) :
    ∀ d : PlayerAttributesList,
      ∃ e, from_json.loop set (pre ++ Json.string str :: post) d = Except.error e := by
  simp only [List.mem_cons, List.mem_singleton, List.not_mem_nil, or_false, not_or] at hstr
  induction pre with
  | nil =>
    intro d
    exact ⟨JsonError.runtime_error str, by simp [from_json.loop, hstr]⟩
  | cons x rest ih =>
    intro d
    cases x with
    | string s0 =>
      simp only [List.cons_append, from_json.loop]
      split
      · exact ih _
      · split
        · exact ih _
        · split
          · exact ih _
          · split
            · exact ih _
            · exact ⟨_, rfl⟩
    | null => exact ⟨_, rfl⟩
    | boolean b => exact ⟨_, rfl⟩
    | number_integer n => exact ⟨_, rfl⟩
    | number_unsigned n => exact ⟨_, rfl⟩
    | number_float n => exact ⟨_, rfl⟩
    | array l => exact ⟨_, rfl⟩
    | object l => exact ⟨_, rfl⟩
    | binary l => exact ⟨_, rfl⟩

/-- Claim C20. Player attribute JSON round trip: with the default argument of
`SetAttribute` being `true` (a call `SetAttribute(attribute)` sets the attribute), for
every `PlayerAttributesList` `d` and whatever `j` held before, `from_json` applied to
the array produced by `to_json(j, d)` returns, and yields a list equal to `d` (on all
four attributes); `from_json` throws on a JSON value `j₁` that is not an array, and on
an array `pre ++ str :: post` that contains a string `str` other than `"cheater"`,
`"suspicious"`, `"exploiter"` and `"racist"`. -/
theorem C20_attributes_round_trip (set : Bool) (hset : set = true) (j : Json)
    (d : PlayerAttributesList) (j₁ : Json) (hj₁ : j₁.is_array = false)
    (pre post : List Json) (str : String)
    (hstr : str ∉ ["cheater", "suspicious", "exploiter", "racist"]) :
    from_json set (to_json j d) = Except.ok d ∧
    (∀ attr : PlayerAttributes,
      ∃ d₁, from_json set (to_json j d) = Except.ok d₁ ∧
        d₁.HasAttribute attr = d.HasAttribute attr) ∧
    from_json set j₁ = Except.error (JsonError.invalid_argument "json must be an array") ∧
    (∃ e, from_json set (Json.array (pre ++ Json.string str :: post)) = Except.error e) := by
  have hround : from_json set (to_json j d) = Except.ok d := by
    subst hset
    obtain ⟨c, s0, e, r⟩ := d
    cases c <;> cases s0 <;> cases e <;> cases r <;>
      simp [from_json, to_json, from_json.loop, PlayerAttributesList.HasAttribute,
        PlayerAttributesList.SetAttribute, PlayerAttributesList.empty]
  refine ⟨hround, fun attr => ⟨d, hround, rfl⟩, ?_, ?_⟩
  · cases j₁ <;> first | rfl | simp [Json.is_array] at hj₁
  · exact from_json.loop_unknown set str post hstr pre PlayerAttributesList.empty

/-- A run of C20: the list with the attributes cheater and racist; `null` is not an
array; `"bot"` is not an attribute name. -/
theorem C20_attributes_round_trip_witness :
    (true = true ∧ Json.null.is_array = false ∧
      "bot" ∉ ["cheater", "suspicious", "exploiter", "racist"]) ∧
    from_json true (to_json Json.null exAttributes) = Except.ok exAttributes ∧
    (∀ attr : PlayerAttributes,
      ∃ d₁, from_json true (to_json Json.null exAttributes) = Except.ok d₁ ∧
        d₁.HasAttribute attr = exAttributes.HasAttribute attr) ∧
    from_json true Json.null
      = Except.error (JsonError.invalid_argument "json must be an array") ∧
    (∃ e, from_json true
        (Json.array ([Json.string "cheater"] ++ Json.string "bot" :: [])) = Except.error e) :=
  ⟨⟨rfl, rfl, by decide⟩,
   C20_attributes_round_trip true rfl Json.null exAttributes Json.null rfl
    [Json.string "cheater"] [] "bot" (by decide)⟩

end tf2_bot_detector
